import Mathlib

/-!
Verification development for the front end of an SML compiler: a shallow
embedding of the parser (`src/crates/core/src/parse.rs`) and the static
checker (`src/crates/core/src/statics/ck/top_dec.rs`,
`src/crates/core/src/statics/ck/dec.rs`), together with theorems settling
the specification claims about them.

Conventions:
- Functions whose Rust source is available are translated line by line and
  keep the source's names (up to Lean lexical restrictions, noted locally).
- Components of the repository whose sources are not available (the string
  interner, location model, token model, AST, the statics `types`, `util`,
  `pat`, `ty` and `exhaustive` modules) are modelled from the specification;
  each such definition carries a doc comment starting `Modelled from the
  spec:`.
- Rust's recursion is embedded with an explicit fuel parameter (`Nat`); on
  exhausted fuel a computation answers with a distinguished out-of-fuel
  result, never with a value the Rust code could not produce.
-/

/-- Modelled from the spec: `StrId` (here `StrRef`, the name used by the
sources), an opaque comparable handle produced by the string interner, with a
reserved table of built-in identifiers. -/
structure StrRef where
  id : Nat
  deriving DecidableEq, Repr

/-- Modelled from the spec: reserved interner entry for `::`. -/
def StrRef.CONS : StrRef := ⟨0⟩

/-- Modelled from the spec: reserved interner entry for `=`. -/
def StrRef.EQ : StrRef := ⟨1⟩

/-- Modelled from the spec: reserved interner entry for `:=`. -/
def StrRef.ASSIGN : StrRef := ⟨2⟩

/-- Modelled from the spec: reserved interner entry for `div`. -/
def StrRef.DIV : StrRef := ⟨3⟩

/-- Modelled from the spec: reserved interner entry for `mod`. -/
def StrRef.MOD : StrRef := ⟨4⟩

/-- Modelled from the spec: reserved interner entry for `*`. -/
def StrRef.STAR : StrRef := ⟨5⟩

/-- Modelled from the spec: reserved interner entry for `/`. -/
def StrRef.SLASH : StrRef := ⟨6⟩

/-- Modelled from the spec: reserved interner entry for `+`. -/
def StrRef.PLUS : StrRef := ⟨7⟩

/-- Modelled from the spec: reserved interner entry for `-`. -/
def StrRef.MINUS : StrRef := ⟨8⟩

/-- Modelled from the spec: reserved interner entry for `<`. -/
def StrRef.LT : StrRef := ⟨9⟩

/-- Modelled from the spec: reserved interner entry for `>`. -/
def StrRef.GT : StrRef := ⟨10⟩

/-- Modelled from the spec: reserved interner entry for `<=`. -/
def StrRef.LT_EQ : StrRef := ⟨11⟩

/-- Modelled from the spec: reserved interner entry for `>=`. -/
def StrRef.GT_EQ : StrRef := ⟨12⟩

/-- Modelled from the spec: reserved interner entry for `true`. -/
def StrRef.TRUE : StrRef := ⟨13⟩

/-- Modelled from the spec: reserved interner entry for `false`. -/
def StrRef.FALSE : StrRef := ⟨14⟩

/-- Modelled from the spec: reserved interner entry for `nil`. -/
def StrRef.NIL : StrRef := ⟨15⟩

/-- Modelled from the spec: reserved interner entry for `ref`. -/
def StrRef.REF : StrRef := ⟨16⟩

/-- Modelled from the spec: `Loc`, a half-open byte range into the source. -/
structure Loc where
  lo : Nat
  hi : Nat
  deriving DecidableEq, Repr

/-- Modelled from the spec: `Loc::span(a, b)` is the smallest range enclosing
both. -/
def Loc.span (a b : Loc) : Loc :=
  ⟨min a.lo b.lo, max a.hi b.hi⟩

/-- Modelled from the spec: `Located<T>` pairs a value with its `Loc`. -/
structure Located (α : Type) where
  loc : Loc
  val : α
  deriving DecidableEq, Repr

/-- Modelled from the spec: `Loc::wrap(val)` makes a `Located` value. -/
def Loc.wrap {α : Type} (l : Loc) (v : α) : Located α :=
  ⟨l, v⟩

/-- Modelled from the spec: the identifier-kind tag on identifier tokens. -/
inductive IdentType where
  | AlphaNum : IdentType
  | Symbolic : IdentType
  deriving DecidableEq, Repr

/-- Modelled from the spec: the "may-be-numeric-label" hint on decimal
integer literal tokens. -/
inductive IsNumLab where
  | Maybe : IsNumLab
  | No : IsNumLab
  deriving DecidableEq, Repr

/-- Modelled from the spec: a type-variable token (`'a`, `''a`), carrying its
name and whether it is an equality type variable. -/
structure TyVarTok where
  name : StrRef
  equality : Bool
  deriving DecidableEq, Repr

/-- Modelled from the spec: the closed set of lexical token classes consumed
by the parser. `Type` is a Lean keyword, so the `Token::Type` constructor is
named `Typ` here, and `Token::String` is named `Str` to avoid shadowing the
`String` type; `Real`'s payload is the raw bit pattern of the literal and
`Char`'s its code point, neither of which the parser inspects. -/
inductive Token where
  | DecInt : Int → IsNumLab → Token
  | HexInt : Int → Token
  | DecWord : Nat → Token
  | HexWord : Nat → Token
  | Real : Nat → Token
  | Str : StrRef → Token
  | Char : Nat → Token
  | TyVar : TyVarTok → Token
  | Ident : StrRef → IdentType → Token
  | Abstype | And | Andalso | As | Case | Datatype | Do | Else | End
  | Exception | Fn | Fun | Handle | If | In | Infix | Infixr | Let | Local
  | Nonfix | Of | Op | Open | Orelse | Raise | Rec | Then | Typ | Val | With
  | Withtype | While | Eqtype | Functor | Include | Sharing | Sig | Signature
  | Struct | Structure | Where | Colon | ColonGt | Comma | DotDotDot | LCurly
  | RCurly | LRound | RRound | LSquare | RSquare | Semicolon | Underscore
  | Bar | Equal | BigArrow | Arrow | Pound | Dot | EOF
  deriving Repr

/-- An injective numeric encoding of tokens, used only to derive a
decidable equality whose compiled form stays shallow (the naive derived
instance produces one flat 69-by-69 matcher). -/
def Token.encode : Token → Nat × Int × Nat × Nat
  | .DecInt v isl => (0, v, (match isl with | .Maybe => 0 | .No => 1), 0)
  | .HexInt v => (1, v, 0, 0)
  | .DecWord n => (2, 0, n, 0)
  | .HexWord n => (3, 0, n, 0)
  | .Real n => (4, 0, n, 0)
  | .Str s => (5, 0, s.id, 0)
  | .Char c => (6, 0, c, 0)
  | .TyVar tv => (7, 0, tv.name.id, (match tv.equality with | false => 0 | true => 1))
  | .Ident s it => (8, 0, s.id, (match it with | .AlphaNum => 0 | .Symbolic => 1))
  | .Abstype => (9, 0, 0, 0)
  | .And => (10, 0, 0, 0)
  | .Andalso => (11, 0, 0, 0)
  | .As => (12, 0, 0, 0)
  | .Case => (13, 0, 0, 0)
  | .Datatype => (14, 0, 0, 0)
  | .Do => (15, 0, 0, 0)
  | .Else => (16, 0, 0, 0)
  | .End => (17, 0, 0, 0)
  | .Exception => (18, 0, 0, 0)
  | .Fn => (19, 0, 0, 0)
  | .Fun => (20, 0, 0, 0)
  | .Handle => (21, 0, 0, 0)
  | .If => (22, 0, 0, 0)
  | .In => (23, 0, 0, 0)
  | .Infix => (24, 0, 0, 0)
  | .Infixr => (25, 0, 0, 0)
  | .Let => (26, 0, 0, 0)
  | .Local => (27, 0, 0, 0)
  | .Nonfix => (28, 0, 0, 0)
  | .Of => (29, 0, 0, 0)
  | .Op => (30, 0, 0, 0)
  | .Open => (31, 0, 0, 0)
  | .Orelse => (32, 0, 0, 0)
  | .Raise => (33, 0, 0, 0)
  | .Rec => (34, 0, 0, 0)
  | .Then => (35, 0, 0, 0)
  | .Typ => (36, 0, 0, 0)
  | .Val => (37, 0, 0, 0)
  | .With => (38, 0, 0, 0)
  | .Withtype => (39, 0, 0, 0)
  | .While => (40, 0, 0, 0)
  | .Eqtype => (41, 0, 0, 0)
  | .Functor => (42, 0, 0, 0)
  | .Include => (43, 0, 0, 0)
  | .Sharing => (44, 0, 0, 0)
  | .Sig => (45, 0, 0, 0)
  | .Signature => (46, 0, 0, 0)
  | .Struct => (47, 0, 0, 0)
  | .Structure => (48, 0, 0, 0)
  | .Where => (49, 0, 0, 0)
  | .Colon => (50, 0, 0, 0)
  | .ColonGt => (51, 0, 0, 0)
  | .Comma => (52, 0, 0, 0)
  | .DotDotDot => (53, 0, 0, 0)
  | .LCurly => (54, 0, 0, 0)
  | .RCurly => (55, 0, 0, 0)
  | .LRound => (56, 0, 0, 0)
  | .RRound => (57, 0, 0, 0)
  | .LSquare => (58, 0, 0, 0)
  | .RSquare => (59, 0, 0, 0)
  | .Semicolon => (60, 0, 0, 0)
  | .Underscore => (61, 0, 0, 0)
  | .Bar => (62, 0, 0, 0)
  | .Equal => (63, 0, 0, 0)
  | .BigArrow => (64, 0, 0, 0)
  | .Arrow => (65, 0, 0, 0)
  | .Pound => (66, 0, 0, 0)
  | .Dot => (67, 0, 0, 0)
  | .EOF => (68, 0, 0, 0)

/-- Left inverse of `Token.encode`. -/
def Token.decode (e : Nat × Int × Nat × Nat) : Option Token :=
  let (tag, v, a, b) := e
  if tag = 0 then some (.DecInt v (if a = 0 then .Maybe else .No))
  else if tag = 1 then some (.HexInt v)
  else if tag = 2 then some (.DecWord a)
  else if tag = 3 then some (.HexWord a)
  else if tag = 4 then some (.Real a)
  else if tag = 5 then some (.Str ⟨a⟩)
  else if tag = 6 then some (.Char a)
  else if tag = 7 then some (.TyVar ⟨⟨a⟩, if b = 0 then false else true⟩)
  else if tag = 8 then some (.Ident ⟨a⟩ (if b = 0 then .AlphaNum else .Symbolic))
  else if tag = 9 then some .Abstype
  else if tag = 10 then some .And
  else if tag = 11 then some .Andalso
  else if tag = 12 then some .As
  else if tag = 13 then some .Case
  else if tag = 14 then some .Datatype
  else if tag = 15 then some .Do
  else if tag = 16 then some .Else
  else if tag = 17 then some .End
  else if tag = 18 then some .Exception
  else if tag = 19 then some .Fn
  else if tag = 20 then some .Fun
  else if tag = 21 then some .Handle
  else if tag = 22 then some .If
  else if tag = 23 then some .In
  else if tag = 24 then some .Infix
  else if tag = 25 then some .Infixr
  else if tag = 26 then some .Let
  else if tag = 27 then some .Local
  else if tag = 28 then some .Nonfix
  else if tag = 29 then some .Of
  else if tag = 30 then some .Op
  else if tag = 31 then some .Open
  else if tag = 32 then some .Orelse
  else if tag = 33 then some .Raise
  else if tag = 34 then some .Rec
  else if tag = 35 then some .Then
  else if tag = 36 then some .Typ
  else if tag = 37 then some .Val
  else if tag = 38 then some .With
  else if tag = 39 then some .Withtype
  else if tag = 40 then some .While
  else if tag = 41 then some .Eqtype
  else if tag = 42 then some .Functor
  else if tag = 43 then some .Include
  else if tag = 44 then some .Sharing
  else if tag = 45 then some .Sig
  else if tag = 46 then some .Signature
  else if tag = 47 then some .Struct
  else if tag = 48 then some .Structure
  else if tag = 49 then some .Where
  else if tag = 50 then some .Colon
  else if tag = 51 then some .ColonGt
  else if tag = 52 then some .Comma
  else if tag = 53 then some .DotDotDot
  else if tag = 54 then some .LCurly
  else if tag = 55 then some .RCurly
  else if tag = 56 then some .LRound
  else if tag = 57 then some .RRound
  else if tag = 58 then some .LSquare
  else if tag = 59 then some .RSquare
  else if tag = 60 then some .Semicolon
  else if tag = 61 then some .Underscore
  else if tag = 62 then some .Bar
  else if tag = 63 then some .Equal
  else if tag = 64 then some .BigArrow
  else if tag = 65 then some .Arrow
  else if tag = 66 then some .Pound
  else if tag = 67 then some .Dot
  else if tag = 68 then some .EOF
  else none

instance : DecidableEq Token := fun a b =>
  decidable_of_iff (Token.encode a = Token.encode b) (by
    have hde : ∀ t : Token, Token.decode (Token.encode t) = some t := by
      intro t
      cases t <;> try rfl
      case DecInt v isl => cases isl <;> rfl
      case TyVar tv =>
        obtain ⟨nm, eq⟩ := tv
        cases eq <;> rfl
      case Ident s it => cases it <;> rfl
    constructor
    · intro h
      have ha := hde a
      rw [h, hde b] at ha
      exact (Option.some.inj ha).symm
    · intro h
      rw [h])

/-- Modelled from the spec: `Token::desc()`, a short description of the token
class used in `ExpectedButFound` diagnostics. Only the strings for tokens
exercised by concrete runs in this file matter; all are distinct per class. -/
def Token.desc : Token → String
  | .DecInt _ _ => "an integer literal"
  | .HexInt _ => "an integer literal"
  | .DecWord _ => "a word literal"
  | .HexWord _ => "a word literal"
  | .Real _ => "a real literal"
  | .Str _ => "a string literal"
  | .Char _ => "a character literal"
  | .TyVar _ => "a type variable"
  | .Ident _ .AlphaNum => "an alphanumeric identifier"
  | .Ident _ .Symbolic => "a symbolic identifier"
  | .Abstype => "`abstype`"
  | .And => "`and`"
  | .Andalso => "`andalso`"
  | .As => "`as`"
  | .Case => "`case`"
  | .Datatype => "`datatype`"
  | .Do => "`do`"
  | .Else => "`else`"
  | .End => "`end`"
  | .Exception => "`exception`"
  | .Fn => "`fn`"
  | .Fun => "`fun`"
  | .Handle => "`handle`"
  | .If => "`if`"
  | .In => "`in`"
  | .Infix => "`infix`"
  | .Infixr => "`infixr`"
  | .Let => "`let`"
  | .Local => "`local`"
  | .Nonfix => "`nonfix`"
  | .Of => "`of`"
  | .Op => "`op`"
  | .Open => "`open`"
  | .Orelse => "`orelse`"
  | .Raise => "`raise`"
  | .Rec => "`rec`"
  | .Then => "`then`"
  | .Typ => "`type`"
  | .Val => "`val`"
  | .With => "`with`"
  | .Withtype => "`withtype`"
  | .While => "`while`"
  | .Eqtype => "`eqtype`"
  | .Functor => "`functor`"
  | .Include => "`include`"
  | .Sharing => "`sharing`"
  | .Sig => "`sig`"
  | .Signature => "`signature`"
  | .Struct => "`struct`"
  | .Structure => "`structure`"
  | .Where => "`where`"
  | .Colon => "`:`"
  | .ColonGt => "`:>`"
  | .Comma => "`,`"
  | .DotDotDot => "`...`"
  | .LCurly => "`\x7b`"
  | .RCurly => "`\x7d`"
  | .LRound => "`(`"
  | .RRound => "`)`"
  | .LSquare => "`[`"
  | .RSquare => "`]`"
  | .Semicolon => "`;`"
  | .Underscore => "`_`"
  | .Bar => "`|`"
  | .Equal => "`=`"
  | .BigArrow => "`=>`"
  | .Arrow => "`->`"
  | .Pound => "`#`"
  | .Dot => "`.`"
  | .EOF => "end of file"

/-- Modelled from the spec: record labels, either positive numeric or
identifier labels, totally ordered (numeric first, then identifiers). -/
inductive Label where
  | Num : Nat → Label
  | Vid : StrRef → Label
  deriving DecidableEq, Repr

/-- Modelled from the spec: the strict order on labels used by ordered record
rows: numeric labels in numeric order, numeric before identifier labels,
identifier labels in interner-handle order. -/
def Label.lt : Label → Label → Bool
  | .Num m, .Num n => m < n
  | .Num _, .Vid _ => true
  | .Vid _, .Num _ => false
  | .Vid a, .Vid b => a.id < b.id

/-- Modelled from the spec: `Label::tuple(idx)` is the 1-based numeric label
of the `idx`-th (0-based) tuple component. -/
def Label.tuple (idx : Nat) : Label :=
  .Num (idx + 1)

/-- Modelled from the spec: `Long<I>` at `I = StrRef`, a dot-separated long
identifier: a (possibly empty) structure path followed by the last
component. -/
structure Long where
  structures : List (Located StrRef)
  last : Located StrRef
  deriving DecidableEq, Repr

/-- Modelled from the spec: `Long::loc()`, the span from the first structure
component to the last component. -/
def Long.loc (l : Long) : Loc :=
  match l.structures with
  | [] => l.last.loc
  | s :: _ => s.loc.span l.last.loc

/-- Modelled from the spec: `Row<T>`, one labelled row of a record
expression, pattern or type. -/
structure Row (α : Type) where
  lab : Located Label
  val : Located α
  deriving Repr

/-- Modelled from the spec: AST type expressions (`ast::Ty`; named `ATy` here
because `Ty` names the semantic types of the statics). -/
inductive ATy where
  | TyVar : TyVarTok → ATy
  | Record : List (Row ATy) → ATy
  | Tuple : List (Located ATy) → ATy
  | Arrow : Located ATy → Located ATy → ATy
  | TyCon : List (Located ATy) → Long → ATy

/-- Modelled from the spec: AST patterns. `Pat::String` is named `Str` (see
`Token`). -/
inductive Pat where
  | Wildcard : Pat
  | DecInt : Int → Pat
  | HexInt : Int → Pat
  | DecWord : Nat → Pat
  | HexWord : Nat → Pat
  | Str : StrRef → Pat
  | Char : Nat → Pat
  | LongVid : Long → Pat
  | Record : List (Row Pat) → Option Loc → Pat
  | Tuple : List (Located Pat) → Pat
  | List : List (Located Pat) → Pat
  | Typed : Located Pat → Located ATy → Pat
  | As : Located StrRef → Option (Located ATy) → Located Pat → Pat
  | Ctor : Long → Located Pat → Pat
  | InfixCtor : Located Pat → Located StrRef → Located Pat → Pat

/-- Modelled from the spec: an AST type binding `tyvarseq tycon = ty`. -/
structure TyBind where
  ty_vars : List (Located TyVarTok)
  ty_con : Located StrRef
  ty : Located ATy

/-- Modelled from the spec: an AST constructor binding `vid (of ty)?`. -/
structure ConBind where
  vid : Located StrRef
  ty : Option (Located ATy)

/-- Modelled from the spec: an AST datatype binding
`tyvarseq tycon = conbinds`. -/
structure DatBind where
  ty_vars : List (Located TyVarTok)
  ty_con : Located StrRef
  cons : List ConBind

/-- Modelled from the spec: the right-hand side of an exception binding:
either `(of ty)?` or `= longvid`. -/
inductive ExBindInner where
  | Ty : Option (Located ATy) → ExBindInner
  | Long : Long → ExBindInner

/-- Modelled from the spec: an AST exception binding. -/
structure ExBind where
  vid : Located StrRef
  inner : ExBindInner

mutual

/-- Modelled from the spec: AST expressions. `Exp::String` is named `Str`
(see `Token`). -/
inductive Exp where
  | DecInt : Int → Exp
  | HexInt : Int → Exp
  | DecWord : Nat → Exp
  | HexWord : Nat → Exp
  | Real : Nat → Exp
  | Str : StrRef → Exp
  | Char : Nat → Exp
  | LongVid : Long → Exp
  | Record : List (Row Exp) → Exp
  | Select : Located Label → Exp
  | Tuple : List (Located Exp) → Exp
  | List : List (Located Exp) → Exp
  | Sequence : List (Located Exp) → Exp
  | Let : Located Dec → List (Located Exp) → Exp
  | App : Located Exp → Located Exp → Exp
  | InfixApp : Located Exp → Located StrRef → Located Exp → Exp
  | Typed : Located Exp → Located ATy → Exp
  | Andalso : Located Exp → Located Exp → Exp
  | Orelse : Located Exp → Located Exp → Exp
  | Handle : Located Exp → Cases → Exp
  | Raise : Located Exp → Exp
  | If : Located Exp → Located Exp → Located Exp → Exp
  | While : Located Exp → Located Exp → Exp
  | Case : Located Exp → Cases → Exp
  | Fn : Cases → Exp

/-- Modelled from the spec: a match (list of arms) in `fn`/`case`/`handle`. -/
inductive Cases where
  | mk : List Arm → Cases

/-- Modelled from the spec: one arm `pat => exp` of a match. -/
inductive Arm where
  | mk : Located Pat → Located Exp → Arm

/-- Modelled from the spec: AST declarations. `Dec::Type` is named `Typ`
(`Type` is a Lean keyword). -/
inductive Dec where
  | Val : List (Located TyVarTok) → List ValBind → Dec
  | Fun : List (Located TyVarTok) → List FValBind → Dec
  | Typ : List TyBind → Dec
  | Datatype : List DatBind → List TyBind → Dec
  | DatatypeCopy : Located StrRef → Long → Dec
  | Abstype : List DatBind → List TyBind → Located Dec → Dec
  | Exception : List ExBind → Dec
  | Local : Located Dec → Located Dec → Dec
  | Open : List Long → Dec
  | Seq : List (Located Dec) → Dec
  | Infix : Located Nat → List (Located StrRef) → Dec
  | Infixr : Located Nat → List (Located StrRef) → Dec
  | Nonfix : List (Located StrRef) → Dec

/-- Modelled from the spec: one `val` binding `(rec)? pat = exp`. -/
inductive ValBind where
  | mk : Bool → Located Pat → Located Exp → ValBind

/-- Modelled from the spec: one `fun` binding: its clauses. -/
inductive FValBind where
  | mk : List FValBindCase → FValBind

/-- Modelled from the spec: one clause of a `fun` binding. -/
inductive FValBindCase where
  | mk : Located StrRef → List (Located Pat) → Option (Located ATy) →
      Located Exp → FValBindCase

end

/-- The arms of a match. -/
def Cases.arms : Cases → List Arm
  | .mk a => a

/-- The pattern of an arm. -/
def Arm.pat : Arm → Located Pat
  | .mk p _ => p

/-- The expression of an arm. -/
def Arm.exp : Arm → Located Exp
  | .mk _ e => e

/-- The `rec` flag of a `val` binding (`rec` is reserved in Lean). -/
def ValBind.rec' : ValBind → Bool
  | .mk r _ _ => r

/-- The pattern of a `val` binding. -/
def ValBind.pat : ValBind → Located Pat
  | .mk _ p _ => p

/-- The expression of a `val` binding. -/
def ValBind.exp : ValBind → Located Exp
  | .mk _ _ e => e

/-- The clauses of a `fun` binding. -/
def FValBind.cases : FValBind → List FValBindCase
  | .mk cs => cs

/-- The clause head name. -/
def FValBindCase.vid : FValBindCase → Located StrRef
  | .mk v _ _ _ => v

/-- The clause argument patterns. -/
def FValBindCase.pats : FValBindCase → List (Located Pat)
  | .mk _ ps _ _ => ps

/-- The clause's optional return-type annotation. -/
def FValBindCase.ret_ty : FValBindCase → Option (Located ATy)
  | .mk _ _ t _ => t

/-- The clause body. -/
def FValBindCase.body : FValBindCase → Located Exp
  | .mk _ _ _ b => b

/-- Modelled from the spec: a value description in a signature. -/
structure ValDesc where
  vid : Located StrRef
  ty : Located ATy

/-- Modelled from the spec: a type description in a signature. -/
structure TyDesc where
  ty_vars : List (Located TyVarTok)
  ty_con : Located StrRef

/-- Modelled from the spec: an exception description in a signature. -/
structure ExDesc where
  vid : Located StrRef
  ty : Option (Located ATy)

mutual

/-- Modelled from the spec: AST structure expressions. -/
inductive StrExp where
  | Struct : Located StrDec → StrExp
  | LongStrId : Long → StrExp
  | Ascription : Located StrExp → Located SigExp → Bool → StrExp
  | FunctorApp : Located StrRef → Located StrExp → StrExp
  | Let : Located StrDec → Located StrExp → StrExp

/-- Modelled from the spec: AST structure-level declarations. -/
inductive StrDec where
  | Dec : Located Dec → StrDec
  | Structure : List StrBind → StrDec
  | Local : Located StrDec → Located StrDec → StrDec
  | Seq : List (Located StrDec) → StrDec

/-- Modelled from the spec: one `structure` binding. -/
inductive StrBind where
  | mk : Located StrRef → Located StrExp → StrBind

/-- Modelled from the spec: AST signature expressions. -/
inductive SigExp where
  | Sig : Located Spec → SigExp
  | SigId : Located StrRef → SigExp
  | Where : Located SigExp → List (Located TyVarTok) → Long → Located ATy →
      SigExp

/-- Modelled from the spec: AST signature specifications. `Spec::Type` is
named `Typ` (`Type` is a Lean keyword); its `Bool` is the `eqtype` flag. -/
inductive Spec where
  | Val : List ValDesc → Spec
  | Typ : List TyDesc → Bool → Spec
  | Datatype : List DatBind → Spec
  | DatatypeCopy : Located StrRef → Long → Spec
  | Exception : List ExDesc → Spec
  | Structure : List StrDesc → Spec
  | Include : Located SigExp → Spec
  | Seq : List (Located Spec) → Spec
  | Sharing : Located Spec → List Long → Spec

/-- Modelled from the spec: one structure description in a signature. -/
inductive StrDesc where
  | mk : Located StrRef → Located SigExp → StrDesc

end

/-- The bound structure identifier. -/
def StrBind.id : StrBind → Located StrRef
  | .mk i _ => i

/-- The bound structure expression. -/
def StrBind.exp : StrBind → Located StrExp
  | .mk _ e => e

/-- The described structure identifier. -/
def StrDesc.str_id : StrDesc → Located StrRef
  | .mk i _ => i

/-- The described structure's signature expression. -/
def StrDesc.exp : StrDesc → Located SigExp
  | .mk _ e => e

/-- Modelled from the spec: one `signature` binding. -/
structure SigBind where
  id : Located StrRef
  exp : Located SigExp

/-- Modelled from the spec: one `functor` binding. -/
structure FunBind where
  fun_id : Located StrRef
  str_id : Located StrRef
  sig_exp : Located SigExp
  str_exp : Located StrExp

/-- Modelled from the spec: top-level declarations. -/
inductive TopDec where
  | StrDec : Located StrDec → TopDec
  | SigDec : List SigBind → TopDec
  | FunDec : List FunBind → TopDec

/-- Operator associativity (from `parse.rs`). -/
inductive Assoc where
  | Left : Assoc
  | Right : Assoc
  deriving DecidableEq, Repr

/-- Fixity information for one infix operator (from `parse.rs`): its
precedence number and associativity. -/
structure OpInfo where
  num : Nat
  assoc : Assoc
  deriving DecidableEq, Repr

/-- `OpInfo::left(num)` (from `parse.rs`). -/
def OpInfo.left (num : Nat) : OpInfo :=
  ⟨num, .Left⟩

/-- `OpInfo::right(num)` (from `parse.rs`). -/
def OpInfo.right (num : Nat) : OpInfo :=
  ⟨num, .Right⟩

/-- Parse errors (from `parse.rs`, where the enum is named `Error`; renamed
here to avoid clashing with the statics' `Error`). -/
inductive ParseError where
  | ExpectedButFound : String → String → ParseError
  | InfixWithoutOp : StrRef → ParseError
  | NotInfix : StrRef → ParseError
  | RealPat : ParseError
  | NegativeFixity : ParseError
  | SameFixityDiffAssoc : ParseError
  deriving DecidableEq, Repr

/-- `OpInfo::should_break(min_prec, loc)` (from `parse.rs`): in the Pratt
climb, whether to stop before an operator with this fixity given the
minimum-precedence operator, erroring on equal precedence with different
associativity. -/
def OpInfo.should_break (self : OpInfo) (min_prec : Option OpInfo) (loc : Loc) :
    Except (Located ParseError) Bool :=
  match min_prec with
  | none => .ok false
  | some min_prec =>
    if self.num = min_prec.num ∧ self.assoc ≠ min_prec.assoc then
      .error (loc.wrap .SameFixityDiffAssoc)
    else
      match min_prec.assoc with
      | .Left => .ok (self.num ≤ min_prec.num)
      | .Right => .ok (self.num < min_prec.num)

/-- Lookup in the operator table (`HashMap::get`, modelled as an association
list with unique keys). -/
def opsGet (ops : List (StrRef × OpInfo)) (k : StrRef) : Option OpInfo :=
  match ops with
  | [] => none
  | (k', v) :: rest => if k' = k then some v else opsGet rest k

/-- Insert into the operator table (`HashMap::insert`, overwriting). -/
def opsInsert (ops : List (StrRef × OpInfo)) (k : StrRef) (v : OpInfo) :
    List (StrRef × OpInfo) :=
  match ops with
  | [] => [(k, v)]
  | (k', v') :: rest =>
    if k' = k then (k, v) :: rest else (k', v') :: opsInsert rest k v

/-- Remove from the operator table (`HashMap::remove`). -/
def opsRemove (ops : List (StrRef × OpInfo)) (k : StrRef) :
    List (StrRef × OpInfo) :=
  ops.filter (fun e => e.1 ≠ k)

/-- `HashMap::contains_key` on the operator table. -/
def opsContainsKey (ops : List (StrRef × OpInfo)) (k : StrRef) : Bool :=
  (opsGet ops k).isSome

/-- The parser state (from `parse.rs`): the token stream (the `Lexer` is
modelled from the spec as the list of its tokens), the current position, the
scoped operator table, and the last known location for EOF reporting. -/
structure Parser where
  lexer : List (Located Token)
  i : Nat
  ops : List (StrRef × OpInfo)
  last_loc : Loc
  deriving DecidableEq, Repr

/-- `Parser::new(lexer, last_loc)` (from `parse.rs`): position 0 and the
seeded operator table of SML Basis fixities. -/
def Parser.new (lexer : List (Located Token)) (last_loc : Loc) : Parser where
  lexer := lexer
  i := 0
  ops := [
    (StrRef.CONS, OpInfo.right 5),
    (StrRef.EQ, OpInfo.left 4),
    (StrRef.ASSIGN, OpInfo.left 3),
    (StrRef.DIV, OpInfo.left 7),
    (StrRef.MOD, OpInfo.left 7),
    (StrRef.STAR, OpInfo.left 7),
    (StrRef.SLASH, OpInfo.left 7),
    (StrRef.PLUS, OpInfo.left 6),
    (StrRef.MINUS, OpInfo.left 6),
    (StrRef.LT, OpInfo.left 4),
    (StrRef.GT, OpInfo.left 4),
    (StrRef.LT_EQ, OpInfo.left 4),
    (StrRef.GT_EQ, OpInfo.left 4)]
  last_loc := last_loc

/-- `Parser::peek` (from `parse.rs`): the current token, or EOF at the last
known location. -/
def Parser.peek (p : Parser) : Located Token :=
  match p.lexer.get? p.i with
  | some tok => tok
  | none => p.last_loc.wrap .EOF

/-- `Parser::wrap(begin, val)` (from `parse.rs`): span from `begin` to the
location of the last consumed token. (At position 0 Rust's `self.i - 1`
would be an arithmetic underflow; `Nat` subtraction saturates, and no
reachable call site wraps before consuming a token.) -/
def Parser.wrap {α : Type} (p : Parser) (begin : Loc) (v : α) : Located α :=
  let endLoc := match p.lexer.get? (p.i - 1) with
    | some tok => tok.loc
    | none => p.last_loc
  (begin.span endLoc).wrap v

/-- Result of running one parser computation: out of fuel, a located error
(Rust's `Err`, with the parser state at the point of failure), or a value
and the updated state. -/
inductive PRes (α : Type) where
  | oof : PRes α
  | err : Located ParseError → Parser → PRes α
  | ok : α → Parser → PRes α

/-- A parser computation: state in, `PRes` out. Mirrors `&mut self` methods
returning `Result<T>`. -/
def PM (α : Type) : Type :=
  Parser → PRes α

instance : Monad PM where
  pure a := fun p => .ok a p
  bind m f := fun p =>
    match m p with
    | .oof => .oof
    | .err e p' => .err e p'
    | .ok a p' => f a p'

/-- Read the whole parser state. -/
def getPM : PM Parser :=
  fun p => .ok p p

/-- `self.peek()` as a computation. -/
def peekM : PM (Located Token) :=
  fun p => .ok p.peek p

/-- `self.skip()`: advance one token. -/
def skipM : PM Unit :=
  fun p => .ok () { p with i := p.i + 1 }

/-- `self.i -= 1`: step one token back. -/
def backM : PM Unit :=
  fun p => .ok () { p with i := p.i - 1 }

/-- `self.i = n`: restore a saved position (the `fval_bind_case`
backtrack). -/
def setIM (n : Nat) : PM Unit :=
  fun p => .ok () { p with i := n }

/-- Read `self.i`. -/
def getIM : PM Nat :=
  fun p => .ok p.i p

/-- Read `self.ops`. -/
def getOpsM : PM (List (StrRef × OpInfo)) :=
  fun p => .ok p.ops p

/-- `self.ops = ops`: restore a snapshot of the operator table. -/
def setOpsM (ops : List (StrRef × OpInfo)) : PM Unit :=
  fun p => .ok () { p with ops := ops }

/-- `self.ops.insert(k, v)`. -/
def opsInsertM (k : StrRef) (v : OpInfo) : PM Unit :=
  fun p => .ok () { p with ops := opsInsert p.ops k v }

/-- `self.ops.remove(&k)`. -/
def opsRemoveM (k : StrRef) : PM Unit :=
  fun p => .ok () { p with ops := opsRemove p.ops k }

/-- `self.wrap(begin, val)` as a computation. -/
def wrapM {α : Type} (begin : Loc) (v : α) : PM (Located α) :=
  fun p => .ok (p.wrap begin v) p

/-- `self.fail(want, tok)` (from `parse.rs`): an `ExpectedButFound` error at
the offending token. -/
def failM {α : Type} (want : String) (tok : Located Token) : PM α :=
  fun p => .err (tok.loc.wrap (.ExpectedButFound want tok.val.desc)) p

/-- `self.eat(tok)` (from `parse.rs`): consume exactly `tok` or fail. -/
def eatM (tok : Token) : PM Unit := do
  let next ← peekM
  if next.val = tok then skipM else failM tok.desc next

/-- Lift a pure `Result` (e.g. `OpInfo::should_break`) into the parser
computation, mirroring the `?` operator. -/
def liftP {α : Type} (e : Except (Located ParseError) α) : PM α :=
  fun p =>
    match e with
    | .ok a => .ok a p
    | .error err => .err err p

/-- Return a located parse error (Rust's `return Err(..)`). -/
def errM {α : Type} (e : Located ParseError) : PM α :=
  fun p => .err e p

/-- `self.ident()` (from `parse.rs`): any identifier token. -/
def ident : PM (Located StrRef) := do
  let tok ← peekM
  skipM
  match tok.val with
  | .Ident id _ => pure (tok.loc.wrap id)
  | _ => failM "an identifier" tok

/-- `self.alpha_num_id()` (from `parse.rs`): an alphanumeric identifier,
consumed only on success. -/
def alpha_num_id : PM (Located StrRef) := do
  let tok ← peekM
  match tok.val with
  | .Ident id .AlphaNum => do skipM; pure (tok.loc.wrap id)
  | _ => failM "an identifier" tok

/-- `self.label()` (from `parse.rs`): a record label. (The lexer flags only
positive decimal literals as possible labels, so Rust's `try_into().unwrap()`
is modelled by `Int.toNat`.) -/
def label : PM (Located Label) := do
  let tok ← peekM
  skipM
  match tok.val with
  | .DecInt v .Maybe => pure (tok.loc.wrap (Label.Num v.toNat))
  | .Ident id _ => pure (tok.loc.wrap (Label.Vid id))
  | _ => failM "a label" tok

/-- The loop of `self.maybe_long_id()` (from `parse.rs`), accumulating the
dot-separated components. -/
def maybe_long_id_loop : Nat → List (Located StrRef) →
    PM (Option (List (Located StrRef)))
  | 0, _ => fun _ => .oof
  | n + 1, acc => do
    let tok ← peekM
    match tok.val with
    | .Ident id typ => do
      skipM
      let acc := acc ++ [tok.loc.wrap id]
      match typ with
      | .Symbolic => pure (some acc)
      | .AlphaNum => do
        let tok2 ← peekM
        match tok2.val with
        | .Dot => do skipM; maybe_long_id_loop n acc
        | _ => pure (some acc)
    | _ =>
      if acc.isEmpty then pure none
      else do
        let t ← peekM
        failM "an identifier" t

/-- `self.maybe_long_id()` (from `parse.rs`). -/
def maybe_long_id (n : Nat) : PM (Option Long) := do
  let acc? ← maybe_long_id_loop n []
  match acc? with
  | none => pure none
  | some acc =>
    match acc.getLast? with
    | none => fun _ => .oof -- unreachable: the loop yields a non-empty list
    | some last => pure (some ⟨acc.dropLast, last⟩)

/-- `self.long_id(allowInfix)` (from `parse.rs`): a long identifier,
rejecting a bare infix identifier when `allowInfix` is false. -/
def long_id (n : Nat) (allowInfix : Bool) : PM Long := do
  let r? ← maybe_long_id n
  match r? with
  | none => do
    let t ← peekM
    failM "an identifier" t
  | some ret => do
    let ops ← getOpsM
    if ¬allowInfix ∧ ret.structures.isEmpty ∧ opsContainsKey ops ret.last.val
    then errM (ret.last.loc.wrap (.InfixWithoutOp ret.last.val))
    else pure ret

/-- The loop of `self.long_alpha_num_id()` (from `parse.rs`). -/
def long_alpha_num_id_loop : Nat → List (Located StrRef) →
    PM (List (Located StrRef))
  | 0, _ => fun _ => .oof
  | n + 1, acc => do
    let tok ← peekM
    match tok.val with
    | .Ident id .AlphaNum => do
      skipM
      let acc := acc ++ [tok.loc.wrap id]
      let tok2 ← peekM
      match tok2.val with
      | .Dot => do skipM; long_alpha_num_id_loop n acc
      | _ => pure acc
    | _ => do
      let t ← peekM
      failM "an identifier" t

/-- `self.long_alpha_num_id()` (from `parse.rs`). -/
def long_alpha_num_id (n : Nat) : PM Long := do
  let acc ← long_alpha_num_id_loop n []
  match acc.getLast? with
  | none => fun _ => .oof -- unreachable: the loop yields a non-empty list
  | some last => pure ⟨acc.dropLast, last⟩

/-- `self.fixity_num()` (from `parse.rs`): an optional fixity number;
negative is `NegativeFixity`, absent defaults to 0 without consuming. -/
def fixity_num : PM (Located Nat) := do
  let tok ← peekM
  let loc := tok.loc
  match tok.val with
  | .DecInt v _ =>
    if v < 0 then errM (loc.wrap .NegativeFixity)
    else do
      skipM
      pure (loc.wrap v.toNat)
  | _ => pure (loc.wrap 0)

/-- The loop of `self.fixity_idents()` (from `parse.rs`). -/
def fixity_idents_loop : Nat → List (Located StrRef) →
    PM (List (Located StrRef))
  | 0, _ => fun _ => .oof
  | n + 1, acc => do
    let tok ← peekM
    match tok.val with
    | .Ident id _ => do
      skipM
      fixity_idents_loop n (acc ++ [tok.loc.wrap id])
    | .Equal => do
      skipM
      fixity_idents_loop n (acc ++ [tok.loc.wrap StrRef.EQ])
    | _ => pure acc

/-- `self.fixity_idents()` (from `parse.rs`): one or more identifiers (`=`
allowed). -/
def fixity_idents (n : Nat) : PM (List (Located StrRef)) := do
  let ret ← fixity_idents_loop n []
  if ret.isEmpty then do
    let t ← peekM
    failM "an identifier" t
  else pure ret

/-- `for id in idents { self.ops.insert(id.val, v) }` in `maybe_dec`'s
`infix`/`infixr` arms. -/
def opsInsertAllM : List (Located StrRef) → OpInfo → PM Unit
  | [], _ => pure ()
  | id :: rest, v => do
    opsInsertM id.val v
    opsInsertAllM rest v

/-- `for id in idents { self.ops.remove(&id.val) }` in `maybe_dec`'s
`nonfix` arm. -/
def opsRemoveAllM : List (Located StrRef) → PM Unit
  | [] => pure ()
  | id :: rest => do
    opsRemoveM id.val
    opsRemoveAllM rest

/-- The three-level precedence ladder for type expressions (from
`parse.rs`): `Arrow < Star < App`. -/
inductive TyPrec where
  | Arrow : TyPrec
  | Star : TyPrec
  | App : TyPrec
  deriving DecidableEq, Repr

/-- The rank of a type-expression precedence level. -/
def TyPrec.toNat : TyPrec → Nat
  | .Arrow => 0
  | .Star => 1
  | .App => 2

/-- The strict order on `TyPrec` (Rust's derived `PartialOrd`). -/
def TyPrec.lt (a b : TyPrec) : Bool :=
  a.toNat < b.toNat

mutual

/-- `self.ty()` (from `parse.rs`). -/
def ty : Nat → PM (Located ATy)
  | 0 => fun _ => .oof
  | n + 1 => ty_prec n .Arrow

/-- `self.ty_prec(min_prec)` (from `parse.rs`): the head of a type
expression followed by the `->` / `*` / application climb. -/
def ty_prec : Nat → TyPrec → PM (Located ATy)
  | 0, _ => fun _ => .oof
  | n + 1, min_prec => do
    let tok ← peekM
    let begin := tok.loc
    let ret ← (match tok.val with
      | .TyVar tv => do
        skipM
        pure (ATy.TyVar tv)
      | .LCurly => do
        skipM
        let tok2 ← peekM
        let rows ← (match tok2.val with
          | .RCurly => do skipM; pure []
          | _ => ty_rows_loop n [])
        pure (ATy.Record rows)
      | .LRound => do
        skipM
        let types ← ty_commas_loop n []
        let ltc ← maybe_long_id n
        match types, ltc with
        | [t], none => pure t.val
        | _, none => do
          let t ← peekM
          failM "an identifier" t
        | _, some x => pure (ATy.TyCon types x)
      | .Ident id _ =>
        if id = StrRef.STAR then
          errM (tok.loc.wrap (.ExpectedButFound "a type" "`*`"))
        else do
          let long ← long_id n true
          pure (ATy.TyCon [] long)
      | _ => failM "a type" tok)
    ty_prec_loop n min_prec begin ret

/-- The record-row loop of `ty_prec`'s `LCurly` arm. -/
def ty_rows_loop : Nat → List (Row ATy) → PM (List (Row ATy))
  | 0, _ => fun _ => .oof
  | n + 1, acc => do
    let lab ← label
    eatM .Colon
    let v ← ty n
    let acc := acc ++ [⟨lab, v⟩]
    let tok ← peekM
    skipM
    match tok.val with
    | .RCurly => pure acc
    | .Comma => ty_rows_loop n acc
    | _ => failM "`\x7d` or `,`" tok

/-- The comma loop of `ty_prec`'s `LRound` arm. -/
def ty_commas_loop : Nat → List (Located ATy) → PM (List (Located ATy))
  | 0, _ => fun _ => .oof
  | n + 1, acc => do
    let t ← ty n
    let acc := acc ++ [t]
    let tok ← peekM
    skipM
    match tok.val with
    | .RRound => pure acc
    | .Comma => ty_commas_loop n acc
    | _ => failM "`(` or `,`" tok

/-- The trailing `->` / `*` / constructor-application loop of `ty_prec`. -/
def ty_prec_loop : Nat → TyPrec → Loc → ATy → PM (Located ATy)
  | 0, _, _, _ => fun _ => .oof
  | n + 1, min_prec, begin, ret => do
    let tok ← peekM
    match tok.val with
    | .Arrow =>
      if TyPrec.lt .Arrow min_prec then wrapM begin ret
      else do
        let lhs ← wrapM begin ret
        skipM
        let rhs ← ty_prec n .Arrow
        ty_prec_loop n min_prec begin (ATy.Arrow lhs rhs)
    | .Ident id _ =>
      if id = StrRef.STAR then
        if TyPrec.lt .Star min_prec then wrapM begin ret
        else do
          let fst ← wrapM begin ret
          skipM
          let types ← ty_star_loop n [fst]
          ty_prec_loop n min_prec begin (ATy.Tuple types)
      else do
        let lhs ← wrapM begin ret
        let long ← long_id n true
        ty_prec_loop n min_prec begin (ATy.TyCon [lhs] long)
    | _ => wrapM begin ret

/-- The `*`-separated component loop of `ty_prec`'s tuple case. -/
def ty_star_loop : Nat → List (Located ATy) → PM (List (Located ATy))
  | 0, _ => fun _ => .oof
  | n + 1, acc => do
    let t ← ty_prec n .App
    let acc := acc ++ [t]
    let tok ← peekM
    match tok.val with
    | .Ident id _ =>
      if id = StrRef.STAR then do
        skipM
        ty_star_loop n acc
      else pure acc
    | _ => pure acc

end

/-- `self.maybe_colon_ty()` (from `parse.rs`). -/
def maybe_colon_ty (n : Nat) : PM (Option (Located ATy)) := do
  let tok ← peekM
  match tok.val with
  | .Colon => do
    skipM
    let t ← ty n
    pure (some t)
  | _ => pure none

/-- `self.maybe_of_ty()` (from `parse.rs`). -/
def maybe_of_ty (n : Nat) : PM (Option (Located ATy)) := do
  let tok ← peekM
  match tok.val with
  | .Of => do
    skipM
    let t ← ty n
    pure (some t)
  | _ => pure none

/-- The parenthesised loop of `self.ty_var_seq()` (from `parse.rs`). -/
def ty_var_seq_loop : Nat → List (Located TyVarTok) →
    PM (List (Located TyVarTok))
  | 0, _ => fun _ => .oof
  | n + 1, acc => do
    let tok ← peekM
    match tok.val with
    | .TyVar tv => do
      skipM
      let acc := acc ++ [tok.loc.wrap tv]
      let tok2 ← peekM
      skipM
      match tok2.val with
      | .RRound => pure acc
      | .Comma => ty_var_seq_loop n acc
      | _ => failM "`)` or `,`" tok2
    | _ => failM "a type variable" tok

/-- `self.ty_var_seq()` (from `parse.rs`): an optional type-variable
sequence, backing out of a `(` not followed by a type variable. -/
def ty_var_seq (n : Nat) : PM (List (Located TyVarTok)) := do
  let tok ← peekM
  match tok.val with
  | .TyVar tv => do
    skipM
    pure [tok.loc.wrap tv]
  | .LRound => do
    skipM
    let tok2 ← peekM
    match tok2.val with
    | .TyVar _ => ty_var_seq_loop n []
    | _ => do
      backM
      pure []
  | _ => pure []

/-- The result of `datatype_dec` (from `parse.rs`): either datatype bindings
or a `datatype t = datatype long` copy. -/
inductive DatatypeDec where
  | Binds : List DatBind → DatatypeDec
  | Copy : Located StrRef → Long → DatatypeDec

/-- The leading optional-`op` step of `self.con_binds(allow_op)`'s clause
loop (from `parse.rs`): skip an `op` keyword when allowed. -/
def con_binds_op (allow_op : Bool) : PM Unit :=
  if allow_op then do
    let tok ← peekM
    match tok.val with
    | .Op => skipM
    | _ => pure ()
  else pure ()

/-- The clause loop of `self.con_binds(allow_op)` (from `parse.rs`). -/
def con_binds_loop : Nat → Bool → List ConBind → PM (List ConBind)
  | 0, _, _ => fun _ => .oof
  | n + 1, allow_op, acc => do
    let _ ← con_binds_op allow_op
    let vid ← ident
    let t ← maybe_of_ty n
    let acc := acc ++ [(⟨vid, t⟩ : ConBind)]
    let tok ← peekM
    match tok.val with
    | .Bar => do
      skipM
      con_binds_loop n allow_op acc
    | _ => pure acc

/-- `self.con_binds(allow_op)` (from `parse.rs`). -/
def con_binds (n : Nat) (allow_op : Bool) : PM (List ConBind) :=
  con_binds_loop n allow_op []

/-- `self.dat_bind(allow_op)` (from `parse.rs`). -/
def dat_bind (n : Nat) (allow_op : Bool) : PM DatBind := do
  let ty_vars ← ty_var_seq n
  let ty_con ← ident
  eatM .Equal
  let cons ← con_binds n allow_op
  pure ⟨ty_vars, ty_con, cons⟩

/-- The `and` loop of `self.datatype_dec` (from `parse.rs`). -/
def datatype_dec_and_loop : Nat → Bool → List DatBind → PM (List DatBind)
  | 0, _, _ => fun _ => .oof
  | n + 1, allow_op, acc => do
    let tok ← peekM
    match tok.val with
    | .And => do
      skipM
      let db ← dat_bind n allow_op
      datatype_dec_and_loop n allow_op (acc ++ [db])
    | _ => pure acc

/-- `self.datatype_dec(allow_op)` (from `parse.rs`): the body of a
`datatype` declaration or specification, starting by skipping the
`datatype` keyword. -/
def datatype_dec (n : Nat) (allow_op : Bool) : PM DatatypeDec := do
  skipM
  let tok ← peekM
  let first ← (match tok.val with
    | .Ident id _ => do
      let ty_con := tok.loc.wrap id
      skipM
      eatM .Equal
      let tok2 ← peekM
      match tok2.val with
      | .Datatype => do
        skipM
        let long ← long_id n true
        pure (Sum.inl (ty_con, long))
      | _ => do
        let cons ← con_binds n allow_op
        pure (Sum.inr (⟨[], ty_con, cons⟩ : DatBind))
    | _ => do
      let db ← dat_bind n allow_op
      pure (Sum.inr db))
  match first with
  | .inl (tc, long) => pure (DatatypeDec.Copy tc long)
  | .inr db => do
    let dbs ← datatype_dec_and_loop n allow_op [db]
    pure (DatatypeDec.Binds dbs)

/-- The binding loop of `self.ty_binds()` (from `parse.rs`). -/
def ty_binds_loop : Nat → List TyBind → PM (List TyBind)
  | 0, _ => fun _ => .oof
  | n + 1, acc => do
    let ty_vars ← ty_var_seq n
    let ty_con ← ident
    eatM .Equal
    let t ← ty n
    let acc := acc ++ [(⟨ty_vars, ty_con, t⟩ : TyBind)]
    let tok ← peekM
    match tok.val with
    | .And => do
      skipM
      ty_binds_loop n acc
    | _ => pure acc

/-- `self.ty_binds()` (from `parse.rs`). -/
def ty_binds (n : Nat) : PM (List TyBind) :=
  ty_binds_loop n []

/-- The description loop of `self.ty_descs()` (from `parse.rs`). -/
def ty_descs_loop : Nat → List TyDesc → PM (List TyDesc)
  | 0, _ => fun _ => .oof
  | n + 1, acc => do
    let ty_vars ← ty_var_seq n
    let ty_con ← ident
    let acc := acc ++ [(⟨ty_vars, ty_con⟩ : TyDesc)]
    let tok ← peekM
    match tok.val with
    | .And => do
      skipM
      ty_descs_loop n acc
    | _ => pure acc

/-- `self.ty_descs()` (from `parse.rs`). -/
def ty_descs (n : Nat) : PM (List TyDesc) :=
  ty_descs_loop n []


/-- The pattern-parser family: one field per mutually recursive function of
`parse.rs`'s pattern layer, at a fixed fuel level. The recursion is tied by
`patFns` below; each `..._body` definition is the translation of the
corresponding Rust function, calling the one-level-lower family `F`. -/
structure PatFns where
  maybe_at_pat : PM (Option (Located Pat))
  pat_rows_loop : List (Row Pat) → PM (List (Row Pat) × Option Loc)
  pat_commas_loop : List (Located Pat) → PM (List (Located Pat))
  pat_list_loop : List (Located Pat) → PM (List (Located Pat))
  at_pat : PM (Located Pat)
  pat : PM (Located Pat)
  pat_prec : Option OpInfo → PM (Located Pat)
  pat_loop : Option OpInfo → Located Pat → PM (Located Pat)
  pat_long_vid : Loc → Long → PM Pat
  pat_long_vid_rest : Long → PM Pat
  maybe_as_pat : PM (Option (Located Pat))

/-- The zero-fuel pattern family: every member is out of fuel. -/
def patOof : PatFns where
  maybe_at_pat := fun _ => .oof
  pat_rows_loop := fun _ _ => .oof
  pat_commas_loop := fun _ _ => .oof
  pat_list_loop := fun _ _ => .oof
  at_pat := fun _ => .oof
  pat := fun _ => .oof
  pat_prec := fun _ _ => .oof
  pat_loop := fun _ _ _ => .oof
  pat_long_vid := fun _ _ _ => .oof
  pat_long_vid_rest := fun _ _ => .oof
  maybe_as_pat := fun _ => .oof

/-- `self.maybe_at_pat()` (from `parse.rs`): an atomic pattern, or `none`
without consuming. -/
def maybe_at_pat_body (n : Nat) (F : PatFns) : PM (Option (Located Pat)) := do
  let tok ← peekM
  let begin := tok.loc
  let ret? ← (match tok.val with
    | .Underscore => do
      skipM
      pure (some Pat.Wildcard)
    | .DecInt v _ => do
      skipM
      pure (some (Pat.DecInt v))
    | .HexInt v => do
      skipM
      pure (some (Pat.HexInt v))
    | .DecWord v => do
      skipM
      pure (some (Pat.DecWord v))
    | .HexWord v => do
      skipM
      pure (some (Pat.HexWord v))
    | .Real _ => errM (begin.wrap .RealPat)
    | .Str s => do
      skipM
      pure (some (Pat.Str s))
    | .Char c => do
      skipM
      pure (some (Pat.Char c))
    | .Op => do
      skipM
      let l ← long_id n true
      pure (some (Pat.LongVid l))
    | .LCurly => do
      skipM
      let tok2 ← peekM
      match tok2.val with
      | .RCurly => do
        skipM
        pure (some (Pat.Record [] none))
      | _ => do
        let (rows, rest_loc) ← F.pat_rows_loop []
        pure (some (Pat.Record rows rest_loc))
    | .LRound => do
      skipM
      let tok2 ← peekM
      match tok2.val with
      | .RRound => do
        skipM
        pure (some (Pat.Tuple []))
      | _ => do
        let pats ← F.pat_commas_loop []
        match pats with
        | [x] => pure (some x.val)
        | _ => pure (some (Pat.Tuple pats))
    | .LSquare => do
      skipM
      let tok2 ← peekM
      let pats ← (match tok2.val with
        | .RSquare => do skipM; pure []
        | _ => F.pat_list_loop [])
      pure (some (Pat.List pats))
    | .Ident _ _ => do
      let l ← long_id n false
      pure (some (Pat.LongVid l))
    | _ => pure none)
  match ret? with
  | none => pure none
  | some ret => do
    let w ← wrapM begin ret
    pure (some w)

/-- The row loop of `maybe_at_pat`'s record arm (from `parse.rs`), also
tracking an optional `...` flex-row location. -/
def pat_rows_loop_body (n : Nat) (F : PatFns) (acc : List (Row Pat)) :
    PM (List (Row Pat) × Option Loc) := do
  let tok ← peekM
  if tok.val = .DotDotDot then do
    skipM
    let tok2 ← peekM
    if tok2.val = .RCurly then do
      skipM
      pure (acc, some tok.loc)
    else failM "`\x7d`" tok
  else do
    let lab ← label
    let tok2 ← peekM
    let v ← (if tok2.val = .Equal then do
        skipM
        F.pat
      else
        match lab.val with
        | .Vid x => do
          let vid := lab.loc.wrap x
          let t ← maybe_colon_ty n
          let ap ← F.maybe_as_pat
          match ap with
          | some ap => pure ((vid.loc.span ap.loc).wrap (Pat.As vid t ap))
          | none =>
            let pt := vid.loc.wrap (Pat.LongVid ⟨[], vid⟩)
            match t with
            | none => pure pt
            | some ty' => pure ((vid.loc.span ty'.loc).wrap (Pat.Typed pt ty'))
        | .Num _ => failM "`=`" tok2)
    let acc := acc ++ [⟨lab, v⟩]
    let tok3 ← peekM
    skipM
    if tok3.val = .RCurly then pure (acc, none)
    else if tok3.val = .Comma then F.pat_rows_loop acc
    else failM "`\x7d` or `,`" tok3

/-- The comma loop of `maybe_at_pat`'s parenthesis arm (from `parse.rs`). -/
def pat_commas_loop_body (_n : Nat) (F : PatFns) (acc : List (Located Pat)) :
    PM (List (Located Pat)) := do
  let p ← F.pat
  let acc := acc ++ [p]
  let tok ← peekM
  skipM
  match tok.val with
  | .RRound => pure acc
  | .Comma => F.pat_commas_loop acc
  | _ => failM "`)` or `,`" tok

/-- The element loop of `maybe_at_pat`'s list arm (from `parse.rs`). -/
def pat_list_loop_body (_n : Nat) (F : PatFns) (acc : List (Located Pat)) :
    PM (List (Located Pat)) := do
  let p ← F.pat
  let acc := acc ++ [p]
  let tok ← peekM
  skipM
  match tok.val with
  | .RSquare => pure acc
  | .Comma => F.pat_list_loop acc
  | _ => failM "`]` or `,`" tok

/-- `self.at_pat()` (from `parse.rs`). -/
def at_pat_body (_n : Nat) (F : PatFns) : PM (Located Pat) := do
  let p? ← F.maybe_at_pat
  match p? with
  | some x => pure x
  | none => do
    let t ← peekM
    failM "a pattern" t

/-- `self.pat()` (from `parse.rs`). -/
def pat_body (_n : Nat) (F : PatFns) : PM (Located Pat) :=
  F.pat_prec none

/-- `self.pat_prec(min_prec)` (from `parse.rs`): an atomic pattern, possibly
continued as a constructor application, then the infix climb. -/
def pat_prec_body (_n : Nat) (F : PatFns) (min_prec : Option OpInfo) :
    PM (Located Pat) := do
  let ret ← F.at_pat
  let ret ← (match ret.val with
    | .LongVid long_vid => do
      let pt ← F.pat_long_vid ret.loc long_vid
      wrapM ret.loc pt
    | _ => pure ret)
  F.pat_loop min_prec ret

/-- The typed/infix climb loop of `pat_prec` (from `parse.rs`). -/
def pat_loop_body (n : Nat) (F : PatFns) (min_prec : Option OpInfo)
    (ret : Located Pat) : PM (Located Pat) := do
  let loc := ret.loc
  let tok ← peekM
  match tok.val with
  | .Colon =>
    if min_prec.isSome then pure ret
    else do
      skipM
      let t ← ty n
      let w ← wrapM loc (Pat.Typed ret t)
      F.pat_loop min_prec w
  | .Ident id _ => do
    let ops ← getOpsM
    match opsGet ops id with
    | none => errM (tok.loc.wrap (.NotInfix id))
    | some op_info => do
      let b ← liftP (op_info.should_break min_prec tok.loc)
      if b then pure ret
      else do
        skipM
        let rhs ← F.pat_prec (some op_info)
        let w ← wrapM loc (Pat.InfixCtor ret (tok.loc.wrap id) rhs)
        F.pat_loop min_prec w
  | _ => pure ret

/-- `self.pat_long_vid(loc, long_vid)` (from `parse.rs`): continuation of a
pattern that started with a long identifier. -/
def pat_long_vid_body (n : Nat) (F : PatFns) (loc : Loc) (long_vid : Long) :
    PM Pat := do
  if long_vid.structures.isEmpty then do
    let t ← maybe_colon_ty n
    let ap ← F.maybe_as_pat
    match ap with
    | some ap => pure (Pat.As long_vid.last t ap)
    | none =>
      match t with
      | some ty' => pure (Pat.Typed (loc.wrap (Pat.LongVid long_vid)) ty')
      | none => F.pat_long_vid_rest long_vid
  else F.pat_long_vid_rest long_vid

/-- The tail of `pat_long_vid` (from `parse.rs`): fall back to the infix
climb on an infix identifier, else try a constructor argument pattern. -/
def pat_long_vid_rest_body (_n : Nat) (F : PatFns) (long_vid : Long) :
    PM Pat := do
  let tok ← peekM
  let ops ← getOpsM
  let isInfixId := match tok.val with
    | .Ident id _ => opsContainsKey ops id
    | _ => false
  if isInfixId then pure (Pat.LongVid long_vid)
  else do
    let x? ← F.maybe_at_pat
    match x? with
    | none => pure (Pat.LongVid long_vid)
    | some x => pure (Pat.Ctor long_vid x)

/-- `self.maybe_as_pat()` (from `parse.rs`). -/
def maybe_as_pat_body (_n : Nat) (F : PatFns) : PM (Option (Located Pat)) := do
  let tok ← peekM
  match tok.val with
  | .As => do
    skipM
    let p ← F.pat
    pure (some p)
  | _ => pure none

/-- One fuel level of the pattern-parser family: each member runs its
translated body, making recursive calls through the level below. -/
def patStep (n : Nat) (F : PatFns) : PatFns where
  maybe_at_pat := maybe_at_pat_body n F
  pat_rows_loop := pat_rows_loop_body n F
  pat_commas_loop := pat_commas_loop_body n F
  pat_list_loop := pat_list_loop_body n F
  at_pat := at_pat_body n F
  pat := pat_body n F
  pat_prec := pat_prec_body n F
  pat_loop := pat_loop_body n F
  pat_long_vid := pat_long_vid_body n F
  pat_long_vid_rest := pat_long_vid_rest_body n F
  maybe_as_pat := maybe_as_pat_body n F

/-- The pattern-parser family at each fuel level. -/
def patFns : Nat → PatFns
  | 0 => patOof
  | n + 1 => patStep n (patFns n)

/-- `self.maybe_at_pat()` (from `parse.rs`) at a fuel level. -/
def maybe_at_pat (n : Nat) : PM (Option (Located Pat)) :=
  (patFns n).maybe_at_pat

/-- `self.at_pat()` (from `parse.rs`) at a fuel level. -/
def at_pat (n : Nat) : PM (Located Pat) :=
  (patFns n).at_pat

/-- `self.pat()` (from `parse.rs`) at a fuel level. -/
def pat (n : Nat) : PM (Located Pat) :=
  (patFns n).pat

/-- `self.pat_prec(min_prec)` (from `parse.rs`) at a fuel level. -/
def pat_prec (n : Nat) (min_prec : Option OpInfo) : PM (Located Pat) :=
  (patFns n).pat_prec min_prec

/-- `self.maybe_as_pat()` (from `parse.rs`) at a fuel level. -/
def maybe_as_pat (n : Nat) : PM (Option (Located Pat)) :=
  (patFns n).maybe_as_pat

/-- The tail of `semicolon_seq` (from `parse.rs`): combine the collected
items into a single located node (a fake location from `peek` when empty,
the item itself for one, the overall span otherwise). -/
def semi_result {T : Type} (xs : List (Located T)) (seq : List (Located T) → T) :
    PM (Located T) :=
  match xs with
  | [] => do
    let tok ← peekM
    pure (tok.loc.wrap (seq []))
  | [x] => pure x
  | x :: y :: rest =>
    let lst := (y :: rest).getLast (by simp)
    pure ((x.loc.span lst.loc).wrap (seq (x :: y :: rest)))

/-- The expression/declaration/module parser family: one field per mutually
recursive function of `parse.rs` above the pattern and type layers, at a
fixed fuel level (see `PatFns` for the scheme). Rust's generic
`semicolon_seq` appears specialised as the three `*_seq_loop`s together with
`semi_result`. -/
structure DecFns where
  top_dec : PM (Located TopDec)
  sig_binds_loop : List SigBind → PM (List SigBind)
  fun_binds_loop : List FunBind → PM (List FunBind)
  str_exp_sugar : PM (Located StrExp)
  str_exp : PM (Located StrExp)
  str_exp_loop : Loc → StrExp → PM (Located StrExp)
  maybe_str_dec : PM (Option (Located StrDec))
  str_binds_loop : List StrBind → PM (List StrBind)
  str_dec : PM (Located StrDec)
  str_dec_seq_loop : List (Located StrDec) → PM (List (Located StrDec))
  sig_exp : PM (Located SigExp)
  sig_exp_loop : Loc → SigExp → PM (Located SigExp)
  maybe_spec : PM (Option (Located Spec))
  val_descs_loop : List ValDesc → PM (List ValDesc)
  ex_descs_loop : List ExDesc → PM (List ExDesc)
  str_descs_loop : List StrDesc → PM (List StrDesc)
  include_sig_ids_loop : List (Located Spec) → PM (List (Located Spec))
  sharing_loop : Loc → Spec → PM Spec
  ty_cons_loop : List Long → PM (List Long)
  spec : PM (Located Spec)
  spec_seq_loop : List (Located Spec) → PM (List (Located Spec))
  maybe_at_exp : PM (Option (Located Exp))
  exp_rows_loop : List (Row Exp) → PM (List (Row Exp))
  exp_commas_loop : List (Located Exp) → PM (List (Located Exp))
  exp_semis_loop : List (Located Exp) → PM (List (Located Exp))
  exp_list_loop : List (Located Exp) → PM (List (Located Exp))
  let_exps_loop : List (Located Exp) → PM (List (Located Exp))
  at_exp : PM (Located Exp)
  exp : PM (Located Exp)
  exp_prec : Option OpInfo → PM (Located Exp)
  exp_loop : Option OpInfo → Located Exp → PM (Located Exp)
  exp_loop_ident : Option OpInfo → Located Exp → Located Token → StrRef →
    PM (Located Exp)
  exp_loop_app : Option OpInfo → Located Exp → PM (Located Exp)
  cases : PM Cases
  cases_arms_loop : List Arm → PM (List Arm)
  maybe_dec : PM (Option (Located Dec))
  val_binds_loop : List ValBind → PM (List ValBind)
  fun_binds_dec_loop : List FValBindCase → List FValBind → PM (List FValBind)
  ex_binds_loop : List ExBind → PM (List ExBind)
  open_loop : List Long → PM (List Long)
  dec : PM (Located Dec)
  dec_seq_loop : List (Located Dec) → PM (List (Located Dec))
  fval_bind_case : PM FValBindCase
  fval_bind_case_fallback : PM FValBindCase
  fval_bind_case_finish : Located StrRef → List (Located Pat) → PM FValBindCase
  fval_pats_loop : List (Located Pat) → PM (List (Located Pat))
  fval_bind_case_no_parens : PM (Located StrRef × Located Pat)
  get_loop : List (Located TopDec) → PM (List (Located TopDec))

/-- The zero-fuel family: every member is out of fuel. -/
def decOof : DecFns where
  top_dec := fun _ => .oof
  sig_binds_loop := fun _ _ => .oof
  fun_binds_loop := fun _ _ => .oof
  str_exp_sugar := fun _ => .oof
  str_exp := fun _ => .oof
  str_exp_loop := fun _ _ _ => .oof
  maybe_str_dec := fun _ => .oof
  str_binds_loop := fun _ _ => .oof
  str_dec := fun _ => .oof
  str_dec_seq_loop := fun _ _ => .oof
  sig_exp := fun _ => .oof
  sig_exp_loop := fun _ _ _ => .oof
  maybe_spec := fun _ => .oof
  val_descs_loop := fun _ _ => .oof
  ex_descs_loop := fun _ _ => .oof
  str_descs_loop := fun _ _ => .oof
  include_sig_ids_loop := fun _ _ => .oof
  sharing_loop := fun _ _ _ => .oof
  ty_cons_loop := fun _ _ => .oof
  spec := fun _ => .oof
  spec_seq_loop := fun _ _ => .oof
  maybe_at_exp := fun _ => .oof
  exp_rows_loop := fun _ _ => .oof
  exp_commas_loop := fun _ _ => .oof
  exp_semis_loop := fun _ _ => .oof
  exp_list_loop := fun _ _ => .oof
  let_exps_loop := fun _ _ => .oof
  at_exp := fun _ => .oof
  exp := fun _ => .oof
  exp_prec := fun _ _ => .oof
  exp_loop := fun _ _ _ => .oof
  exp_loop_ident := fun _ _ _ _ _ => .oof
  exp_loop_app := fun _ _ _ => .oof
  cases := fun _ => .oof
  cases_arms_loop := fun _ _ => .oof
  maybe_dec := fun _ => .oof
  val_binds_loop := fun _ _ => .oof
  fun_binds_dec_loop := fun _ _ _ => .oof
  ex_binds_loop := fun _ _ => .oof
  open_loop := fun _ _ => .oof
  dec := fun _ => .oof
  dec_seq_loop := fun _ _ => .oof
  fval_bind_case := fun _ => .oof
  fval_bind_case_fallback := fun _ => .oof
  fval_bind_case_finish := fun _ _ _ => .oof
  fval_pats_loop := fun _ _ => .oof
  fval_bind_case_no_parens := fun _ => .oof
  get_loop := fun _ _ => .oof

/-- `self.top_dec()` (from `parse.rs`): a `signature` or `functor`
declaration, else a structure-level declaration that must be non-empty. -/
def top_dec_body (_n : Nat) (F : DecFns) : PM (Located TopDec) := do
  let tok ← peekM
  let begin := tok.loc
  let ret ←
    if tok.val = .Signature then do
      skipM
      let sig_binds ← F.sig_binds_loop []
      pure (TopDec.SigDec sig_binds)
    else if tok.val = .Functor then do
      skipM
      let fun_binds ← F.fun_binds_loop []
      pure (TopDec.FunDec fun_binds)
    else do
      let sd ← F.str_dec
      match sd.val with
      | .Seq xs =>
        if xs.isEmpty then do
          let t ← peekM
          failM "a top-level declaration" t
        else pure (TopDec.StrDec sd)
      | _ => pure (TopDec.StrDec sd)
  wrapM begin ret

/-- The binding loop of `top_dec`'s `signature` arm (from `parse.rs`). -/
def sig_binds_loop_body (_n : Nat) (F : DecFns) (acc : List SigBind) :
    PM (List SigBind) := do
  let id ← alpha_num_id
  eatM .Equal
  let e ← F.sig_exp
  let acc := acc ++ [(⟨id, e⟩ : SigBind)]
  let tok ← peekM
  if tok.val = .And then do
    skipM
    F.sig_binds_loop acc
  else pure acc

/-- The binding loop of `top_dec`'s `functor` arm (from `parse.rs`). Note
that on `and` the Rust code `continue`s without consuming the `and`. -/
def fun_binds_loop_body (_n : Nat) (F : DecFns) (acc : List FunBind) :
    PM (List FunBind) := do
  let fun_id ← alpha_num_id
  eatM .LRound
  let str_id ← alpha_num_id
  eatM .Colon
  let se ← F.sig_exp
  eatM .RRound
  let ste ← F.str_exp_sugar
  let acc := acc ++ [(⟨fun_id, str_id, se, ste⟩ : FunBind)]
  let tok ← peekM
  if tok.val = .And then F.fun_binds_loop acc
  else pure acc

/-- `self.str_exp_sugar()` (from `parse.rs`): optional ascription sugar in a
structure binding, then `=` and the structure expression. -/
def str_exp_sugar_body (_n : Nat) (F : DecFns) : PM (Located StrExp) := do
  let tok ← peekM
  let sig_exp? ←
    if tok.val = .Colon then do
      skipM
      let se ← F.sig_exp
      pure (some (se, false))
    else if tok.val = .ColonGt then do
      skipM
      let se ← F.sig_exp
      pure (some (se, true))
    else pure none
  eatM .Equal
  let ret ← F.str_exp
  match sig_exp? with
  | some (se, opq) => pure (ret.loc.wrap (StrExp.Ascription ret se opq))
  | none => pure ret

/-- `self.str_exp()` (from `parse.rs`): `struct`/`let`/functor
application/long identifier, then the ascription loop. The `struct` and
`let` arms snapshot and restore the operator table. -/
def str_exp_body (n : Nat) (F : DecFns) : PM (Located StrExp) := do
  let tok ← peekM
  let begin := tok.loc
  let ret ←
    if tok.val = .Struct then do
      skipM
      let ops ← getOpsM
      let d ← F.str_dec
      eatM .End
      setOpsM ops
      pure (StrExp.Struct d)
    else if tok.val = .Let then do
      skipM
      let ops ← getOpsM
      let d ← F.str_dec
      eatM .In
      let e ← F.str_exp
      eatM .End
      setOpsM ops
      pure (StrExp.Let d e)
    else
      match tok.val with
      | .Ident id .AlphaNum => do
        skipM
        let tok2 ← peekM
        if tok2.val = .LRound then do
          skipM
          let sd? ← F.maybe_str_dec
          let e ← (match sd? with
            | some sd => pure (sd.loc.wrap (StrExp.Struct sd))
            | none => F.str_exp)
          eatM .RRound
          pure (StrExp.FunctorApp (begin.wrap id) e)
        else do
          backM
          let long ← long_alpha_num_id n
          pure (StrExp.LongStrId long)
      | _ => failM "a structure expression" tok
  F.str_exp_loop begin ret

/-- The trailing ascription loop of `str_exp` (from `parse.rs`). -/
def str_exp_loop_body (_n : Nat) (F : DecFns) (begin : Loc) (ret : StrExp) :
    PM (Located StrExp) := do
  let tok ← peekM
  if tok.val = .Colon then do
    skipM
    let e ← F.sig_exp
    let w ← wrapM begin ret
    F.str_exp_loop begin (StrExp.Ascription w e false)
  else if tok.val = .ColonGt then do
    skipM
    let e ← F.sig_exp
    let w ← wrapM begin ret
    F.str_exp_loop begin (StrExp.Ascription w e true)
  else wrapM begin ret

/-- `self.maybe_str_dec()` (from `parse.rs`): a `structure` or `local`
structure declaration, else a core declaration (`none` if that is the empty
sequence). The `local` arm snapshots and restores the operator table. -/
def maybe_str_dec_body (_n : Nat) (F : DecFns) :
    PM (Option (Located StrDec)) := do
  let tok ← peekM
  let begin := tok.loc
  if tok.val = .Structure then do
    skipM
    let str_binds ← F.str_binds_loop []
    let w ← wrapM begin (StrDec.Structure str_binds)
    pure (some w)
  else if tok.val = .Local then do
    skipM
    let ops ← getOpsM
    let fst ← F.str_dec
    eatM .In
    let snd ← F.str_dec
    eatM .End
    setOpsM ops
    let w ← wrapM begin (StrDec.Local fst snd)
    pure (some w)
  else do
    let d ← F.dec
    match d.val with
    | .Seq xs =>
      if xs.isEmpty then pure none
      else do
        let w ← wrapM begin (StrDec.Dec d)
        pure (some w)
    | _ => do
      let w ← wrapM begin (StrDec.Dec d)
      pure (some w)

/-- The binding loop of `maybe_str_dec`'s `structure` arm (from
`parse.rs`). -/
def str_binds_loop_body (_n : Nat) (F : DecFns) (acc : List StrBind) :
    PM (List StrBind) := do
  let id ← alpha_num_id
  let e ← F.str_exp_sugar
  let acc := acc ++ [StrBind.mk id e]
  let tok ← peekM
  if tok.val = .And then do
    skipM
    F.str_binds_loop acc
  else pure acc

/-- `self.str_dec()` (from `parse.rs`): `semicolon_seq` over
`maybe_str_dec` with `StrDec::Seq`. -/
def str_dec_body (_n : Nat) (F : DecFns) : PM (Located StrDec) := do
  let xs ← F.str_dec_seq_loop []
  semi_result xs StrDec.Seq

/-- The item loop of `semicolon_seq` specialised to `maybe_str_dec` (from
`parse.rs`). -/
def str_dec_seq_loop_body (_n : Nat) (F : DecFns)
    (acc : List (Located StrDec)) : PM (List (Located StrDec)) := do
  let x? ← F.maybe_str_dec
  match x? with
  | none => pure acc
  | some x => do
    let tok ← peekM
    let _ ← if tok.val = .Semicolon then skipM else pure ()
    F.str_dec_seq_loop (acc ++ [x])

/-- `self.sig_exp()` (from `parse.rs`): `sig … end` or a signature
identifier, then the `where` loop. -/
def sig_exp_body (_n : Nat) (F : DecFns) : PM (Located SigExp) := do
  let tok ← peekM
  let begin := tok.loc
  skipM
  let ret ← (match tok.val with
    | .Sig => do
      let sp ← F.spec
      eatM .End
      pure (SigExp.Sig sp)
    | .Ident id .AlphaNum => pure (SigExp.SigId (begin.wrap id))
    | _ => failM "a signature expression" tok)
  F.sig_exp_loop begin ret

/-- The trailing `where` loop of `sig_exp` (from `parse.rs`). -/
def sig_exp_loop_body (n : Nat) (F : DecFns) (begin : Loc) (ret : SigExp) :
    PM (Located SigExp) := do
  let tok ← peekM
  if tok.val = .Where then do
    skipM
    let ty_vars ← ty_var_seq n
    let ty_con ← long_id n true
    eatM .Equal
    let t ← ty n
    let w ← wrapM begin ret
    F.sig_exp_loop begin (SigExp.Where w ty_vars ty_con t)
  else wrapM begin ret

/-- `self.maybe_spec()` (from `parse.rs`): one signature specification, or
`none` without consuming; a parsed specification is followed by the
`sharing` loop. -/
def maybe_spec_body (n : Nat) (F : DecFns) : PM (Option (Located Spec)) := do
  let tok ← peekM
  let begin := tok.loc
  let ret? ← (match tok.val with
    | .Val => do
      skipM
      let vds ← F.val_descs_loop []
      pure (some (Spec.Val vds))
    | .Typ => do
      skipM
      let tds ← ty_descs n
      pure (some (Spec.Typ tds false))
    | .Eqtype => do
      skipM
      let tds ← ty_descs n
      pure (some (Spec.Typ tds true))
    | .Datatype => do
      let dd ← datatype_dec n false
      match dd with
      | .Binds dat_binds => pure (some (Spec.Datatype dat_binds))
      | .Copy ty_con long => pure (some (Spec.DatatypeCopy ty_con long))
    | .Exception => do
      skipM
      let eds ← F.ex_descs_loop []
      pure (some (Spec.Exception eds))
    | .Structure => do
      skipM
      let sds ← F.str_descs_loop []
      pure (some (Spec.Structure sds))
    | .Include => do
      skipM
      let sig_ids ← F.include_sig_ids_loop []
      if sig_ids.isEmpty then do
        let e ← F.sig_exp
        pure (some (Spec.Include e))
      else pure (some (Spec.Seq sig_ids))
    | _ => pure none)
  match ret? with
  | none => pure none
  | some ret => do
    let ret ← F.sharing_loop begin ret
    let w ← wrapM begin ret
    pure (some w)

/-- The description loop of `maybe_spec`'s `val` arm (from `parse.rs`). -/
def val_descs_loop_body (n : Nat) (F : DecFns) (acc : List ValDesc) :
    PM (List ValDesc) := do
  let vid ← ident
  eatM .Colon
  let t ← ty n
  let acc := acc ++ [(⟨vid, t⟩ : ValDesc)]
  let tok ← peekM
  if tok.val = .And then do
    skipM
    F.val_descs_loop acc
  else pure acc

/-- The description loop of `maybe_spec`'s `exception` arm (from
`parse.rs`). -/
def ex_descs_loop_body (n : Nat) (F : DecFns) (acc : List ExDesc) :
    PM (List ExDesc) := do
  let vid ← ident
  let t ← maybe_of_ty n
  let acc := acc ++ [(⟨vid, t⟩ : ExDesc)]
  let tok ← peekM
  if tok.val = .And then do
    skipM
    F.ex_descs_loop acc
  else pure acc

/-- The description loop of `maybe_spec`'s `structure` arm (from
`parse.rs`). -/
def str_descs_loop_body (_n : Nat) (F : DecFns) (acc : List StrDesc) :
    PM (List StrDesc) := do
  let str_id ← alpha_num_id
  eatM .Colon
  let e ← F.sig_exp
  let acc := acc ++ [StrDesc.mk str_id e]
  let tok ← peekM
  if tok.val = .And then do
    skipM
    F.str_descs_loop acc
  else pure acc

/-- The identifier loop of `maybe_spec`'s `include` arm (from `parse.rs`). -/
def include_sig_ids_loop_body (_n : Nat) (F : DecFns)
    (acc : List (Located Spec)) : PM (List (Located Spec)) := do
  let tok ← peekM
  match tok.val with
  | .Ident id .AlphaNum => do
    skipM
    let loc := tok.loc
    F.include_sig_ids_loop
      (acc ++ [loc.wrap (Spec.Include (loc.wrap (SigExp.SigId (loc.wrap id))))])
  | _ => pure acc

/-- The trailing `sharing type` loop of `maybe_spec` (from `parse.rs`). -/
def sharing_loop_body (_n : Nat) (F : DecFns) (begin : Loc) (ret : Spec) :
    PM Spec := do
  let tok ← peekM
  if tok.val = .Sharing then do
    skipM
    eatM .Typ
    let ty_cons ← F.ty_cons_loop []
    if ty_cons.length < 2 then do
      let t ← peekM
      failM "an identifier" t
    else do
      let w ← wrapM begin ret
      F.sharing_loop begin (Spec.Sharing w ty_cons)
  else pure ret

/-- The `=`-separated long-identifier loop of the `sharing` clause (from
`parse.rs`). -/
def ty_cons_loop_body (n : Nat) (F : DecFns) (acc : List Long) :
    PM (List Long) := do
  let l ← long_id n true
  let acc := acc ++ [l]
  let tok ← peekM
  if tok.val = .Equal then do
    skipM
    F.ty_cons_loop acc
  else pure acc

/-- `self.spec()` (from `parse.rs`): `semicolon_seq` over `maybe_spec` with
`Spec::Seq`. -/
def spec_body (_n : Nat) (F : DecFns) : PM (Located Spec) := do
  let xs ← F.spec_seq_loop []
  semi_result xs Spec.Seq

/-- The item loop of `semicolon_seq` specialised to `maybe_spec` (from
`parse.rs`). -/
def spec_seq_loop_body (_n : Nat) (F : DecFns) (acc : List (Located Spec)) :
    PM (List (Located Spec)) := do
  let x? ← F.maybe_spec
  match x? with
  | none => pure acc
  | some x => do
    let tok ← peekM
    let _ ← if tok.val = .Semicolon then skipM else pure ()
    F.spec_seq_loop (acc ++ [x])

/-- `self.maybe_at_exp()` (from `parse.rs`): an atomic expression, or
`none` without consuming. -/
def maybe_at_exp_body (n : Nat) (F : DecFns) : PM (Option (Located Exp)) := do
  let tok ← peekM
  let begin := tok.loc
  let ret? ← (match tok.val with
    | .DecInt v _ => do
      skipM
      pure (some (Exp.DecInt v))
    | .HexInt v => do
      skipM
      pure (some (Exp.HexInt v))
    | .DecWord v => do
      skipM
      pure (some (Exp.DecWord v))
    | .HexWord v => do
      skipM
      pure (some (Exp.HexWord v))
    | .Real v => do
      skipM
      pure (some (Exp.Real v))
    | .Str s => do
      skipM
      pure (some (Exp.Str s))
    | .Char c => do
      skipM
      pure (some (Exp.Char c))
    | .Op => do
      skipM
      let l ← long_id n true
      pure (some (Exp.LongVid l))
    | .LCurly => do
      skipM
      let tok2 ← peekM
      if tok2.val = .RCurly then do
        skipM
        pure (some (Exp.Record []))
      else do
        let rows ← F.exp_rows_loop []
        pure (some (Exp.Record rows))
    | .Pound => do
      skipM
      let lab ← label
      pure (some (Exp.Select lab))
    | .LRound => do
      skipM
      let tok2 ← peekM
      if tok2.val = .RRound then do
        skipM
        pure (some (Exp.Tuple []))
      else do
        let fst ← F.exp
        let tok3 ← peekM
        skipM
        if tok3.val = .RRound then pure (some fst.val)
        else if tok3.val = .Comma then do
          let exprs ← F.exp_commas_loop [fst]
          pure (some (Exp.Tuple exprs))
        else if tok3.val = .Semicolon then do
          let exprs ← F.exp_semis_loop [fst]
          pure (some (Exp.Sequence exprs))
        else failM "`)`, `,`, or `;`" tok3
    | .LSquare => do
      skipM
      let tok2 ← peekM
      if tok2.val = .RSquare then do
        skipM
        pure (some (Exp.List []))
      else do
        let exprs ← F.exp_list_loop []
        pure (some (Exp.List exprs))
    | .Let => do
      skipM
      let ops ← getOpsM
      let d ← F.dec
      eatM .In
      let exprs ← F.let_exps_loop []
      setOpsM ops
      pure (some (Exp.Let d exprs))
    | .Ident _ _ => do
      let l ← long_id n false
      pure (some (Exp.LongVid l))
    | .Equal => do
      skipM
      pure (some (Exp.LongVid ⟨[], tok.loc.wrap StrRef.EQ⟩))
    | _ => pure none)
  match ret? with
  | none => pure none
  | some ret => do
    let w ← wrapM begin ret
    pure (some w)

/-- The row loop of `maybe_at_exp`'s record arm (from `parse.rs`). -/
def exp_rows_loop_body (_n : Nat) (F : DecFns) (acc : List (Row Exp)) :
    PM (List (Row Exp)) := do
  let lab ← label
  eatM .Equal
  let v ← F.exp
  let acc := acc ++ [⟨lab, v⟩]
  let tok ← peekM
  skipM
  if tok.val = .RCurly then pure acc
  else if tok.val = .Comma then F.exp_rows_loop acc
  else failM "`\x7d` or `,`" tok

/-- The comma loop of `maybe_at_exp`'s tuple arm (from `parse.rs`). -/
def exp_commas_loop_body (_n : Nat) (F : DecFns) (acc : List (Located Exp)) :
    PM (List (Located Exp)) := do
  let e ← F.exp
  let acc := acc ++ [e]
  let tok ← peekM
  skipM
  if tok.val = .RRound then pure acc
  else if tok.val = .Comma then F.exp_commas_loop acc
  else failM "`)` or `,`" tok

/-- The semicolon loop of `maybe_at_exp`'s sequence arm (from `parse.rs`). -/
def exp_semis_loop_body (_n : Nat) (F : DecFns) (acc : List (Located Exp)) :
    PM (List (Located Exp)) := do
  let e ← F.exp
  let acc := acc ++ [e]
  let tok ← peekM
  skipM
  if tok.val = .RRound then pure acc
  else if tok.val = .Semicolon then F.exp_semis_loop acc
  else failM "`)` or `;`" tok

/-- The element loop of `maybe_at_exp`'s list arm (from `parse.rs`). -/
def exp_list_loop_body (_n : Nat) (F : DecFns) (acc : List (Located Exp)) :
    PM (List (Located Exp)) := do
  let e ← F.exp
  let acc := acc ++ [e]
  let tok ← peekM
  skipM
  if tok.val = .RSquare then pure acc
  else if tok.val = .Comma then F.exp_list_loop acc
  else failM "`]` or `,`" tok

/-- The body loop of `maybe_at_exp`'s `let` arm (from `parse.rs`). -/
def let_exps_loop_body (_n : Nat) (F : DecFns) (acc : List (Located Exp)) :
    PM (List (Located Exp)) := do
  let e ← F.exp
  let acc := acc ++ [e]
  let tok ← peekM
  skipM
  if tok.val = .End then pure acc
  else if tok.val = .Semicolon then F.let_exps_loop acc
  else failM "`end` or `;`" tok

/-- `self.at_exp()` (from `parse.rs`). -/
def at_exp_body (_n : Nat) (F : DecFns) : PM (Located Exp) := do
  let x? ← F.maybe_at_exp
  match x? with
  | some x => pure x
  | none => do
    let tok ← peekM
    failM "an expression" tok

/-- `self.exp()` (from `parse.rs`). -/
def exp_body (_n : Nat) (F : DecFns) : PM (Located Exp) :=
  F.exp_prec none

/-- `self.exp_prec(min_prec)` (from `parse.rs`): prefix keyword forms, else
an atomic expression followed by the application/infix climb. -/
def exp_prec_body (_n : Nat) (F : DecFns) (min_prec : Option OpInfo) :
    PM (Located Exp) := do
  let tok ← peekM
  let begin := tok.loc
  let ret ←
    if tok.val = .Raise then do
      skipM
      let e ← F.exp
      pure (Exp.Raise e)
    else if tok.val = .If then do
      skipM
      let e_cond ← F.exp
      eatM .Then
      let e_then ← F.exp
      eatM .Else
      let e_else ← F.exp
      pure (Exp.If e_cond e_then e_else)
    else if tok.val = .While then do
      skipM
      let e_cond ← F.exp
      eatM .Do
      let e_body ← F.exp
      pure (Exp.While e_cond e_body)
    else if tok.val = .Case then do
      skipM
      let e_head ← F.exp
      eatM .Of
      let cs ← F.cases
      pure (Exp.Case e_head cs)
    else if tok.val = .Fn then do
      skipM
      let cs ← F.cases
      pure (Exp.Fn cs)
    else do
      let e ← F.at_exp
      let e ← F.exp_loop min_prec e
      pure e.val
  wrapM begin ret

/-- The application/infix climb loop of `exp_prec` (from `parse.rs`). -/
def exp_loop_body (_n : Nat) (F : DecFns) (min_prec : Option OpInfo)
    (e : Located Exp) : PM (Located Exp) := do
  let tok ← peekM
  match tok.val with
  | .Ident id _ => F.exp_loop_ident min_prec e tok id
  | .Equal => F.exp_loop_ident min_prec e tok StrRef.EQ
  | .Colon =>
    if min_prec.isSome then pure e
    else do
      skipM
      let t ← ty _n
      F.exp_loop min_prec (e.loc.wrap (Exp.Typed e t))
  | .Andalso =>
    if min_prec.isSome then pure e
    else do
      skipM
      let rhs ← F.exp
      F.exp_loop min_prec (e.loc.wrap (Exp.Andalso e rhs))
  | .Orelse =>
    if min_prec.isSome then pure e
    else do
      skipM
      let rhs ← F.exp
      F.exp_loop min_prec (e.loc.wrap (Exp.Orelse e rhs))
  | .Handle =>
    if min_prec.isSome then pure e
    else do
      skipM
      let cs ← F.cases
      F.exp_loop min_prec (e.loc.wrap (Exp.Handle e cs))
  | _ => F.exp_loop_app min_prec e

/-- The identifier arm of `exp_loop` (from `parse.rs`): a long identifier is
an application argument; an operator either breaks the climb, recurses at
higher precedence, or is a non-infix application argument. -/
def exp_loop_ident_body (n : Nat) (F : DecFns) (min_prec : Option OpInfo)
    (e : Located Exp) (tok : Located Token) (id : StrRef) :
    PM (Located Exp) := do
  skipM
  let tok2 ← peekM
  if tok2.val = .Dot then do
    backM
    let long ← long_id n true
    let rhs := e.loc.wrap (Exp.LongVid long)
    F.exp_loop min_prec (e.loc.wrap (Exp.App e rhs))
  else do
    let ops ← getOpsM
    match opsGet ops id with
    | some op_info => do
      let b ← liftP (op_info.should_break min_prec tok.loc)
      if b then do
        backM
        pure e
      else do
        let rhs ← F.exp_prec (some op_info)
        F.exp_loop min_prec (e.loc.wrap (Exp.InfixApp e (tok.loc.wrap id) rhs))
    | none => do
      let rhs := e.loc.wrap (Exp.LongVid ⟨[], tok.loc.wrap id⟩)
      F.exp_loop min_prec (e.loc.wrap (Exp.App e rhs))

/-- The default arm of `exp_loop` (from `parse.rs`): a following atomic
expression is an application argument, else the climb ends. -/
def exp_loop_app_body (_n : Nat) (F : DecFns) (min_prec : Option OpInfo)
    (e : Located Exp) : PM (Located Exp) := do
  let rhs? ← F.maybe_at_exp
  match rhs? with
  | some rhs => F.exp_loop min_prec (e.loc.wrap (Exp.App e rhs))
  | none => pure e

/-- `self.cases()` (from `parse.rs`). -/
def cases_body (_n : Nat) (F : DecFns) : PM Cases := do
  let arms ← F.cases_arms_loop []
  pure (Cases.mk arms)

/-- The arm loop of `cases` (from `parse.rs`). -/
def cases_arms_loop_body (n : Nat) (F : DecFns) (acc : List Arm) :
    PM (List Arm) := do
  let p ← pat n
  eatM .BigArrow
  let e ← F.exp
  let acc := acc ++ [Arm.mk p e]
  let tok ← peekM
  if tok.val = .Bar then do
    skipM
    F.cases_arms_loop acc
  else pure acc

/-- `self.maybe_dec()` (from `parse.rs`): one core declaration, or `none`
without consuming. The `local` arm snapshots and restores the operator
table; the `infix`/`infixr`/`nonfix` arms mutate the live table and still
emit the declaration into the AST. -/
def maybe_dec_body (n : Nat) (F : DecFns) : PM (Option (Located Dec)) := do
  let tok ← peekM
  let begin := tok.loc
  let ret? ← (match tok.val with
    | .Val => do
      skipM
      let ty_vars ← ty_var_seq n
      let val_binds ← F.val_binds_loop []
      pure (some (Dec.Val ty_vars val_binds))
    | .Fun => do
      skipM
      let ty_vars ← ty_var_seq n
      let binds ← F.fun_binds_dec_loop [] []
      pure (some (Dec.Fun ty_vars binds))
    | .Typ => do
      skipM
      let tbs ← ty_binds n
      pure (some (Dec.Typ tbs))
    | .Datatype => do
      let dd ← datatype_dec n true
      match dd with
      | .Binds dat_binds => do
        let tok2 ← peekM
        let tbs ←
          if tok2.val = .Withtype then do
            skipM
            ty_binds n
          else pure []
        pure (some (Dec.Datatype dat_binds tbs))
      | .Copy ty_con long => pure (some (Dec.DatatypeCopy ty_con long))
    | .Abstype => do
      skipM
      let db ← dat_bind n true
      let dat_binds ← datatype_dec_and_loop n true [db]
      let tok2 ← peekM
      let tbs ←
        if tok2.val = .Withtype then do
          skipM
          ty_binds n
        else pure []
      eatM .With
      let d ← F.dec
      eatM .End
      pure (some (Dec.Abstype dat_binds tbs d))
    | .Exception => do
      skipM
      let ebs ← F.ex_binds_loop []
      pure (some (Dec.Exception ebs))
    | .Local => do
      skipM
      let ops ← getOpsM
      let fst ← F.dec
      eatM .In
      let snd ← F.dec
      eatM .End
      setOpsM ops
      pure (some (Dec.Local fst snd))
    | .Open => do
      skipM
      let str_ids ← F.open_loop []
      pure (some (Dec.Open str_ids))
    | .Infix => do
      skipM
      let nn ← fixity_num
      let idents ← fixity_idents n
      opsInsertAllM idents (OpInfo.left nn.val)
      pure (some (Dec.Infix nn idents))
    | .Infixr => do
      skipM
      let nn ← fixity_num
      let idents ← fixity_idents n
      opsInsertAllM idents (OpInfo.right nn.val)
      pure (some (Dec.Infixr nn idents))
    | .Nonfix => do
      skipM
      let idents ← fixity_idents n
      opsRemoveAllM idents
      pure (some (Dec.Nonfix idents))
    | _ => pure none)
  match ret? with
  | none => pure none
  | some ret => do
    let w ← wrapM begin ret
    pure (some w)

/-- The binding loop of `maybe_dec`'s `val` arm (from `parse.rs`). -/
def val_binds_loop_body (n : Nat) (F : DecFns) (acc : List ValBind) :
    PM (List ValBind) := do
  let tok ← peekM
  let r ←
    if tok.val = .Rec then do
      skipM
      pure true
    else pure false
  let p ← pat n
  eatM .Equal
  let e ← F.exp
  let acc := acc ++ [ValBind.mk r p e]
  let tok2 ← peekM
  if tok2.val = .And then do
    skipM
    F.val_binds_loop acc
  else pure acc

/-- The clause/binding loop of `maybe_dec`'s `fun` arm (from `parse.rs`):
`|` continues the current binding's clauses, `and` starts a new binding. -/
def fun_binds_dec_loop_body (_n : Nat) (F : DecFns)
    (cases_acc : List FValBindCase) (binds_acc : List FValBind) :
    PM (List FValBind) := do
  let c ← F.fval_bind_case
  let cases_acc := cases_acc ++ [c]
  let tok ← peekM
  if tok.val = .Bar then do
    skipM
    F.fun_binds_dec_loop cases_acc binds_acc
  else if tok.val = .And then do
    skipM
    F.fun_binds_dec_loop [] (binds_acc ++ [FValBind.mk cases_acc])
  else pure (binds_acc ++ [FValBind.mk cases_acc])

/-- The binding loop of `maybe_dec`'s `exception` arm (from `parse.rs`). -/
def ex_binds_loop_body (n : Nat) (F : DecFns) (acc : List ExBind) :
    PM (List ExBind) := do
  let tok ← peekM
  let _ ← if tok.val = .Op then skipM else pure ()
  let vid ← ident
  let tok2 ← peekM
  let inner ←
    if tok2.val = .Equal then do
      skipM
      let tok3 ← peekM
      let _ ← if tok3.val = .Op then skipM else pure ()
      let l ← long_id n true
      pure (ExBindInner.Long l)
    else do
      let t ← maybe_of_ty n
      pure (ExBindInner.Ty t)
  let acc := acc ++ [(⟨vid, inner⟩ : ExBind)]
  let tok4 ← peekM
  if tok4.val = .And then do
    skipM
    F.ex_binds_loop acc
  else pure acc

/-- The long-identifier loop of `maybe_dec`'s `open` arm (from
`parse.rs`). -/
def open_loop_body (n : Nat) (F : DecFns) (acc : List Long) :
    PM (List Long) := do
  let l ← long_alpha_num_id n
  let acc := acc ++ [l]
  let tok ← peekM
  match tok.val with
  | .Ident _ _ => F.open_loop acc
  | _ => pure acc

/-- `self.dec()` (from `parse.rs`): `semicolon_seq` over `maybe_dec` with
`Dec::Seq`. -/
def dec_body (_n : Nat) (F : DecFns) : PM (Located Dec) := do
  let xs ← F.dec_seq_loop []
  semi_result xs Dec.Seq

/-- The item loop of `semicolon_seq` specialised to `maybe_dec` (from
`parse.rs`). -/
def dec_seq_loop_body (_n : Nat) (F : DecFns) (acc : List (Located Dec)) :
    PM (List (Located Dec)) := do
  let x? ← F.maybe_dec
  match x? with
  | none => pure acc
  | some x => do
    let tok ← peekM
    let _ ← if tok.val = .Semicolon then skipM else pure ()
    F.dec_seq_loop (acc ++ [x])

/-- `self.fval_bind_case()` (from `parse.rs`): first try the infix clause
head; on failure restore the saved position (the one bounded backtrack in
the parser) and try the `op`/parenthesised/plain heads. -/
def fval_bind_case_body (_n : Nat) (F : DecFns) : PM FValBindCase :=
  fun p =>
    let cur := p.i
    match F.fval_bind_case_no_parens p with
    | .oof => .oof
    | .ok x p' => F.fval_bind_case_finish x.1 [x.2] p'
    | .err _ p' => F.fval_bind_case_fallback { p' with i := cur }

/-- The non-infix clause heads of `fval_bind_case` (from `parse.rs`),
followed by the argument-pattern loop. -/
def fval_bind_case_fallback_body (n : Nat) (F : DecFns) : PM FValBindCase := do
  let tok ← peekM
  skipM
  let vp ← (match tok.val with
    | .Op => do
      let v ← ident
      let p0 ← at_pat n
      pure (v, p0)
    | .LRound => do
      let x ← F.fval_bind_case_no_parens
      eatM .RRound
      pure x
    | .Ident vid0 _ => do
      let ops ← getOpsM
      if opsContainsKey ops vid0 then
        errM (tok.loc.wrap (.InfixWithoutOp vid0))
      else do
        let p0 ← at_pat n
        pure (tok.loc.wrap vid0, p0)
    | _ => failM "`op`, `(`, or an identifier" tok)
  let pats ← F.fval_pats_loop [vp.2]
  F.fval_bind_case_finish vp.1 pats

/-- The shared tail of `fval_bind_case` (from `parse.rs`): optional return
type, `=`, and the clause body. -/
def fval_bind_case_finish_body (n : Nat) (F : DecFns) (vid : Located StrRef)
    (pats : List (Located Pat)) : PM FValBindCase := do
  let ret_ty ← maybe_colon_ty n
  eatM .Equal
  let body ← F.exp
  pure (FValBindCase.mk vid pats ret_ty body)

/-- The argument-pattern loop of `fval_bind_case` (from `parse.rs`). -/
def fval_pats_loop_body (n : Nat) (F : DecFns) (acc : List (Located Pat)) :
    PM (List (Located Pat)) := do
  let p? ← maybe_at_pat n
  match p? with
  | some p0 => F.fval_pats_loop (acc ++ [p0])
  | none => pure acc

/-- `self.fval_bind_case_no_parens()` (from `parse.rs`): the infix clause
head `pat vid pat`, requiring `vid` to be infix. -/
def fval_bind_case_no_parens_body (n : Nat) (_F : DecFns) :
    PM (Located StrRef × Located Pat) := do
  let fst ← at_pat n
  let vid ← ident
  let ops ← getOpsM
  if ¬ opsContainsKey ops vid.val then
    errM (vid.loc.wrap (.NotInfix vid.val))
  else do
    let snd ← at_pat n
    pure (vid, fst.loc.wrap (Pat.Tuple [fst, snd]))

/-- The top-declaration loop of `get` (from `parse.rs`): parse top
declarations until EOF. -/
def get_loop_body (_n : Nat) (F : DecFns) (acc : List (Located TopDec)) :
    PM (List (Located TopDec)) := do
  let tok ← peekM
  if tok.val = .EOF then pure acc
  else do
    let td ← F.top_dec
    F.get_loop (acc ++ [td])

/-- One fuel level of the expression/declaration/module parser family. -/
def decStep (n : Nat) (F : DecFns) : DecFns where
  top_dec := top_dec_body n F
  sig_binds_loop := sig_binds_loop_body n F
  fun_binds_loop := fun_binds_loop_body n F
  str_exp_sugar := str_exp_sugar_body n F
  str_exp := str_exp_body n F
  str_exp_loop := str_exp_loop_body n F
  maybe_str_dec := maybe_str_dec_body n F
  str_binds_loop := str_binds_loop_body n F
  str_dec := str_dec_body n F
  str_dec_seq_loop := str_dec_seq_loop_body n F
  sig_exp := sig_exp_body n F
  sig_exp_loop := sig_exp_loop_body n F
  maybe_spec := maybe_spec_body n F
  val_descs_loop := val_descs_loop_body n F
  ex_descs_loop := ex_descs_loop_body n F
  str_descs_loop := str_descs_loop_body n F
  include_sig_ids_loop := include_sig_ids_loop_body n F
  sharing_loop := sharing_loop_body n F
  ty_cons_loop := ty_cons_loop_body n F
  spec := spec_body n F
  spec_seq_loop := spec_seq_loop_body n F
  maybe_at_exp := maybe_at_exp_body n F
  exp_rows_loop := exp_rows_loop_body n F
  exp_commas_loop := exp_commas_loop_body n F
  exp_semis_loop := exp_semis_loop_body n F
  exp_list_loop := exp_list_loop_body n F
  let_exps_loop := let_exps_loop_body n F
  at_exp := at_exp_body n F
  exp := exp_body n F
  exp_prec := exp_prec_body n F
  exp_loop := exp_loop_body n F
  exp_loop_ident := exp_loop_ident_body n F
  exp_loop_app := exp_loop_app_body n F
  cases := cases_body n F
  cases_arms_loop := cases_arms_loop_body n F
  maybe_dec := maybe_dec_body n F
  val_binds_loop := val_binds_loop_body n F
  fun_binds_dec_loop := fun_binds_dec_loop_body n F
  ex_binds_loop := ex_binds_loop_body n F
  open_loop := open_loop_body n F
  dec := dec_body n F
  dec_seq_loop := dec_seq_loop_body n F
  fval_bind_case := fval_bind_case_body n F
  fval_bind_case_fallback := fval_bind_case_fallback_body n F
  fval_bind_case_finish := fval_bind_case_finish_body n F
  fval_pats_loop := fval_pats_loop_body n F
  fval_bind_case_no_parens := fval_bind_case_no_parens_body n F
  get_loop := get_loop_body n F

/-- The expression/declaration/module parser family at each fuel level. -/
def decFns : Nat → DecFns
  | 0 => decOof
  | n + 1 => decStep n (decFns n)

/-- `self.top_dec()` (from `parse.rs`) at a fuel level. -/
def top_dec (n : Nat) : PM (Located TopDec) :=
  (decFns n).top_dec

/-- `self.str_exp()` (from `parse.rs`) at a fuel level. -/
def str_exp (n : Nat) : PM (Located StrExp) :=
  (decFns n).str_exp

/-- `self.maybe_str_dec()` (from `parse.rs`) at a fuel level. -/
def maybe_str_dec (n : Nat) : PM (Option (Located StrDec)) :=
  (decFns n).maybe_str_dec

/-- `self.str_dec()` (from `parse.rs`) at a fuel level. -/
def str_dec (n : Nat) : PM (Located StrDec) :=
  (decFns n).str_dec

/-- `self.sig_exp()` (from `parse.rs`) at a fuel level. -/
def sig_exp (n : Nat) : PM (Located SigExp) :=
  (decFns n).sig_exp

/-- `self.spec()` (from `parse.rs`) at a fuel level. -/
def spec (n : Nat) : PM (Located Spec) :=
  (decFns n).spec

/-- `self.maybe_spec()` (from `parse.rs`) at a fuel level. -/
def maybe_spec (n : Nat) : PM (Option (Located Spec)) :=
  (decFns n).maybe_spec

/-- `self.maybe_at_exp()` (from `parse.rs`) at a fuel level. -/
def maybe_at_exp (n : Nat) : PM (Option (Located Exp)) :=
  (decFns n).maybe_at_exp

/-- `self.exp()` (from `parse.rs`) at a fuel level. -/
def exp (n : Nat) : PM (Located Exp) :=
  (decFns n).exp

/-- `self.exp_prec(min_prec)` (from `parse.rs`) at a fuel level. -/
def exp_prec (n : Nat) (min_prec : Option OpInfo) : PM (Located Exp) :=
  (decFns n).exp_prec min_prec

/-- `self.maybe_dec()` (from `parse.rs`) at a fuel level. -/
def maybe_dec (n : Nat) : PM (Option (Located Dec)) :=
  (decFns n).maybe_dec

/-- `self.dec()` (from `parse.rs`) at a fuel level. -/
def dec (n : Nat) : PM (Located Dec) :=
  (decFns n).dec

/-- Modelled from the spec: `Lexer::last_loc()`, `None` exactly when the
lexer holds no tokens, else the location of the last token. -/
def lexer_last_loc (lexer : List (Located Token)) : Option Loc :=
  lexer.getLast?.map (fun t => t.loc)

/-- The overall result of `get` (from `parse.rs`): the parsed top
declarations or a single located error (plus the fuel marker). -/
inductive ParseResult where
  | oof : ParseResult
  | err : Located ParseError → ParseResult
  | ok : List (Located TopDec) → ParseResult

/-- `get(lexer)` (from `parse.rs`), the parser's public entry point
(`parse` in the spec): `Ok([])` when the lexer holds no tokens, else run
`top_dec` until EOF from a fresh `Parser`. -/
def parse_get (fuel : Nat) (lexer : List (Located Token)) : ParseResult :=
  match lexer_last_loc lexer with
  | none => .ok []
  | some last_loc =>
    match (decFns fuel).get_loop [] (Parser.new lexer last_loc) with
    | .oof => .oof
    | .err e _ => .err e
    | .ok v _ => .ok v

/-- Modelled from the spec: reserved interner entry for `int`. -/
def StrRef.INT : StrRef := ⟨17⟩

/-- Modelled from the spec: reserved interner entry for `word`. -/
def StrRef.WORD : StrRef := ⟨18⟩

/-- Modelled from the spec: reserved interner entry for `real`. -/
def StrRef.REAL : StrRef := ⟨19⟩

/-- Modelled from the spec: reserved interner entry for `string`. -/
def StrRef.STRING : StrRef := ⟨20⟩

/-- Modelled from the spec: reserved interner entry for `char`. -/
def StrRef.CHAR : StrRef := ⟨21⟩

/-- Modelled from the spec: reserved interner entry for `bool`. -/
def StrRef.BOOL : StrRef := ⟨22⟩

/-- Modelled from the spec: reserved interner entry for `exn`. -/
def StrRef.EXN : StrRef := ⟨23⟩

/-- Modelled from the spec: reserved interner entry for `list`. -/
def StrRef.LIST : StrRef := ⟨24⟩

/-- Modelled from the spec (statics `types`): `Sym`, a generative type-name
identity: the type constructor's name (used by the name-set bookkeeping)
plus a generation number making it unique. (Named `TySym` because Mathlib
already declares `Sym`.) -/
structure TySym where
  name : StrRef
  id : Nat
  deriving DecidableEq, Repr

/-- Modelled from the spec: the built-in `int` type name. -/
def TySym.INT : TySym := ⟨StrRef.INT, 0⟩

/-- Modelled from the spec: the built-in `word` type name. -/
def TySym.WORD : TySym := ⟨StrRef.WORD, 1⟩

/-- Modelled from the spec: the built-in `real` type name. -/
def TySym.REAL : TySym := ⟨StrRef.REAL, 2⟩

/-- Modelled from the spec: the built-in `string` type name. -/
def TySym.STRING : TySym := ⟨StrRef.STRING, 3⟩

/-- Modelled from the spec: the built-in `char` type name. -/
def TySym.CHAR : TySym := ⟨StrRef.CHAR, 4⟩

/-- Modelled from the spec: the built-in `bool` type name. -/
def TySym.BOOL : TySym := ⟨StrRef.BOOL, 5⟩

/-- Modelled from the spec: the built-in `exn` type name. -/
def TySym.EXN : TySym := ⟨StrRef.EXN, 6⟩

/-- Modelled from the spec: the built-in `list` type name. -/
def TySym.LIST : TySym := ⟨StrRef.LIST, 7⟩

/-- Modelled from the spec (statics `types`): a semantic type variable: its
id and the "imperative/expansive" flag used by the value restriction. -/
structure TyVar where
  id : Nat
  expansive : Bool
  deriving DecidableEq, Repr

/-- Modelled from the spec (statics `types`): semantic types: variables,
ordered record rows, arrows and applied type constructors. -/
inductive Ty where
  | Var : TyVar → Ty
  | Record : List (Label × Ty) → Ty
  | Arrow : Ty → Ty → Ty
  | Ctor : List Ty → TySym → Ty
  deriving Repr

/-- Modelled from the spec: `Ty::INT`. -/
def Ty.INT : Ty := .Ctor [] TySym.INT

/-- Modelled from the spec: `Ty::WORD`. -/
def Ty.WORD : Ty := .Ctor [] TySym.WORD

/-- Modelled from the spec: `Ty::REAL`. -/
def Ty.REAL : Ty := .Ctor [] TySym.REAL

/-- Modelled from the spec: `Ty::STRING`. -/
def Ty.STRING : Ty := .Ctor [] TySym.STRING

/-- Modelled from the spec: `Ty::CHAR`. -/
def Ty.CHAR : Ty := .Ctor [] TySym.CHAR

/-- Modelled from the spec: `Ty::BOOL`. -/
def Ty.BOOL : Ty := .Ctor [] TySym.BOOL

/-- Modelled from the spec: `Ty::EXN`. -/
def Ty.EXN : Ty := .Ctor [] TySym.EXN

/-- Modelled from the spec: `Ty::list(elem)`. -/
def Ty.list (elem : Ty) : Ty := .Ctor [elem] TySym.LIST

/-- Modelled from the spec: `Ty::pair(a, b)`, the record with numeric
labels 1 and 2. -/
def Ty.pair (a b : Ty) : Ty := .Record [(Label.Num 1, a), (Label.Num 2, b)]

/-- Modelled from the spec (statics `types`): a type scheme: bound variables
and body. -/
structure TyScheme where
  ty_vars : List TyVar
  ty : Ty
  deriving Repr

/-- Modelled from the spec: `TyScheme::mono(ty)`. -/
def TyScheme.mono (t : Ty) : TyScheme := ⟨[], t⟩

/-- Modelled from the spec (statics `types`): identifier status of a value
binding. -/
inductive IdStatus where
  | Val : IdStatus
  | Ctor : IdStatus
  | Exn : IdStatus
  deriving DecidableEq, Repr

/-- Modelled from the spec: `IdStatus::is_exn()`. -/
def IdStatus.is_exn : IdStatus → Bool
  | .Exn => true
  | _ => false

/-- Modelled from the spec (statics `types`): a value environment entry. -/
structure ValInfo where
  ty_scheme : TyScheme
  id_status : IdStatus
  deriving Repr

/-- Modelled from the spec: `ValInfo::val(scheme)`. -/
def ValInfo.val (s : TyScheme) : ValInfo := ⟨s, .Val⟩

/-- Modelled from the spec: `ValInfo::ctor(scheme)`. -/
def ValInfo.ctor (s : TyScheme) : ValInfo := ⟨s, .Ctor⟩

/-- Modelled from the spec: `ValInfo::exn()`, an exception constant of type
`exn`. -/
def ValInfo.exn : ValInfo := ⟨TyScheme.mono Ty.EXN, .Exn⟩

/-- Modelled from the spec: `ValInfo::exn_fn(ty)`, an exception constructor
of type `ty -> exn`. -/
def ValInfo.exn_fn (t : Ty) : ValInfo := ⟨TyScheme.mono (.Arrow t Ty.EXN), .Exn⟩

/-- Modelled from the spec (statics `types`): a type environment entry:
either an alias scheme or a generative symbol. -/
inductive TyInfo where
  | Alias : TyScheme → TyInfo
  | Sym : TySym → TyInfo
  deriving Repr

/-- Lookup in an association-list map with unique keys (models the sources'
`HashMap`/`BTreeMap` reads; iteration order is fixed to insertion order,
which no claim depends on). -/
def alistGet {κ ν : Type} [DecidableEq κ] (m : List (κ × ν)) (k : κ) :
    Option ν :=
  match m with
  | [] => none
  | (k', v) :: rest => if k' = k then some v else alistGet rest k

/-- Insert into an association-list map, overwriting an existing key in
place (`HashMap::insert` / `BTreeMap::insert`). -/
def alistInsert {κ ν : Type} [DecidableEq κ] (m : List (κ × ν)) (k : κ)
    (v : ν) : List (κ × ν) :=
  match m with
  | [] => [(k, v)]
  | (k', v') :: rest =>
    if k' = k then (k, v) :: rest else (k', v') :: alistInsert rest k v

/-- Right-biased union of association-list maps (`Extend::extend`). -/
def alistExtend {κ ν : Type} [DecidableEq κ] (m other : List (κ × ν)) :
    List (κ × ν) :=
  match other with
  | [] => m
  | (k, v) :: rest => alistExtend (alistInsert m k v) rest

/-- Insert into a list modelling a hash set (no-op when present). -/
def namesInsert (l : List StrRef) (x : StrRef) : List StrRef :=
  if x ∈ l then l else l ++ [x]

/-- Union of two name sets (`HashSet::extend`). -/
def namesUnion (l other : List StrRef) : List StrRef :=
  match other with
  | [] => l
  | x :: rest => namesUnion (namesInsert l x) rest

/-- Membership test of one name set in another (`HashSet::is_subset`). -/
def namesSubset (l other : List StrRef) : Bool :=
  l.all (fun x => x ∈ other)

/-- Set difference of name sets (`HashSet::difference`). -/
def namesDiff (l other : List StrRef) : List StrRef :=
  l.filter (fun x => x ∉ other)

/-- Modelled from the spec (statics `types`): `Env`, the triple of value,
type and structure environments. -/
inductive Env where
  | mk : List (StrRef × ValInfo) → List (StrRef × TyInfo) →
      List (StrRef × Env) → Env

/-- The value environment of an `Env`. -/
def Env.val_env : Env → List (StrRef × ValInfo)
  | .mk ve _ _ => ve

/-- The type environment of an `Env`. -/
def Env.ty_env : Env → List (StrRef × TyInfo)
  | .mk _ te _ => te

/-- The structure environment of an `Env`. -/
def Env.str_env : Env → List (StrRef × Env)
  | .mk _ _ se => se

instance : Inhabited Env := ⟨.mk [] [] []⟩

/-- Modelled from the spec: `Env::extend(other)`, the right-biased union of
the three component maps. -/
def Env.extend (e other : Env) : Env :=
  .mk (alistExtend e.val_env other.val_env)
    (alistExtend e.ty_env other.ty_env)
    (alistExtend e.str_env other.str_env)

mutual

/-- Modelled from the spec: `Env::ty_names()`, the names of the generative
type symbols defined in the type environment and, recursively, in the
structure environments. -/
def Env.ty_names : Env → List StrRef
  | .mk _ te se => tyEnvNames te ++ strEnvNames se

/-- The symbol names of a type environment's entries. -/
def tyEnvNames : List (StrRef × TyInfo) → List StrRef
  | [] => []
  | (_, .Alias _) :: rest => tyEnvNames rest
  | (_, .Sym s) :: rest => s.name :: tyEnvNames rest

/-- The symbol names defined in a structure environment. -/
def strEnvNames : List (StrRef × Env) → List StrRef
  | [] => []
  | (_, e) :: rest => e.ty_names ++ strEnvNames rest

end

/-- Modelled from the spec (statics `types`): the context visible while
elaborating an expression or declaration: explicit type variables, the
known type-name set and the environment. -/
structure Cx where
  ty_vars : List TyVarTok
  ty_names : List StrRef
  env : Env

/-- Modelled from the spec: `Cx::o_plus(env)`, the Definition's `C ⊕ E`:
extend the environment and add its type names to the known set. -/
def Cx.o_plus (cx : Cx) (env : Env) : Cx :=
  { cx with
    ty_names := namesUnion cx.ty_names env.ty_names
    env := cx.env.extend env }

/-- Modelled from the spec (statics `types`): a signature: an environment
together with its abstract (newly introduced) type names. -/
structure Sig where
  env : Env
  ty_names : List StrRef

/-- Modelled from the spec (statics `types`): the information recorded for
one generative type symbol: its type function, its constructor environment,
and its equality attribute. (`dec.rs` constructs `SymTyInfo` without the
`equality` field; those sites use `false` here.) -/
structure SymTyInfo where
  ty_fcn : TyScheme
  val_env : List (StrRef × ValInfo)
  equality : Bool

/-- Modelled from the spec (statics `types`): the symbol table. -/
def SymTys : Type := List (TySym × SymTyInfo)

/-- Modelled from the spec (statics `types`): the substitution, an
append-only mapping from type-variable ids to types. -/
def Subst : Type := List (Nat × Ty)

/-- Modelled from the spec (statics `types`): the basis: the known type
names, the top-level environment, and the signature and functor
environments. (Named `Basis'` because Mathlib already declares `Basis`.) -/
structure Basis' where
  ty_names : List StrRef
  env : Env
  sig_env : List (StrRef × Sig)
  fun_env : List (StrRef × Unit)

/-- Modelled from the spec: `Basis::add_env(env)`: extend the environment
and record its new type names. -/
def Basis'.add_env (bs : Basis') (env : Env) : Basis' :=
  { bs with
    ty_names := namesUnion bs.ty_names env.ty_names
    env := bs.env.extend env }

/-- Modelled from the spec: `Basis::add_sig_env(sig_env)`. -/
def Basis'.add_sig_env (bs : Basis') (sig_env : List (StrRef × Sig)) : Basis' :=
  { bs with sig_env := alistExtend bs.sig_env sig_env }

/-- Modelled from the spec: `Basis::add_fun_env(fun_env)`. -/
def Basis'.add_fun_env (bs : Basis') (fun_env : List (StrRef × Unit)) : Basis' :=
  { bs with fun_env := alistExtend bs.fun_env fun_env }

/-- Modelled from the spec: `Basis::to_cx()`. -/
def Basis'.to_cx (bs : Basis') : Cx :=
  ⟨[], bs.ty_names, bs.env⟩

/-- Modelled from the spec (statics `types`): the item kinds named in
`Undefined` diagnostics. -/
inductive Item where
  | Val : Item
  | Ty : Item
  | Struct : Item
  | Sig : Item
  | Functor : Item
  deriving DecidableEq, Repr

/-- Static errors (statics `types::Error`, modelled from the spec's error
list; `Todo` is the "unsupported" diagnostic). `Unreachable` models the
Rust `unwrap`/`assert!` panics on states the parser never produces. -/
inductive Error where
  | Todo : String → Error
  | Undefined : Item → StrRef → Error
  | Redefined : StrRef → Error
  | DuplicateLabel : Label → Error
  | CircularTy : Error
  | HeadMismatch : Error
  | RowMismatch : Error
  | TyNameEscape : Error
  | NoSuitableOverload : Error
  | ForbiddenBinding : StrRef → Error
  | ExnWrongIdStatus : IdStatus → Error
  | DatatypeCopyNotDatatype : Error
  | FunDecNameMismatch : StrRef → StrRef → Error
  | FunDecWrongNumPats : Nat → Nat → Error
  | PatNotArrow : Error
  | NonExhaustiveMatch : Error
  | UnreachableArm : Error
  | Unreachable : Error
  deriving DecidableEq, Repr

/-- Modelled from the spec (statics `types`): the mutable elaboration
state: fresh type-variable and symbol counters, the substitution, the
pending overload constraints, and the symbol table. -/
structure State where
  next_ty_var : Nat
  next_sym : Nat
  subst : Subst
  overload : List (TyVar × (Loc × List Ty))
  sym_tys : SymTys

/-- Modelled from the spec: `State::new_ty_var(expansive)`. -/
def State.new_ty_var (st : State) (expansive : Bool) : TyVar × State :=
  (⟨st.next_ty_var, expansive⟩, { st with next_ty_var := st.next_ty_var + 1 })

/-- Modelled from the spec: `State::new_sym(name)`: a fresh symbol carrying
the spelled name. -/
def State.new_sym (st : State) (name : Located StrRef) : TySym × State :=
  (⟨name.val, st.next_sym⟩, { st with next_sym := st.next_sym + 1 })

/-- Result of a pure statics computation: out of fuel, a located static
error, or a value. -/
inductive ERes (α : Type) where
  | oof : ERes α
  | err : Located Error → ERes α
  | ok : α → ERes α

/-- Result of a statics computation threading `State` (mirrors `&mut State`
with `Result`: on error the state at the failure point is carried). -/
inductive CkRes (α : Type) where
  | oof : CkRes α
  | err : Located Error → State → CkRes α
  | ok : α → State → CkRes α

/-- A statics computation over the mutable `State`. -/
def CkM (α : Type) : Type :=
  State → CkRes α

instance : Monad CkM where
  pure a := fun st => .ok a st
  bind m f := fun st =>
    match m st with
    | .oof => .oof
    | .err e st' => .err e st'
    | .ok a st' => f a st'

/-- Read the whole state. -/
def getStM : CkM State :=
  fun st => .ok st st

/-- Replace the whole state. -/
def setStM (st : State) : CkM Unit :=
  fun _ => .ok () st

/-- Return a located static error (Rust's `return Err(..)`). -/
def errCk {α : Type} (e : Located Error) : CkM α :=
  fun st => .err e st

/-- Lift a pure result into the statics computation (the `?` operator on
state-free helpers). -/
def liftCk {α : Type} (e : ERes α) : CkM α :=
  fun st =>
    match e with
    | .oof => .oof
    | .err er => .err er st
    | .ok a => .ok a st

/-- Lift an `Except` (from helpers that cannot run out of fuel). -/
def liftCkE {α : Type} (e : Except (Located Error) α) : CkM α :=
  fun st =>
    match e with
    | .error er => .err er st
    | .ok a => .ok a st

/-- `st.new_ty_var(expansive)` as a computation. -/
def newTyVarM (expansive : Bool) : CkM TyVar :=
  fun st =>
    let (tv, st') := st.new_ty_var expansive
    .ok tv st'

/-- `st.new_sym(name)` as a computation. -/
def newSymM (name : Located StrRef) : CkM TySym :=
  fun st =>
    let (sym, st') := st.new_sym name
    .ok sym st'

mutual

/-- Modelled from the spec: the free type variables of a type. -/
def Ty.free_ty_vars : Ty → List TyVar
  | .Var v => [v]
  | .Record rows => freeTyVarsRows rows
  | .Arrow a b => a.free_ty_vars ++ b.free_ty_vars
  | .Ctor args _ => freeTyVarsList args

/-- Free type variables of a row list. -/
def freeTyVarsRows : List (Label × Ty) → List TyVar
  | [] => []
  | (_, t) :: rest => t.free_ty_vars ++ freeTyVarsRows rest

/-- Free type variables of a type list. -/
def freeTyVarsList : List Ty → List TyVar
  | [] => []
  | t :: rest => t.free_ty_vars ++ freeTyVarsList rest

end

mutual

/-- Modelled from the spec: `Ty::ty_names()`, the names of the type symbols
mentioned in a type (the set compared against `Cx::ty_names` by the
type-name escape check). -/
def Ty.ty_names : Ty → List StrRef
  | .Var _ => []
  | .Record rows => tyNamesRows rows
  | .Arrow a b => a.ty_names ++ b.ty_names
  | .Ctor args sym => sym.name :: tyNamesList args

/-- Type names of a row list. -/
def tyNamesRows : List (Label × Ty) → List StrRef
  | [] => []
  | (_, t) :: rest => t.ty_names ++ tyNamesRows rest

/-- Type names of a type list. -/
def tyNamesList : List Ty → List StrRef
  | [] => []
  | t :: rest => t.ty_names ++ tyNamesList rest

end

mutual

/-- Modelled from the spec: `Ty::apply(&subst)`, the recursive application
of the substitution (chains through variable links; `none` on exhausted
fuel — the substitution is acyclic by the occurs check, so enough fuel
always exists). -/
def Ty.apply : Nat → Subst → Ty → Option Ty
  | 0, _, _ => none
  | n + 1, s, t =>
    match t with
    | .Var v =>
      match alistGet s v.id with
      | some t' => Ty.apply n s t'
      | none => some (.Var v)
    | .Record rows =>
      match applyRows n s rows with
      | some rows' => some (.Record rows')
      | none => none
    | .Arrow a b =>
      match Ty.apply n s a, Ty.apply n s b with
      | some a', some b' => some (.Arrow a' b')
      | _, _ => none
    | .Ctor args sym =>
      match applyList n s args with
      | some args' => some (.Ctor args' sym)
      | none => none

/-- Substitution application over a row list. -/
def applyRows : Nat → Subst → List (Label × Ty) → Option (List (Label × Ty))
  | 0, _, _ => none
  | n + 1, s, rows =>
    match rows with
    | [] => some []
    | (l, t) :: rest =>
      match Ty.apply n s t, applyRows n s rest with
      | some t', some rest' => some ((l, t') :: rest')
      | _, _ => none

/-- Substitution application over a type list. -/
def applyList : Nat → Subst → List Ty → Option (List Ty)
  | 0, _, _ => none
  | n + 1, s, ts =>
    match ts with
    | [] => some []
    | t :: rest =>
      match Ty.apply n s t, applyList n s rest with
      | some t', some rest' => some (t' :: rest')
      | _, _ => none

end

/-- The ids of a list of type variables. -/
def tyVarIds (l : List TyVar) : List Nat :=
  l.map (fun v => v.id)

mutual

/-- Modelled from the spec (§4.G): `Subst::unify(loc, sym_tys, t1, t2)`:
resolve `t1 ≡ t2` over the current substitution. Both sides are first put
in substitution-normal form; then: equal variables unify; a variable
against a type extends the substitution after the occurs check
(`CircularTy`); arrows unify componentwise; records require exactly equal
key sets (`RowMismatch`) and unify per key; constructors require the same
symbol and arity (`HeadMismatch`) and unify argument lists positionally;
anything else is `HeadMismatch`. (The `sym_tys` argument is carried to
mirror the call sites; the spec's rules do not consult it.) -/
def Subst.unify (n : Nat) (s : Subst) (loc : Loc) (sym_tys : SymTys)
    (t1 t2 : Ty) : ERes Subst :=
  match n with
  | 0 => .oof
  | n + 1 =>
    match Ty.apply n s t1, Ty.apply n s t2 with
    | some t1', some t2' =>
      match t1', t2' with
      | .Var v, .Var w =>
        if v.id = w.id then .ok s
        else if v.id ∈ tyVarIds (Ty.Var w).free_ty_vars then
          .err (loc.wrap .CircularTy)
        else .ok (alistInsert s v.id (.Var w))
      | .Var v, u =>
        if v.id ∈ tyVarIds u.free_ty_vars then .err (loc.wrap .CircularTy)
        else .ok (alistInsert s v.id u)
      | u, .Var v =>
        if v.id ∈ tyVarIds u.free_ty_vars then .err (loc.wrap .CircularTy)
        else .ok (alistInsert s v.id u)
      | .Arrow a b, .Arrow c d =>
        match Subst.unify n s loc sym_tys a c with
        | .ok s1 => Subst.unify n s1 loc sym_tys b d
        | e => e
      | .Record r1, .Record r2 =>
        if r1.map (fun e => e.1) = r2.map (fun e => e.1) then
          unifyRows n s loc sym_tys (r1.map (fun e => e.2))
            (r2.map (fun e => e.2))
        else .err (loc.wrap .RowMismatch)
      | .Ctor a1 s1, .Ctor a2 s2 =>
        if s1 = s2 ∧ a1.length = a2.length then
          unifyRows n s loc sym_tys a1 a2
        else .err (loc.wrap .HeadMismatch)
      | _, _ => .err (loc.wrap .HeadMismatch)
    | _, _ => .oof

/-- Pairwise unification of equal-length type lists, threading the
substitution. -/
def unifyRows : Nat → Subst → Loc → SymTys → List Ty → List Ty → ERes Subst
  | 0, _, _, _, _, _ => .oof
  | _ + 1, s, _, _, [], _ => .ok s
  | _ + 1, s, _, _, _ :: _, [] =>
    -- unreachable: callers pass equal-length lists
    .ok s
  | n + 1, s, loc, sym_tys, t1 :: r1, t2 :: r2 =>
    match Subst.unify n s loc sym_tys t1 t2 with
    | .ok s1 => unifyRows n s1 loc sym_tys r1 r2
    | e => e

end

/-- `st.subst.unify(loc, t1, t2)` as a statics computation (the `sym_tys`
of the current state are passed through). -/
def unifyM (n : Nat) (loc : Loc) (t1 t2 : Ty) : CkM Unit :=
  fun st =>
    match Subst.unify n st.subst loc st.sym_tys t1 t2 with
    | .oof => .oof
    | .err e => .err e st
    | .ok s => .ok () { st with subst := s }

mutual

/-- Structural replacement of type variables by types (used by
`instantiate` to replace bound variables with fresh ones). -/
def tyRename (m : List (Nat × Ty)) : Ty → Ty
  | .Var v =>
    match alistGet m v.id with
    | some t => t
    | none => .Var v
  | .Record rows => .Record (tyRenameRows m rows)
  | .Arrow a b => .Arrow (tyRename m a) (tyRename m b)
  | .Ctor args sym => .Ctor (tyRenameList m args) sym

/-- `tyRename` over a row list. -/
def tyRenameRows (m : List (Nat × Ty)) : List (Label × Ty) →
    List (Label × Ty)
  | [] => []
  | (l, t) :: rest => (l, tyRename m t) :: tyRenameRows m rest

/-- `tyRename` over a type list. -/
def tyRenameList (m : List (Nat × Ty)) : List Ty → List Ty
  | [] => []
  | t :: rest => tyRename m t :: tyRenameList m rest

end

/-- Lookup of a pending overload constraint by type-variable id. -/
def overloadGet (o : List (TyVar × (Loc × List Ty))) (id : Nat) :
    Option (Loc × List Ty) :=
  match o with
  | [] => none
  | (tv, e) :: rest => if tv.id = id then some e else overloadGet rest id

/-- Modelled from the spec (statics `util`): `instantiate(st, scheme, loc)`:
replace each bound variable of the scheme with a fresh non-expansive
variable, copying its overload class (recorded at the instantiation
location) if it has one. -/
def instantiate (scheme : TyScheme) (loc : Loc) : CkM Ty :=
  fun st =>
    let (m, st') := scheme.ty_vars.foldl
      (fun (acc : List (Nat × Ty) × State) tv =>
        let (m, st) := acc
        let (fresh, st) := st.new_ty_var false
        let st :=
          match overloadGet st.overload tv.id with
          | some (_, tys) =>
            { st with overload := st.overload ++ [(fresh, (loc, tys))] }
          | none => st
        (m ++ [(tv.id, Ty.Var fresh)], st))
      ([], st)
    .ok (tyRename m scheme.ty) st'

/-- The free type-variable ids appearing in the aliases of a type
environment. -/
def tyEnvFreeVarIds (te : List (StrRef × TyInfo)) : List Nat :=
  match te with
  | [] => []
  | (_, .Alias sch) :: rest => tyVarIds sch.ty.free_ty_vars ++ tyEnvFreeVarIds rest
  | (_, .Sym _) :: rest => tyEnvFreeVarIds rest

/-- Modelled from the spec (statics `util`): `generalize(ty_env, sym_tys,
scheme)`: move the free variables of the (already substituted) body into
the bound list, excluding expansive variables (the value restriction) and
variables free in the environment. -/
def generalize (ty_env : List (StrRef × TyInfo)) (_sym_tys : SymTys)
    (scheme : TyScheme) : TyScheme :=
  let fvs := scheme.ty.free_ty_vars.eraseDups
  let envIds := tyEnvFreeVarIds ty_env
  let bound := fvs.filter (fun tv => ¬tv.expansive ∧ tv.id ∉ envIds)
  { scheme with ty_vars := bound }

/-- Modelled from the spec (statics `util`): `env_ins(map, key, val)`:
insert with a `Redefined` error on a duplicate key. -/
def env_ins {ν : Type} (m : List (StrRef × ν)) (key : Located StrRef)
    (v : ν) : Except (Located Error) (List (StrRef × ν)) :=
  if (alistGet m key.val).isSome then
    .error (key.loc.wrap (.Redefined key.val))
  else .ok (alistInsert m key.val v)

/-- Modelled from the spec (statics `util`): `env_merge(map, other, loc)`:
merge `other` into `map`, with a `Redefined` error at `loc` on any
duplicate key. -/
def env_merge {ν : Type} (m : List (StrRef × ν)) (other : List (StrRef × ν))
    (loc : Loc) : Except (Located Error) (List (StrRef × ν)) :=
  match other with
  | [] => .ok m
  | (k, v) :: rest =>
    if (alistGet m k).isSome then .error (loc.wrap (.Redefined k))
    else env_merge (alistInsert m k v) rest loc

/-- Modelled from the spec (statics `util`): the structure-path walk of
`get_env(env, long)`, with `Undefined` structure errors along the way. -/
def get_env_go (env : Env) : List (Located StrRef) →
    Except (Located Error) Env
  | [] => .ok env
  | s :: rest =>
    match alistGet env.str_env s.val with
    | none => .error (s.loc.wrap (.Undefined .Struct s.val))
    | some env' => get_env_go env' rest

/-- Modelled from the spec (statics `util`): `get_env(env, long)`. -/
def get_env (env : Env) (long : Long) : Except (Located Error) Env :=
  get_env_go env long.structures

/-- Modelled from the spec (statics `util`): `get_val_info(env, name)`. -/
def get_val_info (env : Env) (name : Located StrRef) :
    Except (Located Error) ValInfo :=
  match alistGet env.val_env name.val with
  | none => .error (name.loc.wrap (.Undefined .Val name.val))
  | some vi => .ok vi

/-- Modelled from the spec (statics `util`): `get_ty_info(env, name)`. -/
def get_ty_info (env : Env) (name : Located StrRef) :
    Except (Located Error) TyInfo :=
  match alistGet env.ty_env name.val with
  | none => .error (name.loc.wrap (.Undefined .Ty name.val))
  | some ti => .ok ti

/-- Ordered insertion into a row list keyed by `Label` (models
`BTreeMap::insert`): returns the replaced value, if any, and the new
rows. -/
def rowInsert (l : Label) (t : Ty) : List (Label × Ty) →
    Option Ty × List (Label × Ty)
  | [] => (none, [(l, t)])
  | (l', t') :: rest =>
    if l = l' then (some t', (l, t) :: rest)
    else if Label.lt l l' then (none, (l, t) :: (l', t') :: rest)
    else
      let (old, rest') := rowInsert l t rest
      (old, (l', t') :: rest')

mutual

/-- Modelled from the spec (statics `ty`): `ty::ck(cx, sym_tys, ty)`:
elaborate an AST type expression to a semantic type. Type variables are an
unsupported-feature diagnostic; records reject duplicate labels; a long
type constructor resolves through `get_ty_info` to an alias (whose scheme
must take no arguments here, type variables being unsupported) or to a
generative symbol applied to the elaborated arguments. -/
def tyCk : Nat → Cx → SymTys → Located ATy → ERes Ty
  | 0, _, _, _ => .oof
  | n + 1, cx, sym_tys, t =>
    match t.val with
    | .TyVar _ => .err (t.loc.wrap (.Todo "type variables"))
    | .Record rows => tyCkRows n cx sym_tys rows []
    | .Tuple tys => tyCkTuple n cx sym_tys tys 0 []
    | .Arrow a b =>
      match tyCk n cx sym_tys a with
      | .ok ta =>
        match tyCk n cx sym_tys b with
        | .ok tb => .ok (.Arrow ta tb)
        | .err e => .err e
        | .oof => .oof
      | .err e => .err e
      | .oof => .oof
    | .TyCon args long =>
      match get_env cx.env long with
      | .error e => .err e
      | .ok env =>
        match get_ty_info env long.last with
        | .error e => .err e
        | .ok (.Alias sch) =>
          if args.isEmpty ∧ sch.ty_vars.isEmpty then .ok sch.ty
          else .err (t.loc.wrap (.Todo "type variables"))
        | .ok (.Sym sym) =>
          match tyCkList n cx sym_tys args with
          | .ok args' => .ok (.Ctor args' sym)
          | .err e => .err e
          | .oof => .oof

/-- Row elaboration of `ty::ck` for record types, with duplicate-label
detection. -/
def tyCkRows : Nat → Cx → SymTys → List (Row ATy) → List (Label × Ty) →
    ERes Ty
  | 0, _, _, _, _ => .oof
  | n + 1, cx, sym_tys, rows, acc =>
    match rows with
    | [] => .ok (.Record acc)
    | row :: rest =>
      match tyCk n cx sym_tys row.val with
      | .ok t =>
        match rowInsert row.lab.val t acc with
        | (some _, _) => .err (row.lab.loc.wrap (.DuplicateLabel row.lab.val))
        | (none, acc') => tyCkRows n cx sym_tys rest acc'
      | .err e => .err e
      | .oof => .oof

/-- Tuple elaboration of `ty::ck` (Appendix A sugar for numeric-label
records). -/
def tyCkTuple : Nat → Cx → SymTys → List (Located ATy) → Nat →
    List (Label × Ty) → ERes Ty
  | 0, _, _, _, _, _ => .oof
  | n + 1, cx, sym_tys, tys, idx, acc =>
    match tys with
    | [] => .ok (.Record acc)
    | t :: rest =>
      match tyCk n cx sym_tys t with
      | .ok t' =>
        let (_, acc') := rowInsert (Label.tuple idx) t' acc
        tyCkTuple n cx sym_tys rest (idx + 1) acc'
      | .err e => .err e
      | .oof => .oof

/-- Argument elaboration of `ty::ck` for applied type constructors. -/
def tyCkList : Nat → Cx → SymTys → List (Located ATy) → ERes (List Ty)
  | 0, _, _, _ => .oof
  | n + 1, cx, sym_tys, tys =>
    match tys with
    | [] => .ok []
    | t :: rest =>
      match tyCk n cx sym_tys t with
      | .ok t' =>
        match tyCkList n cx sym_tys rest with
        | .ok rest' => .ok (t' :: rest')
        | .err e => .err e
        | .oof => .oof
      | .err e => .err e
      | .oof => .oof

end

/-- Modelled from the spec (§4.I): the head constructor of an elaborated
pattern: an identity tag, the argument count, and the size of its type's
complete constructor set (`none` for the open/infinite classes: literals
and `exn`). -/
structure SCon where
  tag : Nat
  arity : Nat
  span : Option Nat
  deriving DecidableEq, Repr

/-- Modelled from the spec (statics `types`): elaborated patterns as
consumed by the exhaustiveness checker: wildcard-like patterns and
constructor patterns. -/
inductive SPat where
  | Anything : SPat
  | Con : SCon → List SPat → SPat

/-- Modelled from the spec: `Pat::record(pats)` (statics `types`), the
single-constructor record pattern used for `fun` argument tuples. -/
def SPat.record (ps : List SPat) : SPat :=
  .Con ⟨0, ps.length, some 1⟩ ps

/-- The identity tag of an integer literal pattern. -/
def intTag (v : Int) : Nat :=
  2 * v.natAbs + (if v < 0 then 1 else 0)

/-- Specialisation of one matrix row by a head constructor (the standard
usefulness algorithm). -/
def specializeRow (c : SCon) : List SPat → Option (List SPat)
  | [] => none
  | .Anything :: rest => some (List.replicate c.arity .Anything ++ rest)
  | .Con c' args :: rest => if c'.tag = c.tag then some (args ++ rest) else none

/-- Specialisation of the whole matrix. -/
def specialize (c : SCon) (m : List (List SPat)) : List (List SPat) :=
  m.filterMap (specializeRow c)

/-- The default row: keep only wildcard-headed rows, dropping the head. -/
def defaultRow : List SPat → Option (List SPat)
  | [] => none
  | .Anything :: rest => some rest
  | .Con _ _ :: _ => none

/-- The default matrix. -/
def defaultMatrix (m : List (List SPat)) : List (List SPat) :=
  m.filterMap defaultRow

/-- The head constructors appearing in the first column of the matrix. -/
def headCons (m : List (List SPat)) : List SCon :=
  m.filterMap (fun row =>
    match row with
    | .Con c _ :: _ => some c
    | _ => none)

/-- Deduplicate head constructors by tag. -/
def dedupeCons : List SCon → List SCon
  | [] => []
  | c :: rest =>
    let rest' := dedupeCons rest
    if rest'.any (fun c' => c'.tag = c.tag) then rest' else c :: rest'

/-- Whether the head constructors form the complete signature of their
type (never true for the open classes). -/
def sigComplete (cons : List SCon) : Bool :=
  match cons with
  | [] => false
  | c :: _ =>
    match c.span with
    | none => false
    | some k => cons.length = k

mutual

/-- Modelled from the spec (statics `exhaustive`, §4.I): the standard
"useful" relation of the matrix algorithm: whether the vector `q` matches
some value no row of `m` matches. -/
def useful : Nat → List (List SPat) → List SPat → Option Bool
  | 0, _, _ => none
  | n + 1, m, q =>
    match q with
    | [] => some m.isEmpty
    | .Con c args :: qrest => useful n (specialize c m) (args ++ qrest)
    | .Anything :: qrest =>
      let cons := dedupeCons (headCons m)
      if sigComplete cons then usefulAny n m cons qrest
      else useful n (defaultMatrix m) qrest

/-- The complete-signature case of `useful`: useful for some head
constructor of the signature. -/
def usefulAny : Nat → List (List SPat) → List SCon → List SPat → Option Bool
  | 0, _, _, _ => none
  | n + 1, m, cons, qrest =>
    match cons with
    | [] => some false
    | c :: cs =>
      match useful n (specialize c m) (List.replicate c.arity .Anything ++ qrest) with
      | none => none
      | some true => some true
      | some false => usefulAny n m cs qrest

end

/-- The arm walk of `exhaustive::ck_match` (modelled from the spec, §4.I):
each arm must be useful after the previous ones (`UnreachableArm`), and at
the end a wildcard must not be useful (`NonExhaustiveMatch` at the match's
location). -/
def ck_match_go (n : Nat) (loc : Loc) : List (List SPat) →
    List (Located SPat) → ERes Unit
  | prev, [] =>
    match useful n prev [.Anything] with
    | none => .oof
    | some true => .err (loc.wrap .NonExhaustiveMatch)
    | some false => .ok ()
  | prev, p :: rest =>
    match useful n prev [p.val] with
    | none => .oof
    | some false => .err (p.loc.wrap .UnreachableArm)
    | some true => ck_match_go n loc (prev ++ [[p.val]]) rest

/-- Modelled from the spec (statics `exhaustive`): `ck_match(pats, loc)`. -/
def ck_match (n : Nat) (pats : List (Located SPat)) (loc : Loc) : ERes Unit :=
  ck_match_go n loc [] pats

/-- Modelled from the spec (statics `exhaustive`): `ck_bind(pat, loc)`: a
binding is a single-arm match and must be exhaustive. -/
def ck_bind (n : Nat) (p : SPat) (loc : Loc) : ERes Unit :=
  match useful n [[p]] [.Anything] with
  | none => .oof
  | some true => .err (loc.wrap .NonExhaustiveMatch)
  | some false => .ok ()

/-- The constructor-set size of a pattern's type head: `none` for `exn`
(open per the spec) and for unknown symbols, else the size of the symbol's
constructor environment. -/
def spanOfTy (sym_tys : SymTys) (t : Ty) : Option Nat :=
  match t with
  | .Ctor _ sym =>
    if sym = TySym.EXN then none
    else
      match alistGet sym_tys sym with
      | some info => some info.val_env.length
      | none => none
  | _ => none

/-- Ordered insertion of an elaborated row pattern by label (duplicates are
rejected separately by the type-row insertion). -/
def spRowInsert (l : Label) (p : SPat) : List (Label × SPat) →
    List (Label × SPat)
  | [] => [(l, p)]
  | (l', p') :: rest =>
    if Label.lt l l' then (l, p) :: (l', p') :: rest
    else (l', p') :: spRowInsert l p rest

mutual

/-- Modelled from the spec (statics `pat`): `pat::ck(cx, st, pat)`: pattern
typing, returning the environment of names the pattern binds, its type, and
the elaborated pattern for the exhaustiveness checker. A lone identifier
with no constructor status binds a fresh variable; constructor patterns
instantiate the constructor's scheme and must match its arrow/0-ary shape
(`PatNotArrow`); duplicate bound names are `Redefined`; duplicate record
labels are `DuplicateLabel`; a flex-row (`...`) record is modelled as the
closed record of its listed rows. -/
def patCk : Nat → Cx → Located Pat →
    CkM (List (StrRef × ValInfo) × Ty × SPat)
  | 0, _, _ => fun _ => .oof
  | n + 1, cx, p => do
    match p.val with
    | .Wildcard => do
      let tv ← newTyVarM false
      pure ([], .Var tv, .Anything)
    | .DecInt v => pure ([], Ty.INT, .Con ⟨intTag v, 0, none⟩ [])
    | .HexInt v => pure ([], Ty.INT, .Con ⟨intTag v, 0, none⟩ [])
    | .DecWord v => pure ([], Ty.WORD, .Con ⟨v, 0, none⟩ [])
    | .HexWord v => pure ([], Ty.WORD, .Con ⟨v, 0, none⟩ [])
    | .Str s => pure ([], Ty.STRING, .Con ⟨s.id, 0, none⟩ [])
    | .Char c => pure ([], Ty.CHAR, .Con ⟨c, 0, none⟩ [])
    | .LongVid long =>
      let isBinding : Bool :=
        long.structures.isEmpty &&
          (match alistGet cx.env.val_env long.last.val with
           | none => true
           | some vi => vi.id_status = .Val)
      if isBinding then do
        let tv ← newTyVarM false
        pure ([(long.last.val, ValInfo.val (TyScheme.mono (.Var tv)))],
          .Var tv, .Anything)
      else do
        let env ← liftCkE (get_env cx.env long)
        let vi ← liftCkE (get_val_info env long.last)
        let t ← instantiate vi.ty_scheme p.loc
        match t with
        | .Arrow _ _ => errCk (p.loc.wrap .PatNotArrow)
        | _ => do
          let st ← getStM
          pure ([], t, .Con ⟨long.last.val.id, 0, spanOfTy st.sym_tys t⟩ [])
    | .Record rows _rest_loc => do
      let (ve, tyrows, sprows) ← patCkRows n cx rows [] [] []
      pure (ve, .Record tyrows,
        .Con ⟨0, sprows.length, some 1⟩ (sprows.map (fun e => e.2)))
    | .Tuple pats => do
      let (ve, tyrows, sps) ← patCkTuple n cx pats 0 [] [] []
      pure (ve, .Record tyrows, .Con ⟨0, sps.length, some 1⟩ sps)
    | .List pats => do
      let elem ← newTyVarM false
      let (ve, sps) ← patCkListElems n cx pats elem [] []
      let spList := sps.foldr
        (fun sp acc => SPat.Con ⟨StrRef.CONS.id, 2, some 2⟩ [sp, acc])
        (SPat.Con ⟨StrRef.NIL.id, 0, some 2⟩ [])
      pure (ve, Ty.list (.Var elem), spList)
    | .Typed inner tyAst => do
      let (ve, t1, sp) ← patCk n cx inner
      let st ← getStM
      let t2 ← liftCk (tyCk n cx st.sym_tys tyAst)
      unifyM n p.loc t2 t1
      pure (ve, t1, sp)
    | .As vid otyAst inner => do
      let (ve, t, sp) ← patCk n cx inner
      (match otyAst with
        | some tyAst => do
          let st ← getStM
          let t2 ← liftCk (tyCk n cx st.sym_tys tyAst)
          unifyM n p.loc t2 t
        | none => pure ())
      let ve' ← liftCkE (env_ins ve vid (ValInfo.val (TyScheme.mono t)))
      pure (ve', t, sp)
    | .Ctor long argPat => do
      let env ← liftCkE (get_env cx.env long)
      let vi ← liftCkE (get_val_info env long.last)
      let t ← instantiate vi.ty_scheme p.loc
      match t with
      | .Arrow arg res => do
        let (ve, ta, sp) ← patCk n cx argPat
        unifyM n p.loc arg ta
        let st ← getStM
        pure (ve, res, .Con ⟨long.last.val.id, 1, spanOfTy st.sym_tys res⟩ [sp])
      | _ => errCk (p.loc.wrap .PatNotArrow)
    | .InfixCtor lhs vid rhs => do
      let vi ← liftCkE (get_val_info cx.env vid)
      let t ← instantiate vi.ty_scheme p.loc
      let (ve1, t1, sp1) ← patCk n cx lhs
      let (ve2, t2, sp2) ← patCk n cx rhs
      let ve ← liftCkE (env_merge ve1 ve2 p.loc)
      match t with
      | .Arrow arg res => do
        unifyM n p.loc arg (Ty.pair t1 t2)
        let st ← getStM
        pure (ve, res, .Con ⟨vid.val.id, 2, spanOfTy st.sym_tys res⟩ [sp1, sp2])
      | _ => errCk (p.loc.wrap .PatNotArrow)

/-- Row elaboration for record patterns (modelled from the spec): merge
bound names, reject duplicate labels, keep rows label-ordered. -/
def patCkRows : Nat → Cx → List (Row Pat) → List (StrRef × ValInfo) →
    List (Label × Ty) → List (Label × SPat) →
    CkM (List (StrRef × ValInfo) × List (Label × Ty) × List (Label × SPat))
  | 0, _, _, _, _, _ => fun _ => .oof
  | n + 1, cx, rows, ve, tyrows, sprows =>
    match rows with
    | [] => pure (ve, tyrows, sprows)
    | row :: rest => do
      let (ve_i, t_i, sp_i) ← patCk n cx row.val
      let ve' ← liftCkE (env_merge ve ve_i row.val.loc)
      match rowInsert row.lab.val t_i tyrows with
      | (some _, _) => errCk (row.lab.loc.wrap (.DuplicateLabel row.lab.val))
      | (none, tyrows') =>
        patCkRows n cx rest ve' tyrows' (spRowInsert row.lab.val sp_i sprows)

/-- Component elaboration for tuple patterns (Appendix A numeric-label
sugar, modelled from the spec). -/
def patCkTuple : Nat → Cx → List (Located Pat) → Nat →
    List (StrRef × ValInfo) → List (Label × Ty) → List SPat →
    CkM (List (StrRef × ValInfo) × List (Label × Ty) × List SPat)
  | 0, _, _, _, _, _, _ => fun _ => .oof
  | n + 1, cx, pats, idx, ve, tyrows, sps =>
    match pats with
    | [] => pure (ve, tyrows, sps)
    | p0 :: rest => do
      let (ve_i, t_i, sp_i) ← patCk n cx p0
      let ve' ← liftCkE (env_merge ve ve_i p0.loc)
      let (_, tyrows') := rowInsert (Label.tuple idx) t_i tyrows
      patCkTuple n cx rest (idx + 1) ve' tyrows' (sps ++ [sp_i])

/-- Element elaboration for list patterns (modelled from the spec): every
element unifies with the fresh element variable. -/
def patCkListElems : Nat → Cx → List (Located Pat) → TyVar →
    List (StrRef × ValInfo) → List SPat →
    CkM (List (StrRef × ValInfo) × List SPat)
  | 0, _, _, _, _, _ => fun _ => .oof
  | n + 1, cx, pats, elem, ve, sps =>
    match pats with
    | [] => pure (ve, sps)
    | p0 :: rest => do
      let (ve_i, t_i, sp_i) ← patCk n cx p0
      unifyM n p0.loc (.Var elem) t_i
      let ve' ← liftCkE (env_merge ve ve_i p0.loc)
      patCkListElems n cx rest elem ve' (sps ++ [sp_i])

end

/-- The value environment as an `Env` (Rust's `ValEnv::into()`). -/
def envOfValEnv (ve : List (StrRef × ValInfo)) : Env :=
  .mk ve [] []

/-- The type environment as an `Env` (Rust's `TyEnv::into()`). -/
def envOfTyEnv (te : List (StrRef × TyInfo)) : Env :=
  .mk [] te []

/-- `ck_binding(name)` (from `dec.rs`): `Ok` iff `name` is not one of the
forbidden binding names `true`, `false`, `nil`, `::`, `ref`. -/
def ck_binding (name : Located StrRef) : Except (Located Error) Unit :=
  if name.val = StrRef.TRUE ∨ name.val = StrRef.FALSE ∨
      name.val = StrRef.NIL ∨ name.val = StrRef.CONS ∨
      name.val = StrRef.REF then
    .error (name.loc.wrap (.ForbiddenBinding name.val))
  else .ok ()

/-- The `for &name in other.keys() { ck_binding(..)? }` loop of `dec.rs`'s
`Dec::Val` case: check every name bound by the pattern, located at the
pattern. -/
def ck_bindings_all (names : List StrRef) (loc : Loc) :
    Except (Located Error) Unit :=
  match names with
  | [] => .ok ()
  | nm :: rest =>
    match ck_binding (loc.wrap nm) with
    | .error e => .error e
    | .ok () => ck_bindings_all rest loc

/-- `FunInfo` (from `dec.rs`): the argument and result type variables of a
`fun` binding group. -/
structure FunInfo where
  args : List TyVar
  ret : TyVar

/-- `fun_infos_to_ve(fun_infos)` (from `dec.rs`): the value environment
giving each group its curried arrow type. -/
def fun_infos_to_ve (fun_infos : List (StrRef × FunInfo)) :
    List (StrRef × ValInfo) :=
  fun_infos.map (fun e =>
    let ty := e.2.args.foldr (fun tv ac => Ty.Arrow (.Var tv) ac) (.Var e.2.ret)
    (e.1, ValInfo.val (TyScheme.mono ty)))

/-- The first loop of `dec.rs`'s `Dec::Fun` case: allocate fresh argument
and result variables per binding group, rejecting duplicate group names
(`Redefined`). Empty clause lists are unreachable (the parser emits at
least one clause). -/
def dec_ck_fun_infos : List FValBind → List (StrRef × FunInfo) →
    CkM (List (StrRef × FunInfo))
  | [], acc => pure acc
  | fb :: rest, acc => do
    match fb.cases with
    | [] => errCk ((Loc.mk 0 0).wrap .Unreachable)
    | c0 :: _ => do
      let args ← c0.pats.foldlM
        (fun (l : List TyVar) _ => do
          let tv ← newTyVarM false
          pure (l ++ [tv]))
        []
      let ret ← newTyVarM false
      if (alistGet acc c0.vid.val).isSome then
        errCk (c0.vid.loc.wrap (.Redefined c0.vid.val))
      else dec_ck_fun_infos rest (acc ++ [(c0.vid.val, ⟨args, ret⟩)])

/-- The per-clause argument-pattern loop of `dec.rs`'s `Dec::Fun` case:
elaborate each pattern, unify it with its group argument variable, and
merge the bound names (`Redefined` on duplicates). -/
def dec_ck_case_pats (n : Nat) (cx : Cx) :
    List (Located Pat) → List TyVar → List (StrRef × ValInfo) →
    List SPat → CkM (List (StrRef × ValInfo) × List SPat)
  | [], _, ve, acc => pure (ve, acc)
  | _, [], ve, acc => pure (ve, acc)
  | p0 :: prest, tv :: tvrest, ve, acc => do
    let (ve0, pat_ty, sp) ← patCk n cx p0
    unifyM n p0.loc (.Var tv) pat_ty
    let ve' ← liftCkE (env_merge ve ve0 p0.loc)
    dec_ck_case_pats n cx prest tvrest ve' (acc ++ [sp])

/-- The generalisation loop at the end of `dec.rs`'s `Dec::Val` case: apply
the substitution to each newly bound name's type, generalise it in the
context, and insert it (`Redefined` on duplicates, located at the
pattern). -/
def val_env_gen_insert (n : Nat) (cx : Cx) (patloc : Loc) :
    List (StrRef × ValInfo) → List (StrRef × ValInfo) →
    CkM (List (StrRef × ValInfo))
  | [], acc => pure acc
  | (name, vi) :: rest, acc => do
    let st ← getStM
    match Ty.apply n st.subst vi.ty_scheme.ty with
    | none => fun _ => .oof
    | some t' =>
      let scheme := generalize cx.env.ty_env st.sym_tys ⟨vi.ty_scheme.ty_vars, t'⟩
      let vi' := { vi with ty_scheme := scheme }
      do
        let acc' ← liftCkE (env_ins acc (patloc.wrap name) vi')
        val_env_gen_insert n cx patloc rest acc'

/-- The generalisation loop at the end of `dec.rs`'s `Dec::Fun` case. -/
def fun_ve_generalize (n : Nat) (cx : Cx) :
    List (StrRef × ValInfo) → CkM (List (StrRef × ValInfo))
  | [] => pure []
  | (name, vi) :: rest => do
    let st ← getStM
    match Ty.apply n st.subst vi.ty_scheme.ty with
    | none => fun _ => .oof
    | some t' =>
      let scheme := generalize cx.env.ty_env st.sym_tys ⟨vi.ty_scheme.ty_vars, t'⟩
      do
        let rest' ← fun_ve_generalize n cx rest
        pure ((name, { vi with ty_scheme := scheme }) :: rest')

/-- `ck_ty_binds(cx, st, ty_binds)` (from `dec.rs`): elaborate each alias
right-hand side (type variables are unsupported), rejecting duplicate type
constructor names. -/
def ckTyBinds (n : Nat) (cx : Cx) : List TyBind →
    List (StrRef × TyInfo) → CkM Env
  | [], acc => pure (envOfTyEnv acc)
  | tb :: rest, acc => do
    match tb.ty_vars with
    | tv :: _ => errCk (tv.loc.wrap (.Todo "type variables"))
    | [] => do
      let st ← getStM
      let t ← liftCk (tyCk n cx st.sym_tys tb.ty)
      let info := TyInfo.Alias (TyScheme.mono t)
      if (alistGet acc tb.ty_con.val).isSome then
        errCk (tb.ty_con.loc.wrap (.Redefined tb.ty_con.val))
      else ckTyBinds n cx rest (alistInsert acc tb.ty_con.val info)

/-- The constructor loop of `ck_dat_binds` (from `dec.rs`): check the
constructor name is not forbidden, elaborate its optional argument type
under the partial context, and insert it into the overall and per-datatype
value environments. -/
def ckConBinds (n : Nat) (cx : Cx) (sym : TySym) : List ConBind →
    List (StrRef × ValInfo) → List (StrRef × ValInfo) →
    CkM (List (StrRef × ValInfo) × List (StrRef × ValInfo))
  | [], val_env, bind_val_env => pure (val_env, bind_val_env)
  | cb :: rest, val_env, bind_val_env => do
    liftCkE (ck_binding cb.vid)
    let ty0 : Ty := .Ctor [] sym
    let t ← (match cb.ty with
      | some arg_ty => do
        let st ← getStM
        let ta ← liftCk (tyCk n cx st.sym_tys arg_ty)
        pure (Ty.Arrow ta ty0)
      | none => pure ty0)
    let val_env' ← liftCkE (env_ins val_env cb.vid (ValInfo.ctor (TyScheme.mono t)))
    let bind_val_env' := alistInsert bind_val_env cb.vid.val
      (ValInfo.ctor (TyScheme.mono t))
    ckConBinds n cx sym rest val_env' bind_val_env'

/-- `ck_dat_binds(cx, st, dat_binds)` (from `dec.rs`): for each binding,
allocate a fresh symbol visible to the remaining bindings, seed the symbol
table with an empty constructor environment, elaborate the constructors
under that partial context, then overwrite the symbol's entry with the
final constructor environment. (`dec.rs` constructs `SymTyInfo` without an
`equality` field; `false` here.) -/
def ckDatBinds (n : Nat) : Cx → List DatBind →
    List (StrRef × TyInfo) → List (StrRef × ValInfo) → CkM Env
  | _, [], ty_env, val_env => pure (.mk val_env ty_env [])
  | cx, db :: rest, ty_env, val_env => do
    match db.ty_vars with
    | tv :: _ => errCk (tv.loc.wrap (.Todo "type variables"))
    | [] => do
      let sym ← newSymM db.ty_con
      let cxTyEnv ← liftCkE (env_ins cx.env.ty_env db.ty_con (TyInfo.Sym sym))
      let cx := { cx with
        ty_names := namesInsert cx.ty_names db.ty_con.val
        env := .mk cx.env.val_env cxTyEnv cx.env.str_env }
      let ty_env := alistInsert ty_env db.ty_con.val (TyInfo.Sym sym)
      let st ← getStM
      let seeded := alistInsert st.sym_tys sym
        ⟨TyScheme.mono (.Ctor [] sym), [], false⟩
      setStM { st with sym_tys := seeded }
      let (val_env, bind_val_env) ← ckConBinds n cx sym db.cons val_env []
      let st ← getStM
      let finished := alistInsert st.sym_tys sym
        ⟨TyScheme.mono (.Ctor [] sym), bind_val_env, false⟩
      setStM { st with sym_tys := finished }
      ckDatBinds n cx rest ty_env val_env

/-- `ck_dat_copy(cx, sym_tys, ty_con, long)` (from `dec.rs`): copy a
datatype's symbol and constructor environment under a new type constructor
name; copying an alias is `DatatypeCopyNotDatatype`. (The `unwrap` of the
symbol-table entry is unreachable for symbols produced by `ck_dat_binds`.) -/
def ckDatCopy (cx : Cx) (sym_tys : SymTys) (ty_con : Located StrRef)
    (long : Long) : Except (Located Error) Env := do
  let env ← get_env cx.env long
  let ti ← get_ty_info env long.last
  match ti with
  | .Alias _ => .error (long.loc.wrap .DatatypeCopyNotDatatype)
  | .Sym sym =>
    match alistGet sym_tys sym with
    | none => .error (long.loc.wrap .Unreachable)
    | some dt_info =>
      .ok (.mk dt_info.val_env [(ty_con.val, TyInfo.Sym sym)] [])

/-- The binding loop of `dec.rs`'s `Dec::Exception` case: a nullary binding
is an exception constant, `of ty` an exception constructor, and `= long` an
alias of an existing exception (else `ExnWrongIdStatus`). -/
def ckExBinds (n : Nat) (cx : Cx) : List ExBind →
    List (StrRef × ValInfo) → CkM Env
  | [], val_env => pure (envOfValEnv val_env)
  | eb :: rest, val_env => do
    let vi ← (match eb.inner with
      | .Ty none => pure ValInfo.exn
      | .Ty (some tyAst) => do
        let st ← getStM
        let t ← liftCk (tyCk n cx st.sym_tys tyAst)
        pure (ValInfo.exn_fn t)
      | .Long vid => do
        let env ← liftCkE (get_env cx.env vid)
        let vi ← liftCkE (get_val_info env vid.last)
        if vi.id_status.is_exn then pure vi
        else errCk (vid.loc.wrap (.ExnWrongIdStatus vi.id_status)))
    let val_env' ← liftCkE (env_ins val_env eb.vid vi)
    ckExBinds n cx rest val_env'

/-- The structure loop of `dec.rs`'s `Dec::Open` case: the right-biased
union of the opened structures' environments. -/
def openEnvs (cx : Cx) : List Long → Env → Except (Located Error) Env
  | [], acc => .ok acc
  | long :: rest, acc => do
    let e ← get_env cx.env long
    openEnvs cx rest (acc.extend e)

/-- The expression/declaration checker family (from `dec.rs`): one field
per mutually recursive function, at a fixed fuel level (see `PatFns` for
the scheme). -/
structure CkFns where
  ck_exp : Cx → Located Exp → CkM Ty
  ck_exp_rows : Cx → List (Row Exp) → List (Label × Ty) →
    CkM (List (Label × Ty))
  ck_exp_tuple : Cx → List (Located Exp) → Nat → List (Label × Ty) →
    CkM (List (Label × Ty))
  ck_exp_list : Cx → List (Located Exp) → Ty → CkM Unit
  ck_exp_seq : Cx → List (Located Exp) → Option Ty → CkM (Option Ty)
  ck_exp_let : Cx → List (Located Exp) → Option (Loc × Ty) →
    CkM (Option (Loc × Ty))
  ck_cases : Cx → Cases → Loc → CkM (Ty × Ty)
  ck_cases_arms : Cx → Ty → Ty → List Arm → List (Located SPat) →
    CkM (List (Located SPat))
  dec_ck : Cx → Located Dec → CkM Env
  dec_ck_val_binds : Cx → Loc → List ValBind → List (StrRef × ValInfo) →
    CkM (List (StrRef × ValInfo))
  dec_ck_fval_binds : Cx → List FValBind → List (StrRef × FunInfo) → CkM Unit
  dec_ck_fval_cases : Cx → StrRef → FunInfo → List (StrRef × FunInfo) →
    List FValBindCase → List (Located SPat) → CkM (List (Located SPat))
  dec_ck_seq : Cx → List (Located Dec) → Env → CkM Env

/-- The zero-fuel checker family: every member is out of fuel. -/
def ckOof : CkFns where
  ck_exp := fun _ _ _ => .oof
  ck_exp_rows := fun _ _ _ _ => .oof
  ck_exp_tuple := fun _ _ _ _ _ => .oof
  ck_exp_list := fun _ _ _ _ => .oof
  ck_exp_seq := fun _ _ _ _ => .oof
  ck_exp_let := fun _ _ _ _ => .oof
  ck_cases := fun _ _ _ _ => .oof
  ck_cases_arms := fun _ _ _ _ _ _ => .oof
  dec_ck := fun _ _ _ => .oof
  dec_ck_val_binds := fun _ _ _ _ _ => .oof
  dec_ck_fval_binds := fun _ _ _ _ => .oof
  dec_ck_fval_cases := fun _ _ _ _ _ _ _ => .oof
  dec_ck_seq := fun _ _ _ _ => .oof

/-- `ck_exp(cx, st, exp)` (from `dec.rs`): expression typing per the
Definition's rules; see the source for the per-form comments. -/
def ck_exp_body (n : Nat) (F : CkFns) (cx : Cx) (e : Located Exp) :
    CkM Ty := do
  match e.val with
  | .DecInt _ => pure Ty.INT
  | .HexInt _ => pure Ty.INT
  | .DecWord _ => pure Ty.WORD
  | .HexWord _ => pure Ty.WORD
  | .Real _ => pure Ty.REAL
  | .Str _ => pure Ty.STRING
  | .Char _ => pure Ty.CHAR
  | .LongVid vid => do
    let env ← liftCkE (get_env cx.env vid)
    let vi ← liftCkE (get_val_info env vid.last)
    instantiate vi.ty_scheme e.loc
  | .Record rows => do
    let ty_rows ← F.ck_exp_rows cx rows []
    pure (.Record ty_rows)
  | .Select _ => errCk (e.loc.wrap (.Todo "record selectors"))
  | .Tuple exps => do
    let ty_rows ← F.ck_exp_tuple cx exps 0 []
    pure (.Record ty_rows)
  | .List exps => do
    let tv ← newTyVarM false
    let elem := Ty.Var tv
    F.ck_exp_list cx exps elem
    pure (Ty.list elem)
  | .Sequence exps => do
    let ret ← F.ck_exp_seq cx exps none
    match ret with
    | some t => pure t
    -- models the Rust `ret.unwrap()` panic; the parser emits only
    -- non-empty sequences
    | none => errCk (e.loc.wrap .Unreachable)
  | .Let d exps => do
    let env ← F.dec_ck cx d
    let ty_names := cx.ty_names
    let cx := cx.o_plus env
    let lst ← F.ck_exp_let cx exps none
    match lst with
    -- models the Rust `last.unwrap()` panic; the parser emits only
    -- non-empty let bodies
    | none => errCk (e.loc.wrap .Unreachable)
    | some (loc, t) => do
      let st ← getStM
      match Ty.apply n st.subst t with
      | none => fun _ => .oof
      | some t' =>
        if namesSubset t'.ty_names ty_names then pure t'
        else errCk (loc.wrap .TyNameEscape)
  | .App func arg => do
    let func_ty ← F.ck_exp cx func
    let arg_ty ← F.ck_exp cx arg
    let rv ← newTyVarM false
    let ret_ty := Ty.Var rv
    let arrow_ty := Ty.Arrow arg_ty ret_ty
    unifyM n e.loc func_ty arrow_ty
    pure ret_ty
  | .InfixApp lhs func rhs => do
    let vi ← liftCkE (get_val_info cx.env func)
    let func_ty ← instantiate vi.ty_scheme e.loc
    let lhs_ty ← F.ck_exp cx lhs
    let rhs_ty ← F.ck_exp cx rhs
    let rv ← newTyVarM false
    let ret_ty := Ty.Var rv
    let arrow_ty := Ty.Arrow (Ty.pair lhs_ty rhs_ty) ret_ty
    unifyM n e.loc func_ty arrow_ty
    pure ret_ty
  | .Typed inner tyAst => do
    let exp_ty ← F.ck_exp cx inner
    let st ← getStM
    let ty_ty ← liftCk (tyCk n cx st.sym_tys tyAst)
    unifyM n e.loc ty_ty exp_ty
    pure exp_ty
  | .Andalso lhs rhs => do
    let lhs_ty ← F.ck_exp cx lhs
    let rhs_ty ← F.ck_exp cx rhs
    unifyM n lhs.loc Ty.BOOL lhs_ty
    unifyM n rhs.loc Ty.BOOL rhs_ty
    pure Ty.BOOL
  | .Orelse lhs rhs => do
    let lhs_ty ← F.ck_exp cx lhs
    let rhs_ty ← F.ck_exp cx rhs
    unifyM n lhs.loc Ty.BOOL lhs_ty
    unifyM n rhs.loc Ty.BOOL rhs_ty
    pure Ty.BOOL
  | .Handle head cs => do
    let head_ty ← F.ck_exp cx head
    let (arg_ty, res_ty) ← F.ck_cases cx cs e.loc
    unifyM n e.loc Ty.EXN arg_ty
    unifyM n e.loc head_ty res_ty
    pure head_ty
  | .Raise inner => do
    let exp_ty ← F.ck_exp cx inner
    unifyM n inner.loc Ty.EXN exp_ty
    let tv ← newTyVarM false
    pure (.Var tv)
  | .If cond then_e else_e => do
    let cond_ty ← F.ck_exp cx cond
    let then_ty ← F.ck_exp cx then_e
    let else_ty ← F.ck_exp cx else_e
    unifyM n cond.loc Ty.BOOL cond_ty
    unifyM n e.loc then_ty else_ty
    pure then_ty
  | .While _ _ => errCk (e.loc.wrap (.Todo "`while`"))
  | .Case head cs => do
    let head_ty ← F.ck_exp cx head
    let (arg_ty, res_ty) ← F.ck_cases cx cs e.loc
    unifyM n e.loc head_ty arg_ty
    pure res_ty
  | .Fn cs => do
    let (arg_ty, res_ty) ← F.ck_cases cx cs e.loc
    pure (.Arrow arg_ty res_ty)

/-- The row loop of `ck_exp`'s `Record` case (from `dec.rs`), with
duplicate-label detection. -/
def ck_exp_rows_body (_n : Nat) (F : CkFns) (cx : Cx) (rows : List (Row Exp))
    (acc : List (Label × Ty)) : CkM (List (Label × Ty)) := do
  match rows with
  | [] => pure acc
  | row :: rest => do
    let t ← F.ck_exp cx row.val
    match rowInsert row.lab.val t acc with
    | (some _, _) => errCk (row.lab.loc.wrap (.DuplicateLabel row.lab.val))
    | (none, acc') => F.ck_exp_rows cx rest acc'

/-- The component loop of `ck_exp`'s `Tuple` case (from `dec.rs`): labels
`1..n` are fresh by construction. -/
def ck_exp_tuple_body (_n : Nat) (F : CkFns) (cx : Cx)
    (exps : List (Located Exp)) (idx : Nat) (acc : List (Label × Ty)) :
    CkM (List (Label × Ty)) := do
  match exps with
  | [] => pure acc
  | e0 :: rest => do
    let t ← F.ck_exp cx e0
    let (_, acc') := rowInsert (Label.tuple idx) t acc
    F.ck_exp_tuple cx rest (idx + 1) acc'

/-- The element loop of `ck_exp`'s `List` case (from `dec.rs`): every
element unifies with the fresh element type. -/
def ck_exp_list_body (n : Nat) (F : CkFns) (cx : Cx)
    (exps : List (Located Exp)) (elem : Ty) : CkM Unit := do
  match exps with
  | [] => pure ()
  | e0 :: rest => do
    let t ← F.ck_exp cx e0
    unifyM n e0.loc elem t
    F.ck_exp_list cx rest elem

/-- The loop of `ck_exp`'s `Sequence` case (from `dec.rs`): elaborate each
sub-expression in order, keeping only the last type. -/
def ck_exp_seq_body (_n : Nat) (F : CkFns) (cx : Cx)
    (exps : List (Located Exp)) (ret : Option Ty) : CkM (Option Ty) := do
  match exps with
  | [] => pure ret
  | e0 :: rest => do
    let t ← F.ck_exp cx e0
    F.ck_exp_seq cx rest (some t)

/-- The body loop of `ck_exp`'s `Let` case (from `dec.rs`): elaborate each
body expression, keeping the last one's location and type. -/
def ck_exp_let_body (_n : Nat) (F : CkFns) (cx : Cx)
    (exps : List (Located Exp)) (lst : Option (Loc × Ty)) :
    CkM (Option (Loc × Ty)) := do
  match exps with
  | [] => pure lst
  | e0 :: rest => do
    let t ← F.ck_exp cx e0
    F.ck_exp_let cx rest (some (e0.loc, t))

/-- `ck_cases(cx, st, cases, loc)` (from `dec.rs`): fresh argument and
result variables, the arm loop, then the exhaustiveness check of the
collected patterns. -/
def ck_cases_body (n : Nat) (F : CkFns) (cx : Cx) (cs : Cases) (loc : Loc) :
    CkM (Ty × Ty) := do
  let a ← newTyVarM false
  let r ← newTyVarM false
  let arg_ty := Ty.Var a
  let res_ty := Ty.Var r
  let pats ← F.ck_cases_arms cx arg_ty res_ty cs.arms []
  liftCk (ck_match n pats loc)
  pure (arg_ty, res_ty)

/-- The arm loop of `ck_cases` (from `dec.rs`): elaborate the pattern,
check the arm body under the extended context, and unify with the shared
argument and result variables. -/
def ck_cases_arms_body (n : Nat) (F : CkFns) (cx : Cx) (arg_ty res_ty : Ty)
    (arms : List Arm) (pats : List (Located SPat)) :
    CkM (List (Located SPat)) := do
  match arms with
  | [] => pure pats
  | arm :: rest => do
    let (val_env, pat_ty, sp) ← patCk n cx arm.pat
    let pats := pats ++ [arm.pat.loc.wrap sp]
    let cx' := { cx with
      env := .mk (alistExtend cx.env.val_env val_env) cx.env.ty_env
        cx.env.str_env }
    let exp_ty ← F.ck_exp cx' arm.exp
    unifyM n arm.pat.loc arg_ty pat_ty
    unifyM n arm.exp.loc res_ty exp_ty
    F.ck_cases_arms cx arg_ty res_ty rest pats

/-- `ck(cx, st, dec)` (from `dec.rs`, the declaration checker; named
`dec_ck` here to distinguish it from `top_dec.rs`'s `ck`): declaration
elaboration per the Definition's rules; see the source for the per-form
comments. -/
def dec_ck_body (n : Nat) (F : CkFns) (cx : Cx) (d : Located Dec) :
    CkM Env := do
  match d.val with
  | .Val ty_vars val_binds =>
    (match ty_vars with
      | tv :: _ => errCk (tv.loc.wrap (.Todo "type variables"))
      | [] => do
        let val_env ← F.dec_ck_val_binds cx d.loc val_binds []
        pure (envOfValEnv val_env))
  | .Fun ty_vars fval_binds =>
    (match ty_vars with
      | tv :: _ => errCk (tv.loc.wrap (.Todo "type variables"))
      | [] => do
        let fun_infos ← dec_ck_fun_infos fval_binds []
        F.dec_ck_fval_binds cx fval_binds fun_infos
        let val_env ← fun_ve_generalize n cx (fun_infos_to_ve fun_infos)
        pure (envOfValEnv val_env))
  | .Typ ty_binds => ckTyBinds n cx ty_binds []
  | .Datatype dat_binds ty_binds => do
    let env ← ckDatBinds n cx dat_binds [] []
    let cx := cx.o_plus env
    let env2 ← ckTyBinds n cx ty_binds []
    pure (env.extend env2)
  | .DatatypeCopy ty_con long => do
    let st ← getStM
    liftCkE (ckDatCopy cx st.sym_tys ty_con long)
  | .Abstype _ _ _ => errCk (d.loc.wrap (.Todo "`abstype`"))
  | .Exception ex_binds => ckExBinds n cx ex_binds []
  | .Local fst snd => do
    let fst_env ← F.dec_ck cx fst
    let cx := cx.o_plus fst_env
    F.dec_ck cx snd
  | .Open longs => liftCkE (openEnvs cx longs (.mk [] [] []))
  | .Seq decs => F.dec_ck_seq cx decs (.mk [] [] [])
  | .Infix _ _ => pure (.mk [] [] [])
  | .Infixr _ _ => pure (.mk [] [] [])
  | .Nonfix _ => pure (.mk [] [] [])

/-- The binding loop of `dec_ck`'s `Val` case (from `dec.rs`): recursive
bindings are unsupported; elaborate the pattern, check its bound names
against the forbidden set, elaborate the expression, unify, check the
binding exhaustive, then generalise each bound name into the returned
value environment. -/
def dec_ck_val_binds_body (n : Nat) (F : CkFns) (cx : Cx) (dloc : Loc)
    (val_binds : List ValBind) (val_env : List (StrRef × ValInfo)) :
    CkM (List (StrRef × ValInfo)) := do
  match val_binds with
  | [] => pure val_env
  | vb :: rest => do
    if vb.rec' then errCk (dloc.wrap (.Todo "recursive val binds"))
    else do
      let (other, pat_ty, sp) ← patCk n cx vb.pat
      liftCkE (ck_bindings_all (other.map (fun e => e.1)) vb.pat.loc)
      let exp_ty ← F.ck_exp cx vb.exp
      unifyM n dloc pat_ty exp_ty
      liftCk (ck_bind n sp vb.pat.loc)
      let val_env' ← val_env_gen_insert n cx vb.pat.loc other val_env
      F.dec_ck_val_binds cx dloc rest val_env'

/-- The per-binding loop of `dec_ck`'s `Fun` case (from `dec.rs`): check
each binding's clauses, then the exhaustiveness of its collected
argument-tuple patterns over the span from the first clause's name to the
last clause's body. -/
def dec_ck_fval_binds_body (n : Nat) (F : CkFns) (cx : Cx)
    (fval_binds : List FValBind) (fun_infos : List (StrRef × FunInfo)) :
    CkM Unit := do
  match fval_binds with
  | [] => pure ()
  | fb :: rest => do
    match fb.cases with
    -- the parser emits at least one clause per binding
    | [] => errCk ((Loc.mk 0 0).wrap .Unreachable)
    | c0 :: _ => do
      let name := c0.vid.val
      match alistGet fun_infos name with
      -- inserted for every binding by `dec_ck_fun_infos`
      | none => errCk ((Loc.mk 0 0).wrap .Unreachable)
      | some info => do
        let arg_pats ← F.dec_ck_fval_cases cx name info fun_infos fb.cases []
        let bloc := c0.vid.loc
        let eloc := match fb.cases.getLast? with
          | some cl => cl.body.loc
          | none => bloc
        liftCk (ck_match n arg_pats (bloc.span eloc))
        F.dec_ck_fval_binds cx rest fun_infos

/-- The per-clause loop of `dec_ck`'s `Fun` case (from `dec.rs`): the
clause name must match the group name, the argument count must match, the
argument patterns are collected as one record pattern, and the body is
checked under the group and pattern environments. -/
def dec_ck_fval_cases_body (n : Nat) (F : CkFns) (cx : Cx) (name : StrRef)
    (info : FunInfo) (fun_infos : List (StrRef × FunInfo))
    (cases : List FValBindCase) (arg_pats : List (Located SPat)) :
    CkM (List (Located SPat)) := do
  match cases with
  | [] => pure arg_pats
  | case :: rest => do
    if name ≠ case.vid.val then
      errCk (case.vid.loc.wrap (.FunDecNameMismatch name case.vid.val))
    else do
      match case.pats with
      -- the parser emits at least one argument pattern per clause
      | [] => errCk ((Loc.mk 0 0).wrap .Unreachable)
      | p1 :: _ => do
        let eloc := match case.pats.getLast? with
          | some pl => pl.loc
          | none => p1.loc
        if info.args.length ≠ case.pats.length then
          errCk ((p1.loc.span eloc).wrap
            (.FunDecWrongNumPats info.args.length case.pats.length))
        else do
          let (pats_val_env, arg_pat) ←
            dec_ck_case_pats n cx case.pats info.args [] []
          let arg_pats := arg_pats ++
            [(p1.loc.span eloc).wrap (SPat.record arg_pat)]
          (match case.ret_ty with
            | some tyAst => do
              let st ← getStM
              let t ← liftCk (tyCk n cx st.sym_tys tyAst)
              unifyM n tyAst.loc (.Var info.ret) t
            | none => pure ())
          let cx' := { cx with
            env := .mk
              (alistExtend (alistExtend cx.env.val_env
                (fun_infos_to_ve fun_infos)) pats_val_env)
              cx.env.ty_env cx.env.str_env }
          let body_ty ← F.ck_exp cx' case.body
          unifyM n case.body.loc (.Var info.ret) body_ty
          F.dec_ck_fval_cases cx name info fun_infos rest arg_pats

/-- The loop of `dec_ck`'s `Seq` case (from `dec.rs`): thread the
accumulated environment into the context left to right. -/
def dec_ck_seq_body (_n : Nat) (F : CkFns) (cx : Cx)
    (decs : List (Located Dec)) (ret : Env) : CkM Env := do
  match decs with
  | [] => pure ret
  | d :: rest => do
    let cx := cx.o_plus ret
    let e ← F.dec_ck cx d
    F.dec_ck_seq cx rest (ret.extend e)

/-- One fuel level of the expression/declaration checker family. -/
def ckStep (n : Nat) (F : CkFns) : CkFns where
  ck_exp := ck_exp_body n F
  ck_exp_rows := ck_exp_rows_body n F
  ck_exp_tuple := ck_exp_tuple_body n F
  ck_exp_list := ck_exp_list_body n F
  ck_exp_seq := ck_exp_seq_body n F
  ck_exp_let := ck_exp_let_body n F
  ck_cases := ck_cases_body n F
  ck_cases_arms := ck_cases_arms_body n F
  dec_ck := dec_ck_body n F
  dec_ck_val_binds := dec_ck_val_binds_body n F
  dec_ck_fval_binds := dec_ck_fval_binds_body n F
  dec_ck_fval_cases := dec_ck_fval_cases_body n F
  dec_ck_seq := dec_ck_seq_body n F

/-- The expression/declaration checker family at each fuel level. -/
def ckFns : Nat → CkFns
  | 0 => ckOof
  | n + 1 => ckStep n (ckFns n)

/-- `ck_exp(cx, st, exp)` (from `dec.rs`) at a fuel level. -/
def ck_exp (n : Nat) (cx : Cx) (e : Located Exp) : CkM Ty :=
  (ckFns n).ck_exp cx e

/-- `ck_cases(cx, st, cases, loc)` (from `dec.rs`) at a fuel level. -/
def ck_cases (n : Nat) (cx : Cx) (cs : Cases) (loc : Loc) : CkM (Ty × Ty) :=
  (ckFns n).ck_cases cx cs loc

/-- `dec::ck(cx, st, dec)` (from `dec.rs`) at a fuel level. -/
def dec_ck (n : Nat) (cx : Cx) (d : Located Dec) : CkM Env :=
  (ckFns n).dec_ck cx d

/-- Modelled from the spec: `Env::maybe_extend(other, loc)`: extend,
rejecting any identifier rebound within one specification sequence
(`Redefined` at the specification's location). -/
def Env.maybe_extend (e other : Env) (loc : Loc) :
    Except (Located Error) Env := do
  let ve ← env_merge e.val_env other.val_env loc
  let te ← env_merge e.ty_env other.ty_env loc
  let se ← env_merge e.str_env other.str_env loc
  .ok (.mk ve te se)

/-- Disjointness of name sets (`HashSet::is_disjoint`). -/
def namesDisjoint (a b : List StrRef) : Bool :=
  a.all (fun x => x ∉ b)

/-- `env_to_sig(bs, env)` (from `top_dec.rs`): lift an environment to a
signature whose abstract type names are those not already in the basis. -/
def env_to_sig (bs : Basis') (env : Env) : Sig :=
  ⟨env, namesDiff env.ty_names bs.ty_names⟩

/-- The `Spec::Val` loop of `ck_spec` (from `top_dec.rs`). -/
def ck_spec_vals (n : Nat) (cx : Cx) : List ValDesc →
    List (StrRef × ValInfo) → CkM Env
  | [], val_env => pure (envOfValEnv val_env)
  | vd :: rest, val_env => do
    let st ← getStM
    let t ← liftCk (tyCk n cx st.sym_tys vd.ty)
    let val_env' ← liftCkE (env_ins val_env vd.vid (ValInfo.val (TyScheme.mono t)))
    ck_spec_vals n cx rest val_env'

/-- The `Spec::Type` loop of `ck_spec` (from `top_dec.rs`): type variables
are unsupported; each description allocates a fresh symbol with an empty
constructor environment and the given equality attribute. -/
def ck_spec_types (n : Nat) (equality : Bool) : List TyDesc →
    List (StrRef × TyInfo) → CkM Env
  | [], ty_env => pure (envOfTyEnv ty_env)
  | td :: rest, ty_env => do
    match td.ty_vars with
    | tv :: _ => errCk (tv.loc.wrap (.Todo "type variables"))
    | [] => do
      let sym ← newSymM td.ty_con
      let ty_env' ← liftCkE (env_ins ty_env td.ty_con (TyInfo.Sym sym))
      let st ← getStM
      let seeded := alistInsert st.sym_tys sym
        ⟨TyScheme.mono (.Ctor [] sym), [], equality⟩
      setStM { st with sym_tys := seeded }
      ck_spec_types n equality rest ty_env'

/-- The `Spec::Exception` loop of `ck_spec` (from `top_dec.rs`). -/
def ck_spec_exs (n : Nat) (cx : Cx) : List ExDesc →
    List (StrRef × ValInfo) → CkM Env
  | [], val_env => pure (envOfValEnv val_env)
  | ed :: rest, val_env => do
    let vi ← (match ed.ty with
      | none => pure ValInfo.exn
      | some tyAst => do
        let st ← getStM
        let t ← liftCk (tyCk n cx st.sym_tys tyAst)
        pure (ValInfo.exn_fn t))
    let val_env' ← liftCkE (env_ins val_env ed.vid vi)
    ck_spec_exs n cx rest val_env'

/-- The module-level checker family (from `top_dec.rs`): one field per
mutually recursive function, at a fixed fuel level (see `PatFns` for the
scheme). -/
structure TopFns where
  ck_str_exp : Basis' → Located StrExp → CkM Env
  ck_str_dec : Basis' → Located StrDec → CkM Env
  ck_str_dec_binds : Basis' → List StrBind → List (StrRef × Env) →
    CkM (List (StrRef × Env))
  ck_str_dec_seq : Basis' → List (Located StrDec) → Env → CkM Env
  ck_sig_exp : Basis' → Located SigExp → CkM Env
  ck_spec : Basis' → Located Spec → CkM Env
  ck_spec_seq : Basis' → List (Located Spec) → Env → CkM Env
  ck_spec_strs : Basis' → List StrDesc → List (StrRef × Env) →
    CkM (List (StrRef × Env))

/-- The zero-fuel module-level family: every member is out of fuel. -/
def topOof : TopFns where
  ck_str_exp := fun _ _ _ => .oof
  ck_str_dec := fun _ _ _ => .oof
  ck_str_dec_binds := fun _ _ _ _ => .oof
  ck_str_dec_seq := fun _ _ _ _ => .oof
  ck_sig_exp := fun _ _ _ => .oof
  ck_spec := fun _ _ _ => .oof
  ck_spec_seq := fun _ _ _ _ => .oof
  ck_spec_strs := fun _ _ _ _ => .oof

/-- `ck_str_exp(bs, st, str_exp)` (from `top_dec.rs`). -/
def ck_str_exp_body (_n : Nat) (F : TopFns) (bs : Basis')
    (se : Located StrExp) : CkM Env := do
  match se.val with
  | .Struct str_dec => F.ck_str_dec bs str_dec
  | .LongStrId long => do
    let env ← liftCkE (get_env bs.env long)
    match alistGet env.str_env long.last.val with
    | none => errCk (long.last.loc.wrap (.Undefined .Struct long.last.val))
    | some env => pure env
  | .Ascription _ _ _ => errCk (se.loc.wrap (.Todo "signature ascription"))
  | .FunctorApp _ _ => errCk (se.loc.wrap (.Todo "functor application"))
  | .Let fst snd => do
    let env ← F.ck_str_dec bs fst
    let bs := bs.add_env env
    F.ck_str_exp bs snd

/-- `ck_str_dec(bs, st, str_dec)` (from `top_dec.rs`). -/
def ck_str_dec_body (n : Nat) (F : TopFns) (bs : Basis')
    (sd : Located StrDec) : CkM Env := do
  match sd.val with
  | .Dec d => dec_ck n bs.to_cx d
  | .Structure str_binds => do
    let str_env ← F.ck_str_dec_binds bs str_binds []
    pure (.mk [] [] str_env)
  | .Local fst snd => do
    let env ← F.ck_str_dec bs fst
    let bs := bs.add_env env
    F.ck_str_dec bs snd
  | .Seq str_decs => F.ck_str_dec_seq bs str_decs (.mk [] [] [])

/-- The binding loop of `ck_str_dec`'s `Structure` case (from
`top_dec.rs`): each bound structure's type names are added to the (cloned)
basis seen by the following bindings; shadowing is allowed. -/
def ck_str_dec_binds_body (_n : Nat) (F : TopFns) (bs : Basis')
    (binds : List StrBind) (str_env : List (StrRef × Env)) :
    CkM (List (StrRef × Env)) := do
  match binds with
  | [] => pure str_env
  | sb :: rest => do
    let env ← F.ck_str_exp bs sb.exp
    let bs := { bs with ty_names := namesUnion bs.ty_names env.ty_names }
    F.ck_str_dec_binds bs rest (alistInsert str_env sb.id.val env)

/-- The loop of `ck_str_dec`'s `Seq` case (from `top_dec.rs`): thread the
accumulated environment into the (cloned) basis left to right. -/
def ck_str_dec_seq_body (_n : Nat) (F : TopFns) (bs : Basis')
    (str_decs : List (Located StrDec)) (ret : Env) : CkM Env := do
  match str_decs with
  | [] => pure ret
  | sd :: rest => do
    let bs := bs.add_env ret
    let e ← F.ck_str_dec bs sd
    F.ck_str_dec_seq bs rest (ret.extend e)

/-- `ck_sig_exp(bs, st, sig_exp)` (from `top_dec.rs`): `sig … end`
elaborates its specification; a signature identifier's environment is
returned when its abstract type names are disjoint from the basis's. -/
def ck_sig_exp_body (_n : Nat) (F : TopFns) (bs : Basis')
    (se : Located SigExp) : CkM Env := do
  match se.val with
  | .Sig sp => F.ck_spec bs sp
  | .SigId sig_id =>
    (match alistGet bs.sig_env sig_id.val with
      | none => errCk (sig_id.loc.wrap (.Undefined .Sig sig_id.val))
      | some sg =>
        if namesDisjoint sg.ty_names bs.ty_names then pure sg.env
        else errCk (se.loc.wrap (.Todo "type name set intersection")))
  | .Where _ _ _ _ => errCk (se.loc.wrap (.Todo "`where`"))

/-- `ck_spec(bs, st, spec)` (from `top_dec.rs`). -/
def ck_spec_body (n : Nat) (F : TopFns) (bs : Basis') (sp : Located Spec) :
    CkM Env := do
  match sp.val with
  | .Val val_descs => ck_spec_vals n bs.to_cx val_descs []
  | .Typ ty_descs equality => ck_spec_types n equality ty_descs []
  | .Datatype dat_binds => ckDatBinds n bs.to_cx dat_binds [] []
  | .DatatypeCopy ty_con long => do
    let st ← getStM
    liftCkE (ckDatCopy bs.to_cx st.sym_tys ty_con long)
  | .Exception ex_descs => ck_spec_exs n bs.to_cx ex_descs []
  | .Structure str_descs => do
    let str_env ← F.ck_spec_strs bs str_descs []
    pure (.mk [] [] str_env)
  | .Include sig_exp => F.ck_sig_exp bs sig_exp
  | .Seq specs => F.ck_spec_seq bs specs (.mk [] [] [])
  | .Sharing _ _ => errCk (sp.loc.wrap (.Todo "`sharing`"))

/-- The loop of `ck_spec`'s `Seq` case (from `top_dec.rs`): sequential
specifications must not rebind identifiers (`maybe_extend`). -/
def ck_spec_seq_body (_n : Nat) (F : TopFns) (bs : Basis')
    (specs : List (Located Spec)) (ret : Env) : CkM Env := do
  match specs with
  | [] => pure ret
  | sp :: rest => do
    let env ← F.ck_spec bs sp
    let ret' ← liftCkE (ret.maybe_extend env sp.loc)
    F.ck_spec_seq bs rest ret'

/-- The description loop of `ck_spec`'s `Structure` case (from
`top_dec.rs`). -/
def ck_spec_strs_body (_n : Nat) (F : TopFns) (bs : Basis')
    (str_descs : List StrDesc) (str_env : List (StrRef × Env)) :
    CkM (List (StrRef × Env)) := do
  match str_descs with
  | [] => pure str_env
  | sd :: rest => do
    let env ← F.ck_sig_exp bs sd.exp
    let bs := { bs with ty_names := namesUnion bs.ty_names env.ty_names }
    F.ck_spec_strs bs rest (alistInsert str_env sd.str_id.val env)

/-- One fuel level of the module-level checker family. -/
def topStep (n : Nat) (F : TopFns) : TopFns where
  ck_str_exp := ck_str_exp_body n F
  ck_str_dec := ck_str_dec_body n F
  ck_str_dec_binds := ck_str_dec_binds_body n F
  ck_str_dec_seq := ck_str_dec_seq_body n F
  ck_sig_exp := ck_sig_exp_body n F
  ck_spec := ck_spec_body n F
  ck_spec_seq := ck_spec_seq_body n F
  ck_spec_strs := ck_spec_strs_body n F

/-- The module-level checker family at each fuel level. -/
def topFns : Nat → TopFns
  | 0 => topOof
  | n + 1 => topStep n (topFns n)

/-- `ck_str_exp` (from `top_dec.rs`) at a fuel level. -/
def ck_str_exp (n : Nat) (bs : Basis') (se : Located StrExp) : CkM Env :=
  (topFns n).ck_str_exp bs se

/-- `ck_str_dec` (from `top_dec.rs`) at a fuel level. -/
def ck_str_dec (n : Nat) (bs : Basis') (sd : Located StrDec) : CkM Env :=
  (topFns n).ck_str_dec bs sd

/-- `ck_sig_exp` (from `top_dec.rs`) at a fuel level. -/
def ck_sig_exp (n : Nat) (bs : Basis') (se : Located SigExp) : CkM Env :=
  (topFns n).ck_sig_exp bs se

/-- `ck_spec` (from `top_dec.rs`) at a fuel level. -/
def ck_spec (n : Nat) (bs : Basis') (sp : Located Spec) : CkM Env :=
  (topFns n).ck_spec bs sp

/-- The binding loop of `top_dec.rs`'s `SigDec` arm: each signature
binding's environment is lifted to a signature against the pre-declaration
basis; shadowing is allowed. -/
def ck_sig_binds (n : Nat) (bs : Basis') : List SigBind →
    List (StrRef × Sig) → CkM (List (StrRef × Sig))
  | [], acc => pure acc
  | sb :: rest, acc => do
    let env ← ck_sig_exp n bs sb.exp
    ck_sig_binds n bs rest (alistInsert acc sb.id.val (env_to_sig bs env))

/-- The result of trying one overloaded variable's candidate list. -/
inductive TryOv where
  | oof : TryOv
  | noneFit : TryOv
  | found : Subst → TryOv

/-- The inner candidate loop of the overload-resolution pass at the tail of
`top_dec.rs`'s `ck`: try each candidate type in order, each attempt
unifying `Var tv ≡ ty` on a clone of the current substitution; the first
success yields the extended clone. -/
def tryOverloads (n : Nat) (sym_tys : SymTys) (s : Subst) (loc : Loc)
    (tv : TyVar) : List Ty → TryOv
  | [] => .noneFit
  | t :: rest =>
    match Subst.unify n s loc sym_tys (.Var tv) t with
    | .oof => .oof
    | .ok pre => .found pre
    | .err _ => tryOverloads n sym_tys s loc tv rest

/-- The result of the overload-resolution pass: on error the substitution
accumulated so far is retained (mirroring `&mut State`). -/
inductive OvRes where
  | oof : OvRes
  | err : Located Error → Subst → OvRes
  | ok : Subst → OvRes

/-- The `'outer` loop of the overload-resolution pass at the tail of
`top_dec.rs`'s `ck`: for each pending variable, commit the first candidate
that unifies (the clone becomes the substitution), else
`NoSuitableOverload` at the variable's recorded location. -/
def resolveOverloads (n : Nat) (sym_tys : SymTys) :
    Subst → List (TyVar × (Loc × List Ty)) → OvRes
  | s, [] => .ok s
  | s, (tv, (loc, overloads)) :: rest =>
    match tryOverloads n sym_tys s loc tv overloads with
    | .oof => .oof
    | .found pre => resolveOverloads n sym_tys pre rest
    | .noneFit => .err (loc.wrap .NoSuitableOverload) s

/-- The result of checking one top declaration: mirrors `ck(&mut Basis,
&mut State, top_dec) -> Result<()>`, carrying the basis and state as left
by the call. -/
inductive TopCkRes where
  | oof : TopCkRes
  | err : Located Error → Basis' → State → TopCkRes
  | ok : Basis' → State → TopCkRes

/-- `ck(bs, st, top_dec)` (from `top_dec.rs`), the static checker's public
entry point (`check` in the spec): elaborate the top declaration into the
basis, then resolve all pending overloads taken from the state. -/
def top_dec_ck (n : Nat) (bs : Basis') (st : State) (td : Located TopDec) :
    TopCkRes :=
  let phase : CkRes Basis' :=
    match td.val with
    | .StrDec str_dec =>
      (match ck_str_dec n bs str_dec st with
        | .oof => .oof
        | .err e st' => .err e st'
        | .ok env st' => .ok (bs.add_env env) st')
    | .SigDec sig_binds =>
      (match ck_sig_binds n bs sig_binds [] st with
        | .oof => .oof
        | .err e st' => .err e st'
        | .ok sig_env st' => .ok (bs.add_sig_env sig_env) st')
    | .FunDec fun_binds =>
      (match fun_binds with
        | fb :: _ => .err (fb.fun_id.loc.wrap (.Todo "`functor`")) st
        | [] => .ok (bs.add_fun_env []) st)
  match phase with
  | .oof => .oof
  | .err e st' => .err e bs st'
  | .ok bs' st' =>
    let ov := st'.overload
    let st'' := { st' with overload := [] }
    match resolveOverloads n st''.sym_tys st''.subst ov with
    | .oof => .oof
    | .err e s => .err e bs' { st'' with subst := s }
    | .ok s => .ok bs' { st'' with subst := s }

/-! Auxiliary definitions for the verification development: concrete
inputs for the claim witnesses and counterexamples, wrappers naming
inner loops at a fuel level, and the operator-table preservation
predicates. -/

/-- Concrete token stream for `infix 10 f`. -/
def c8_tokens : List (Located Token) :=
  [(Loc.mk 0 5).wrap .Infix,
   (Loc.mk 6 8).wrap (.DecInt 10 .No),
   (Loc.mk 9 10).wrap (.Ident (StrRef.mk 40) .AlphaNum)]

/-- Concrete parser starting on `infix 10 f`. -/
def c8_start : Parser := Parser.new c8_tokens (Loc.mk 9 10)

/-- Concrete exception name for the C1 scenario. -/
def c1_exn_name : StrRef := ⟨200⟩

/-- Concrete location of the C1 overload constraint. -/
def c1_ov_loc : Loc := ⟨90, 91⟩

/-- Concrete top declaration `exception E` for the C1 scenario. -/
def c1_top_dec : Located TopDec :=
  (Loc.mk 0 11).wrap (TopDec.StrDec ((Loc.mk 0 11).wrap (StrDec.Dec
    ((Loc.mk 0 11).wrap
      (Dec.Exception [⟨(Loc.mk 0 11).wrap c1_exn_name,
        ExBindInner.Ty none⟩])))))

/-- Concrete empty basis for the C1 scenario. -/
def c1_basis : Basis' := ⟨[], .mk [] [] [], [], []⟩

/-- Concrete incoming state for the C1 scenario: a pending overload
constraint (left by an earlier declaration of the same `check` call's
program, e.g. an earlier semicolon-separated declaration would not leave
one, but an `OverloadedNone`-defaulted variable of this call does in
general) whose variable is already bound to `string` in the substitution,
so no candidate in `[int]` fits. -/
def c1_state : State :=
  ⟨1, 100, [(0, Ty.STRING)], [(⟨0, false⟩, (c1_ov_loc, [Ty.INT]))], []⟩

/-- The basis as left by the failing C1 `check` call: the exception
declaration has already been committed to it. -/
def c1_basis_after : Basis' :=
  ⟨[], .mk [(c1_exn_name, ValInfo.exn)] [] [], [], []⟩

/-- Concrete functor binding `functor F (S : sig end) = struct end` for the
C1 witness. -/
def c1_fun_bind : FunBind :=
  ⟨(Loc.mk 8 9).wrap (StrRef.mk 77), (Loc.mk 11 12).wrap (StrRef.mk 78),
   (Loc.mk 15 22).wrap (SigExp.Sig ((Loc.mk 19 19).wrap (Spec.Seq []))),
   (Loc.mk 25 35).wrap (StrExp.Struct ((Loc.mk 31 31).wrap (StrDec.Seq [])))⟩

/-- Concrete `val ref = 1` binding for the C9 witness. -/
def c9_val_bind : ValBind :=
  ⟨false, (Loc.mk 4 7).wrap (Pat.LongVid ⟨[], (Loc.mk 4 7).wrap
    StrRef.REF⟩), (Loc.mk 10 11).wrap (Exp.DecInt 1)⟩

/-- The `Let`-body loop of `ck_exp` (from `dec.rs`) at a fuel level. -/
def ck_exp_let (n : Nat) (cx : Cx) (exps : List (Located Exp))
    (lst : Option (Loc × Ty)) : CkM (Option (Loc × Ty)) :=
  (ckFns n).ck_exp_let cx exps lst

/-- The sequence loop of `ck_exp` (from `dec.rs`) at a fuel level. -/
def ck_exp_seq (n : Nat) (cx : Cx) (exps : List (Located Exp))
    (ret : Option Ty) : CkM (Option Ty) :=
  (ckFns n).ck_exp_seq cx exps ret

/-- First constituent of the C7 witness sequence: the literal `1`. -/
def c7_exp1 : Located Exp := (Loc.mk 1 2).wrap (Exp.DecInt 1)

/-- Second constituent of the C7 witness sequence: a string literal. -/
def c7_exp2 : Located Exp := (Loc.mk 4 7).wrap (Exp.Str (StrRef.mk 300))

/-- A parser computation preserves the operator table on success. -/
def PresOps {α : Type} (m : PM α) : Prop :=
  ∀ p a p', m p = .ok a p' → p'.ops = p.ops

/-- The signature/specification sublanguage of the parser preserves the
operator table: none of these mutually recursive functions contains an
`infix`/`infixr`/`nonfix` handler or reaches a core declaration. -/
def SpecPres (F : DecFns) : Prop :=
  PresOps F.sig_exp ∧
  (∀ b r, PresOps (F.sig_exp_loop b r)) ∧
  PresOps F.maybe_spec ∧
  (∀ acc, PresOps (F.val_descs_loop acc)) ∧
  (∀ acc, PresOps (F.ex_descs_loop acc)) ∧
  (∀ acc, PresOps (F.str_descs_loop acc)) ∧
  (∀ acc, PresOps (F.include_sig_ids_loop acc)) ∧
  (∀ b r, PresOps (F.sharing_loop b r)) ∧
  (∀ acc, PresOps (F.ty_cons_loop acc)) ∧
  PresOps F.spec ∧
  (∀ acc, PresOps (F.spec_seq_loop acc)) ∧
  (∀ b r, PresOps (F.str_exp_loop b r))

/-- Concrete token stream `struct end` for the C3 witness. -/
def c3_struct_tokens : List (Located Token) :=
  [(Loc.mk 0 6).wrap .Struct, (Loc.mk 7 10).wrap .End]

/-- Concrete parser on `struct end` for the C3 witness. -/
def c3_struct_start : Parser := Parser.new c3_struct_tokens (Loc.mk 7 10)

/-- Concrete token stream `local infix 5 f in end` for the C3 witness: the
fixity declaration inside `local … in … end` must not survive it. -/
def c3_local_tokens : List (Located Token) :=
  [(Loc.mk 0 5).wrap .Local, (Loc.mk 6 11).wrap .Infix,
   (Loc.mk 12 13).wrap (.DecInt 5 .No),
   (Loc.mk 14 15).wrap (.Ident (StrRef.mk 40) .AlphaNum),
   (Loc.mk 16 18).wrap .In, (Loc.mk 19 22).wrap .End]

/-- Concrete parser on `local infix 5 f in end` for the C3 witness. -/
def c3_local_start : Parser := Parser.new c3_local_tokens (Loc.mk 19 22)

/-! Equation lemmas for running parser computations, used throughout the
proofs below. -/

theorem PM_bind_apply {α β : Type} (m : PM α) (f : α → PM β) (p : Parser) :
    (m >>= f) p =
      match m p with
      | .oof => .oof
      | .err e q => .err e q
      | .ok a q => f a q := rfl

theorem PM_pure_apply {α : Type} (a : α) (p : Parser) :
    (pure a : PM α) p = .ok a p := rfl

theorem peekM_apply (p : Parser) : peekM p = .ok p.peek p := rfl

theorem skipM_apply (p : Parser) :
    skipM p = .ok () { p with i := p.i + 1 } := rfl

theorem backM_apply (p : Parser) :
    backM p = .ok () { p with i := p.i - 1 } := rfl

theorem setIM_apply (n : Nat) (p : Parser) :
    setIM n p = .ok () { p with i := n } := rfl

theorem getIM_apply (p : Parser) : getIM p = .ok p.i p := rfl

theorem getOpsM_apply (p : Parser) : getOpsM p = .ok p.ops p := rfl

theorem setOpsM_apply (ops : List (StrRef × OpInfo)) (p : Parser) :
    setOpsM ops p = .ok () { p with ops := ops } := rfl

theorem wrapM_apply {α : Type} (begin : Loc) (v : α) (p : Parser) :
    wrapM begin v p = .ok (p.wrap begin v) p := rfl

theorem failM_apply {α : Type} (want : String) (tok : Located Token)
    (p : Parser) :
    (failM want tok : PM α) p =
      .err (tok.loc.wrap (.ExpectedButFound want tok.val.desc)) p := rfl

theorem errM_apply {α : Type} (e : Located ParseError) (p : Parser) :
    (errM e : PM α) p = .err e p := rfl

theorem getPM_apply (p : Parser) : getPM p = .ok p p := rfl

theorem liftP_apply {α : Type} (e : Except (Located ParseError) α)
    (p : Parser) :
    liftP e p =
      match e with
      | .ok a => .ok a p
      | .error er => .err er p := rfl

/-! Equation lemmas for running statics computations. -/

theorem CkM_bind_apply {α β : Type} (m : CkM α) (f : α → CkM β) (st : State) :
    (m >>= f) st =
      match m st with
      | .oof => .oof
      | .err e st' => .err e st'
      | .ok a st' => f a st' := rfl

theorem CkM_pure_apply {α : Type} (a : α) (st : State) :
    (pure a : CkM α) st = .ok a st := rfl

theorem getStM_apply (st : State) : getStM st = .ok st st := rfl

theorem setStM_apply (st st0 : State) : setStM st st0 = .ok () st := rfl

theorem errCk_apply {α : Type} (e : Located Error) (st : State) :
    (errCk e : CkM α) st = .err e st := rfl

theorem liftCk_apply {α : Type} (e : ERes α) (st : State) :
    liftCk e st =
      match e with
      | .oof => .oof
      | .err er => .err er st
      | .ok a => .ok a st := rfl

theorem liftCkE_apply {α : Type} (e : Except (Located Error) α) (st : State) :
    liftCkE e st =
      match e with
      | .error er => .err er st
      | .ok a => .ok a st := rfl

theorem newTyVarM_apply (expansive : Bool) (st : State) :
    newTyVarM expansive st =
      .ok ⟨st.next_ty_var, expansive⟩
        { st with next_ty_var := st.next_ty_var + 1 } := rfl

/-- C4: In the shared Pratt precedence climb for expressions and patterns
(`OpInfo::should_break`, called from both `exp_prec`'s and `pat_prec`'s
climbs): an operator of the same precedence as the current minimum but
different associativity is a hard `SameFixityDiffAssoc` error located at
that operator; otherwise the climb breaks out exactly when the precedence
is less than or equal to the minimum for a left-associative minimum, and
exactly when it is strictly less for a right-associative minimum. -/
theorem claim_c4_should_break (self min_prec : OpInfo) (loc : Loc) :
    (self.num = min_prec.num ∧ self.assoc ≠ min_prec.assoc →
      self.should_break (some min_prec) loc =
        .error (loc.wrap .SameFixityDiffAssoc)) ∧
    (¬(self.num = min_prec.num ∧ self.assoc ≠ min_prec.assoc) →
      min_prec.assoc = .Left →
        self.should_break (some min_prec) loc =
          .ok (decide (self.num ≤ min_prec.num))) ∧
    (¬(self.num = min_prec.num ∧ self.assoc ≠ min_prec.assoc) →
      min_prec.assoc = .Right →
        self.should_break (some min_prec) loc =
          .ok (decide (self.num < min_prec.num))) := by
  obtain ⟨mn, ma⟩ := min_prec
  refine ⟨fun h => ?_, fun h hl => ?_, fun h hr => ?_⟩
  · simp only [OpInfo.should_break, if_pos h]
  · cases hl
    simp only [OpInfo.should_break, if_neg h]
  · cases hr
    simp only [OpInfo.should_break, if_neg h]

/-- Witness for C4 at concrete operators: `infix 0 &` against `infixr 0 &`
errors, and a left-associative minimum of equal precedence breaks. -/
theorem claim_c4_should_break_witness :
    (OpInfo.left 0).should_break (some (OpInfo.right 0)) (Loc.mk 3 4) =
      .error ((Loc.mk 3 4).wrap .SameFixityDiffAssoc) ∧
    (OpInfo.left 5).should_break (some (OpInfo.left 5)) (Loc.mk 3 4) =
      .ok true := by
  constructor
  · exact (claim_c4_should_break (OpInfo.left 0) (OpInfo.right 0)
      (Loc.mk 3 4)).1 ⟨rfl, by decide⟩
  · exact (claim_c4_should_break (OpInfo.left 5) (OpInfo.left 5)
      (Loc.mk 3 4)).2.1 (by decide) rfl

/-- C10: If the lexer holds no tokens at all (its `last_loc()` is `None`),
`get` returns `Ok` with an empty vector of top declarations. -/
theorem claim_c10_empty_lexer (fuel : Nat) (lexer : List (Located Token))
    (h : lexer_last_loc lexer = none) : parse_get fuel lexer = .ok [] := by
  unfold parse_get
  rw [h]

/-- Witness for C10 at the concrete empty lexer. -/
theorem claim_c10_empty_lexer_witness : parse_get 0 [] = .ok [] :=
  claim_c10_empty_lexer 0 [] rfl

/-! C8: the operator-table range invariant. -/

/-- C8 counterexample: parsing the legal declaration `infix 10 f` succeeds
and inserts an operator-table entry of precedence 10, so the invariant
"every entry's precedence lies in `0..=9`" does not hold for all reachable
tables: `fixity_num` only rejects negative numbers and never clamps or
rejects numbers above 9. -/
theorem claim_c8_counterexample :
    maybe_dec 10 c8_start =
      .ok (some ((Loc.mk 0 10).wrap (Dec.Infix ((Loc.mk 6 8).wrap 10)
          [(Loc.mk 9 10).wrap (StrRef.mk 40)])))
        { c8_start with
          i := 3
          ops := c8_start.ops ++ [(StrRef.mk 40, OpInfo.left 10)] } ∧
    opsGet (c8_start.ops ++ [(StrRef.mk 40, OpInfo.left 10)])
        (StrRef.mk 40) = some (OpInfo.left 10) ∧
    ¬(OpInfo.left 10).num ≤ 9 := by
  refine ⟨?_, by decide, by decide⟩
  rfl

/-- C8 (amended): every operator-table entry is left- or right-associative
with a natural-number precedence; the seeded table's precedences all lie in
`0..=9`, and a fixity declaration with a negative precedence is a
`NegativeFixity` error, while an omitted precedence defaults to 0 without
consuming a token; but a written precedence is inserted exactly as spelled,
with no upper bound, so precedences above 9 are reachable. -/
theorem claim_c8_amended :
    (∀ (lexer : List (Located Token)) (ll : Loc)
        (kv : StrRef × OpInfo), kv ∈ (Parser.new lexer ll).ops →
      kv.2.num ≤ 9) ∧
    (∀ (p : Parser) (v : Int) (isl : IsNumLab),
      p.peek.val = .DecInt v isl → v < 0 →
        fixity_num p = .err (p.peek.loc.wrap .NegativeFixity) p) ∧
    (∀ (p : Parser) (v : Int) (isl : IsNumLab),
      p.peek.val = .DecInt v isl → 0 ≤ v →
        fixity_num p = .ok (p.peek.loc.wrap v.toNat)
          { p with i := p.i + 1 }) ∧
    (∀ p : Parser, (∀ (v : Int) (isl : IsNumLab),
        p.peek.val ≠ .DecInt v isl) →
      fixity_num p = .ok (p.peek.loc.wrap 0) p) ∧
    (∀ (ops : List (StrRef × OpInfo)) (k : StrRef) (v : OpInfo),
      opsGet (opsInsert ops k v) k = some v) := by
  refine ⟨?_, ?_, ?_, ?_, ?_⟩
  · intro lexer ll kv hkv
    simp only [Parser.new, List.mem_cons, List.not_mem_nil, or_false] at hkv
    rcases hkv with h | h | h | h | h | h | h | h | h | h | h | h | h <;>
      subst h <;> decide
  · intro p v isl h hneg
    simp only [fixity_num, PM_bind_apply, peekM_apply]
    rw [h]
    simp only [if_pos hneg, errM_apply]
  · intro p v isl h hnn
    simp only [fixity_num, PM_bind_apply, peekM_apply]
    rw [h]
    simp only [if_neg (Int.not_lt.mpr hnn), skipM_apply, PM_pure_apply]
    rfl
  · intro p h
    simp only [fixity_num, PM_bind_apply, peekM_apply]
    cases hpv : p.peek.val <;>
      first
        | exact absurd hpv (h _ _)
        | rfl
  · intro ops k v
    induction ops with
    | nil => simp [opsInsert, opsGet]
    | cons e rest ih =>
      by_cases hk : e.1 = k
      · simp [opsInsert, hk, opsGet]
      · simp only [opsInsert, if_neg hk, opsGet, ih]

/-- Witness for C8's amended theorem at concrete inputs: the seeded entry
for `::` has precedence at most 9; `infix ~1` (a negative fixity) errors;
`infix 10` parses the fixity 10; `infix f` (no number) defaults to 0. -/
theorem claim_c8_amended_witness :
    (StrRef.CONS, OpInfo.right 5).2.num ≤ 9 ∧
    fixity_num { c8_start with lexer := [(Loc.mk 6 8).wrap
        (.DecInt (-1) .No)] } =
      .err ((Loc.mk 6 8).wrap .NegativeFixity)
        { c8_start with lexer := [(Loc.mk 6 8).wrap (.DecInt (-1) .No)] } ∧
    fixity_num { c8_start with i := 1 } =
      .ok ((Loc.mk 6 8).wrap 10) { c8_start with i := 2 } ∧
    fixity_num { c8_start with i := 2 } =
      .ok ((Loc.mk 9 10).wrap 0) { c8_start with i := 2 } ∧
    opsGet (opsInsert [] (StrRef.mk 40) (OpInfo.left 10)) (StrRef.mk 40) =
      some (OpInfo.left 10) := by
  refine ⟨?_, ?_, ?_, ?_, ?_⟩
  · exact claim_c8_amended.1 [] (Loc.mk 0 0) _ (by decide)
  · exact claim_c8_amended.2.1 _ (-1) .No rfl (by decide)
  · exact claim_c8_amended.2.2.1 _ 10 .No rfl (by decide)
  · exact claim_c8_amended.2.2.2.1 _ (fun v isl h => nomatch h)
  · exact claim_c8_amended.2.2.2.2 [] (StrRef.mk 40) (OpInfo.left 10)

/-! C1: whether an erroring `check` leaves the basis unchanged. -/

/-- C1 counterexample: checking `exception E` under a pending overload
constraint that no candidate satisfies returns the `NoSuitableOverload`
error, yet the basis passed `&mut` has already been extended with `E`
(`bs.add_env(env)` runs in the match-arm phase, before the
overload-resolution pass at the tail of `ck`), so this error does not
leave the basis unchanged. -/
theorem claim_c1_counterexample :
    top_dec_ck 10 c1_basis c1_state c1_top_dec =
      .err (c1_ov_loc.wrap .NoSuitableOverload) c1_basis_after
        ⟨1, 100, [(0, Ty.STRING)], [], []⟩ ∧
    c1_basis_after ≠ c1_basis := by
  refine ⟨rfl, fun h => ?_⟩
  have := congrArg (fun b : Basis' => b.env.val_env.length) h
  exact absurd this (by decide)

/-- C1 (amended): errors raised while elaborating the declaration itself
(the match-arm phase of `ck`) leave the basis exactly as it was passed in:
a failing `StrDec` or `SigDec` elaboration, and the `Todo` error on any
non-empty `FunDec`, all return the original basis. (The
`NoSuitableOverload` error of the tail overload-resolution pass is the
exception: it is raised after `bs.add_env`/`bs.add_sig_env` has already
updated the basis, as the counterexample shows.) -/
theorem claim_c1_amended (n : Nat) (bs : Basis') (st : State)
    (td : Located TopDec) (e : Located Error) (st' : State) :
    (∀ sd, td.val = .StrDec sd → ck_str_dec n bs sd st = .err e st' →
      top_dec_ck n bs st td = .err e bs st') ∧
    (∀ sbs, td.val = .SigDec sbs →
      ck_sig_binds n bs sbs [] st = .err e st' →
        top_dec_ck n bs st td = .err e bs st') ∧
    (∀ fb fbs, td.val = .FunDec (fb :: fbs) →
      top_dec_ck n bs st td =
        .err (fb.fun_id.loc.wrap (.Todo "`functor`")) bs st) := by
  refine ⟨fun sd htd h => ?_, fun sbs htd h => ?_, fun fb fbs htd => ?_⟩
  · unfold top_dec_ck
    rw [htd]
    dsimp only
    rw [h]
  · unfold top_dec_ck
    rw [htd]
    dsimp only
    rw [h]
  · unfold top_dec_ck
    rw [htd]

/-- Witness for C1's amended theorem at a concrete input: `functor F ...`
(a non-empty `FunDec`) errors with the unsupported-construct diagnostic and
returns the basis unchanged. -/
theorem claim_c1_amended_witness :
    top_dec_ck 0 c1_basis c1_state
        ((Loc.mk 0 7).wrap (TopDec.FunDec [c1_fun_bind])) =
      .err ((Loc.mk 8 9).wrap (.Todo "`functor`")) c1_basis c1_state :=
  (claim_c1_amended 0 c1_basis c1_state _ ((Loc.mk 8 9).wrap .Unreachable)
      c1_state).2.2 c1_fun_bind [] rfl

/-! C2: the overload-resolution pass. -/

/-- C2: the overload-resolution pass at the tail of `ck` processes the
pending overload constraints taken (`mem::take`) from the state, so a
successful `check` leaves no pending constraints; for each constrained
variable the candidate types are tried in order, each attempt unifying
against a clone of the current substitution (a failed attempt leaves the
substitution untouched and the next candidate is tried on the same
substitution); the first success is committed as the new substitution, and
if no candidate fits the result is `NoSuitableOverload` at the location
recorded with the constraint. -/
theorem claim_c2_overload_resolution (n : Nat) (sym_tys : SymTys)
    (s : Subst) (loc : Loc) (tv : TyVar) :
    (tryOverloads n sym_tys s loc tv [] = .noneFit) ∧
    (∀ t rest pre, Subst.unify n s loc sym_tys (.Var tv) t = .ok pre →
      tryOverloads n sym_tys s loc tv (t :: rest) = .found pre) ∧
    (∀ t rest e, Subst.unify n s loc sym_tys (.Var tv) t = .err e →
      tryOverloads n sym_tys s loc tv (t :: rest) =
        tryOverloads n sym_tys s loc tv rest) ∧
    (∀ tys rest pre, tryOverloads n sym_tys s loc tv tys = .found pre →
      resolveOverloads n sym_tys s ((tv, (loc, tys)) :: rest) =
        resolveOverloads n sym_tys pre rest) ∧
    (∀ tys rest, tryOverloads n sym_tys s loc tv tys = .noneFit →
      resolveOverloads n sym_tys s ((tv, (loc, tys)) :: rest) =
        .err (loc.wrap .NoSuitableOverload) s) ∧
    (∀ (bs : Basis') (st : State) (td : Located TopDec) (bs' : Basis')
        (st' : State), top_dec_ck n bs st td = .ok bs' st' →
      st'.overload = []) := by
  refine ⟨rfl, fun t rest pre h => ?_, fun t rest e h => ?_,
    fun tys rest pre h => ?_, fun tys rest h => ?_,
    fun bs st td bs' st' h => ?_⟩
  · conv_lhs => unfold tryOverloads
    rw [h]
  · conv_lhs => unfold tryOverloads
    rw [h]
  · conv_lhs => unfold resolveOverloads
    rw [h]
  · conv_lhs => unfold resolveOverloads
    rw [h]
  · unfold top_dec_ck at h
    cases htd : td.val <;> rw [htd] at h <;> dsimp only at h
    case StrDec sd =>
      cases hsd : ck_str_dec n bs sd st <;> rw [hsd] at h <;>
        dsimp only at h
      · cases h
      · cases h
      case ok env st1 =>
        cases hov : resolveOverloads n st1.sym_tys st1.subst st1.overload <;>
          rw [hov] at h <;> cases h <;> rfl
    case SigDec sbs =>
      cases hsd : ck_sig_binds n bs sbs [] st <;> rw [hsd] at h <;>
        dsimp only at h
      · cases h
      · cases h
      case ok env st1 =>
        cases hov : resolveOverloads n st1.sym_tys st1.subst st1.overload <;>
          rw [hov] at h <;> cases h <;> rfl
    case FunDec fbs =>
      cases fbs <;> dsimp only at h
      · cases hov : resolveOverloads n st.sym_tys st.subst st.overload <;>
          rw [hov] at h <;> cases h <;> rfl
      · cases h

/-- Witness for C2 at concrete inputs: a fitting first candidate is
committed; a failed candidate attempt falls through to the rest; an
unsatisfiable constraint yields `NoSuitableOverload` at its recorded
location; and a successful `check` of `val x = 1` leaves the pending
overload list empty. -/
theorem claim_c2_overload_resolution_witness :
    tryOverloads 5 [] [] (Loc.mk 7 8) ⟨0, false⟩ [Ty.INT] =
      .found [(0, Ty.INT)] ∧
    tryOverloads 5 [] [(0, Ty.STRING)] (Loc.mk 7 8) ⟨0, false⟩
        [Ty.INT, Ty.STRING] =
      tryOverloads 5 [] [(0, Ty.STRING)] (Loc.mk 7 8) ⟨0, false⟩
        [Ty.STRING] ∧
    resolveOverloads 10 [] [(0, Ty.STRING)]
        [(⟨0, false⟩, (Loc.mk 7 8, [Ty.INT]))] =
      .err ((Loc.mk 7 8).wrap .NoSuitableOverload) [(0, Ty.STRING)] ∧
    (⟨1, 100, [(0, Ty.INT)], [], []⟩ : State).overload = [] := by
  refine ⟨?_, ?_, ?_, ?_⟩
  · exact (claim_c2_overload_resolution 5 [] [] (Loc.mk 7 8)
      ⟨0, false⟩).2.1 Ty.INT [] [(0, Ty.INT)] rfl
  · exact (claim_c2_overload_resolution 5 [] [(0, Ty.STRING)] (Loc.mk 7 8)
      ⟨0, false⟩).2.2.1 Ty.INT [Ty.STRING]
      ((Loc.mk 7 8).wrap .HeadMismatch) rfl
  · exact (claim_c2_overload_resolution 10 [] [(0, Ty.STRING)] (Loc.mk 7 8)
      ⟨0, false⟩).2.2.2.2.1 [Ty.INT] [] rfl
  · exact (claim_c2_overload_resolution 20 []
      [] (Loc.mk 0 0) ⟨0, false⟩).2.2.2.2.2
      ⟨[], .mk [] [] [], [], []⟩ ⟨0, 100, [], [], []⟩
      ((Loc.mk 0 11).wrap (TopDec.StrDec ((Loc.mk 0 11).wrap (StrDec.Dec
        ((Loc.mk 0 11).wrap (Dec.Val [] [ValBind.mk false
          ((Loc.mk 4 5).wrap (Pat.LongVid ⟨[], (Loc.mk 4 5).wrap
            (StrRef.mk 201)⟩))
          ((Loc.mk 8 9).wrap (Exp.DecInt 1))]))))))
      ⟨[], .mk [(StrRef.mk 201, ⟨⟨[], Ty.INT⟩, .Val⟩)] [] [], [], []⟩
      ⟨1, 100, [(0, Ty.INT)], [], []⟩ rfl

/-! C9: forbidden binding names in `val` declarations. -/

/-- C9: `ck_binding` rejects exactly the names `true`, `false`, `nil`,
`::`, `ref`, with a `ForbiddenBinding` error carrying the name at the given
location; a list of bound names containing a forbidden one always fails the
per-pattern check; and in a (non-recursive) `val` binding whose pattern
elaborates to a value environment, a failing name check makes the whole
declaration error with that `ForbiddenBinding`, located at the pattern. -/
theorem claim_c9_forbidden_bindings (n : Nat) (cx : Cx) (st st1 : State)
    (dloc : Loc) (vb : ValBind) (ve : List (StrRef × ValInfo)) (pt : Ty)
    (sp : SPat) :
    (∀ name : Located StrRef,
      ck_binding name = .error (name.loc.wrap (.ForbiddenBinding name.val))
        ↔ name.val ∈ [StrRef.TRUE, StrRef.FALSE, StrRef.NIL, StrRef.CONS,
            StrRef.REF]) ∧
    (∀ name : Located StrRef,
      ck_binding name = .ok ()
        ↔ name.val ∉ [StrRef.TRUE, StrRef.FALSE, StrRef.NIL, StrRef.CONS,
            StrRef.REF]) ∧
    (∀ (names : List StrRef) (loc : Loc),
      (∃ nm ∈ names, nm ∈ [StrRef.TRUE, StrRef.FALSE, StrRef.NIL,
          StrRef.CONS, StrRef.REF]) →
        ∃ nm ∈ names, nm ∈ [StrRef.TRUE, StrRef.FALSE, StrRef.NIL,
            StrRef.CONS, StrRef.REF] ∧
          ck_bindings_all names loc =
            .error (loc.wrap (.ForbiddenBinding nm))) ∧
    (vb.rec' = false →
      patCk n cx vb.pat st = .ok (ve, pt, sp) st1 →
      ∀ e, ck_bindings_all (ve.map (fun kv => kv.1)) vb.pat.loc =
          .error e →
        dec_ck (n + 2) cx (dloc.wrap (Dec.Val [] [vb])) st = .err e st1) := by
  have hforb : ∀ name : Located StrRef,
      ck_binding name = .error (name.loc.wrap (.ForbiddenBinding name.val))
        ↔ name.val ∈ [StrRef.TRUE, StrRef.FALSE, StrRef.NIL, StrRef.CONS,
            StrRef.REF] := by
    intro name
    unfold ck_binding
    by_cases h : name.val = StrRef.TRUE ∨ name.val = StrRef.FALSE ∨
        name.val = StrRef.NIL ∨ name.val = StrRef.CONS ∨
        name.val = StrRef.REF
    · rw [if_pos h]
      simp only [List.mem_cons, List.not_mem_nil, or_false]
      exact iff_of_true trivial h
    · rw [if_neg h]
      simp only [List.mem_cons, List.not_mem_nil, or_false]
      exact iff_of_false (fun hf => nomatch hf) h
  refine ⟨hforb, ?_, ?_, ?_⟩
  · intro name
    unfold ck_binding
    by_cases h : name.val = StrRef.TRUE ∨ name.val = StrRef.FALSE ∨
        name.val = StrRef.NIL ∨ name.val = StrRef.CONS ∨
        name.val = StrRef.REF
    · rw [if_pos h]
      simp only [List.mem_cons, List.not_mem_nil, or_false]
      exact iff_of_false (fun hf => nomatch hf) (fun hnm => hnm h)
    · rw [if_neg h]
      simp only [List.mem_cons, List.not_mem_nil, or_false]
      exact iff_of_true trivial h
  · intro names loc hex
    induction names with
    | nil =>
      obtain ⟨nm, hmem, _⟩ := hex
      cases hmem
    | cons a rest ih =>
      by_cases ha : a ∈ [StrRef.TRUE, StrRef.FALSE, StrRef.NIL,
          StrRef.CONS, StrRef.REF]
      · refine ⟨a, List.mem_cons_self a rest, ha, ?_⟩
        conv_lhs => unfold ck_bindings_all
        rw [(hforb (loc.wrap a)).mpr ha]
        rfl
      · have hex' : ∃ nm ∈ rest, nm ∈ [StrRef.TRUE, StrRef.FALSE,
            StrRef.NIL, StrRef.CONS, StrRef.REF] := by
          obtain ⟨nm, hmem, hf⟩ := hex
          rcases List.mem_cons.mp hmem with h1 | h1
          · exact absurd (h1 ▸ hf) ha
          · exact ⟨nm, h1, hf⟩
        obtain ⟨nm, hmem, hf, heq⟩ := ih hex'
        refine ⟨nm, List.mem_cons_of_mem a hmem, hf, ?_⟩
        conv_lhs => unfold ck_bindings_all
        have hok : ck_binding (loc.wrap a) = .ok () := by
          unfold ck_binding
          rw [if_neg]
          intro hc
          exact ha (by simpa using hc)
        rw [hok]
        exact heq
  · intro hrec hpat e hbind
    simp only [dec_ck, ckFns, ckStep]
    simp only [dec_ck_body, Loc.wrap]
    rw [CkM_bind_apply]
    simp only [dec_ck_val_binds_body]
    rw [hrec]
    simp only [Bool.false_eq_true, if_false, CkM_bind_apply]
    rw [hpat]
    simp only [liftCkE_apply, hbind]

/-- Witness for C9 at the concrete declaration `val ref = 1` in an empty
context: the pattern binds the forbidden name `ref` and the declaration
errors with `ForbiddenBinding ref` at the pattern's location. -/
theorem claim_c9_forbidden_bindings_witness :
    ck_binding ((Loc.mk 4 7).wrap StrRef.REF) =
      .error ((Loc.mk 4 7).wrap (.ForbiddenBinding StrRef.REF)) ∧
    dec_ck 7 ⟨[], [], .mk [] [] []⟩ ((Loc.mk 0 11).wrap
        (Dec.Val [] [c9_val_bind])) ⟨0, 100, [], [], []⟩ =
      .err ((Loc.mk 4 7).wrap (.ForbiddenBinding StrRef.REF))
        ⟨1, 100, [], [], []⟩ := by
  constructor
  · exact (claim_c9_forbidden_bindings 5 ⟨[], [], .mk [] [] []⟩
      ⟨0, 100, [], [], []⟩ ⟨1, 100, [], [], []⟩ (Loc.mk 0 11) c9_val_bind
      [(StrRef.REF, ⟨⟨[], .Var ⟨0, false⟩⟩, .Val⟩)] (.Var ⟨0, false⟩)
      .Anything).1 ((Loc.mk 4 7).wrap StrRef.REF) |>.mpr (by decide)
  · exact (claim_c9_forbidden_bindings 5 ⟨[], [], .mk [] [] []⟩
      ⟨0, 100, [], [], []⟩ ⟨1, 100, [], [], []⟩ (Loc.mk 0 11) c9_val_bind
      [(StrRef.REF, ⟨⟨[], .Var ⟨0, false⟩⟩, .Val⟩)] (.Var ⟨0, false⟩)
      .Anything).2.2.2 rfl rfl
      ((Loc.mk 4 7).wrap (.ForbiddenBinding StrRef.REF)) rfl

/-! C5: `let` expressions and the type-name escape check. -/

/-- C5: elaborating `let d in e1; ...; en end` elaborates the declaration,
elaborates the body expressions under the context extended with the
declaration's environment (`cx.o_plus env`), applies the current
substitution to the last body expression's type, and then checks that
every type name in the result was already known in the enclosing (not the
extended) context: if so, that type is the expression's type; otherwise
the result is a `TyNameEscape` error located at the last body
expression. -/
theorem claim_c5_let_ty_name_escape (n : Nat) (cx : Cx) (st st1 st2 : State)
    (l : Loc) (d : Located Dec) (exps : List (Located Exp)) (env : Env)
    (loc : Loc) (ty t' : Ty)
    (h1 : dec_ck n cx d st = .ok env st1)
    (h2 : ck_exp_let n (cx.o_plus env) exps none st1 =
      .ok (some (loc, ty)) st2)
    (h3 : Ty.apply n st2.subst ty = some t') :
    ck_exp (n + 1) cx (l.wrap (Exp.Let d exps)) st =
      if namesSubset t'.ty_names cx.ty_names then .ok t' st2
      else .err (loc.wrap .TyNameEscape) st2 := by
  simp only [dec_ck] at h1
  simp only [ck_exp_let] at h2
  simp only [ck_exp, ckFns, ckStep]
  simp only [ck_exp_body, Loc.wrap]
  rw [CkM_bind_apply, h1]
  dsimp only
  rw [CkM_bind_apply, h2]
  dsimp only
  rw [CkM_bind_apply, getStM_apply]
  dsimp only
  rw [h3]
  dsimp only
  split <;> rfl

/-- Witness for C5 at the concrete expression `let in 3 end` (an empty
declaration sequence) in a context that knows the type name `int`: the
body's type `int` does not escape and the expression has type `int`. -/
theorem claim_c5_let_ty_name_escape_witness :
    ck_exp 6 ⟨[], [StrRef.INT], .mk [] [] []⟩
        ((Loc.mk 0 16).wrap (Exp.Let ((Loc.mk 4 4).wrap (Dec.Seq []))
          [(Loc.mk 14 15).wrap (Exp.DecInt 3)]))
        ⟨0, 100, [], [], []⟩ =
      .ok Ty.INT ⟨0, 100, [], [], []⟩ := by
  have := claim_c5_let_ty_name_escape 5 ⟨[], [StrRef.INT], .mk [] [] []⟩
    ⟨0, 100, [], [], []⟩ ⟨0, 100, [], [], []⟩ ⟨0, 100, [], [], []⟩
    (Loc.mk 0 16) ((Loc.mk 4 4).wrap (Dec.Seq []))
    [(Loc.mk 14 15).wrap (Exp.DecInt 3)] (.mk [] [] [])
    (Loc.mk 14 15) Ty.INT Ty.INT rfl rfl rfl
  rw [this]
  rfl

/-! C7: typing of sequence expressions. -/

/-- C7: a sequence expression `(e1; ...; en)` elaborates its constituent
expressions strictly in order, each under the same context, propagating
the first failure; the running value is simply replaced by each
expression's type (no unification constrains one constituent against
another, so the loop's result does not depend on the carried value for a
non-empty list); the sequence's type is the last constituent's type; and
the `Sequence` arm of `ck_exp` returns exactly the loop's final type. -/
theorem claim_c7_sequence :
    (∀ (n : Nat) (cx : Cx) (ret : Option Ty) (st : State),
      ck_exp_seq (n + 1) cx [] ret st = .ok ret st) ∧
    (∀ (n : Nat) (cx : Cx) (e0 : Located Exp) (rest : List (Located Exp))
        (ret : Option Ty) (st : State),
      ck_exp_seq (n + 1) cx (e0 :: rest) ret st =
        match ck_exp n cx e0 st with
        | .oof => .oof
        | .err e st' => .err e st'
        | .ok t st' => ck_exp_seq n cx rest (some t) st') ∧
    (∀ (n : Nat) (cx : Cx) (e0 : Located Exp) (rest : List (Located Exp))
        (ret ret' : Option Ty) (st : State),
      ck_exp_seq (n + 1) cx (e0 :: rest) ret st =
        ck_exp_seq (n + 1) cx (e0 :: rest) ret' st) ∧
    (∀ (n : Nat) (cx : Cx) (l : Loc) (exps : List (Located Exp))
        (st : State),
      ck_exp (n + 1) cx (l.wrap (Exp.Sequence exps)) st =
        match ck_exp_seq n cx exps none st with
        | .oof => .oof
        | .err e st' => .err e st'
        | .ok none st' => .err (l.wrap .Unreachable) st'
        | .ok (some t) st' => .ok t st') ∧
    (∀ (fuel : Nat) (cx : Cx) (exps : List (Located Exp))
        (ret r : Option Ty) (st st' : State) (e_last : Located Exp),
      ck_exp_seq fuel cx exps ret st = .ok r st' →
      exps.getLast? = some e_last →
        ∃ tl stl, r = some tl ∧
          ck_exp (fuel - exps.length) cx e_last stl = .ok tl st') := by
  have hnil : ∀ (n : Nat) (cx : Cx) (ret : Option Ty) (st : State),
      ck_exp_seq (n + 1) cx [] ret st = .ok ret st := by
    intro n cx ret st
    rfl
  have hstep : ∀ (n : Nat) (cx : Cx) (e0 : Located Exp)
      (rest : List (Located Exp)) (ret : Option Ty) (st : State),
      ck_exp_seq (n + 1) cx (e0 :: rest) ret st =
        match ck_exp n cx e0 st with
        | .oof => .oof
        | .err e st' => .err e st'
        | .ok t st' => ck_exp_seq n cx rest (some t) st' := by
    intro n cx e0 rest ret st
    simp only [ck_exp_seq, ck_exp, ckFns, ckStep, ck_exp_seq_body]
    rw [CkM_bind_apply]
    cases hck : (ckFns n).ck_exp cx e0 st <;> rfl
  refine ⟨hnil, hstep, ?_, ?_, ?_⟩
  · intro n cx e0 rest ret ret' st
    rw [hstep, hstep]
  · intro n cx l exps st
    simp only [ck_exp, ck_exp_seq, ckFns, ckStep]
    simp only [ck_exp_body, Loc.wrap]
    rw [CkM_bind_apply]
    cases hseq : (ckFns n).ck_exp_seq cx exps none st with
    | oof => rfl
    | err e st1 => rfl
    | ok r st1 =>
      cases r <;> rfl
  · intro fuel cx exps
    induction exps generalizing fuel with
    | nil =>
      intro ret r st st' e_last _ hlast
      cases hlast
    | cons e0 rest ih =>
      intro ret r st st' e_last hrun hlast
      cases fuel with
      | zero => cases hrun
      | succ m =>
        rw [hstep] at hrun
        cases hck : ck_exp m cx e0 st with
        | oof => rw [hck] at hrun; cases hrun
        | err e st1 => rw [hck] at hrun; cases hrun
        | ok t st1 =>
          rw [hck] at hrun
          dsimp only at hrun
          cases rest with
          | nil =>
            cases m with
            | zero => cases hrun
            | succ m' =>
              rw [hnil] at hrun
              cases hrun
              simp only [List.getLast?_singleton, Option.some.injEq] at hlast
              subst hlast
              refine ⟨t, st, rfl, ?_⟩
              simpa using hck
          | cons e1 rest' =>
            have hlast' : (e1 :: rest').getLast? = some e_last := by
              simpa using hlast
            obtain ⟨tl, stl, hr, hckl⟩ := ih m (some t) r st1 st' e_last
              hrun hlast'
            refine ⟨tl, stl, hr, ?_⟩
            have : m + 1 - (e0 :: e1 :: rest').length =
                m - (e1 :: rest').length := by
              simp only [List.length_cons]
              omega
            rw [this]
            exact hckl

/-- Witness for C7 at the concrete sequence `(1; "s")` in an empty context:
the loop's result is the last constituent's type `string`. -/
theorem claim_c7_sequence_witness :
    ∃ tl stl, (some Ty.STRING : Option Ty) = some tl ∧
      ck_exp (4 - [c7_exp1, c7_exp2].length) ⟨[], [], .mk [] [] []⟩
        c7_exp2 stl = .ok tl ⟨0, 100, [], [], []⟩ :=
  claim_c7_sequence.2.2.2.2 4 ⟨[], [], .mk [] [] []⟩ [c7_exp1, c7_exp2]
    none (some Ty.STRING) ⟨0, 100, [], [], []⟩ ⟨0, 100, [], [], []⟩
    c7_exp2 rfl rfl

/-! C3: lexical scoping of the operator table. The development proves that
the signature/specification sublanguage never changes the operator table
(`PresOps`), and that each of the four snapshot/restore constructs leaves
the table as it found it. -/

theorem presOps_pure {α : Type} (a : α) : PresOps (pure a : PM α) := by
  intro p b p' h
  injection h with h1 h2
  rw [← h2]

theorem presOps_bind {α β : Type} {m : PM α} {f : α → PM β}
    (hm : PresOps m) (hf : ∀ a, PresOps (f a)) : PresOps (m >>= f) := by
  intro p b p' h
  rw [PM_bind_apply] at h
  cases hm' : m p with
  | oof => rw [hm'] at h; cases h
  | err e q => rw [hm'] at h; cases h
  | ok a q =>
    rw [hm'] at h
    dsimp only at h
    exact (hf a q b p' h).trans (hm p a q hm')

theorem presOps_ite {α : Type} {c : Prop} [Decidable c] {m₁ m₂ : PM α}
    (h1 : PresOps m₁) (h2 : PresOps m₂) : PresOps (if c then m₁ else m₂) := by
  by_cases hc : c
  · rw [if_pos hc]; exact h1
  · rw [if_neg hc]; exact h2

theorem presOps_oof {α : Type} : PresOps (fun _ => .oof : PM α) := by
  intro p a p' h
  cases h

theorem presOps_peekM : PresOps peekM := by
  intro p a p' h
  injection h with h1 h2
  rw [← h2]

theorem presOps_skipM : PresOps skipM := by
  intro p a p' h
  injection h with h1 h2
  rw [← h2]

theorem presOps_backM : PresOps backM := by
  intro p a p' h
  injection h with h1 h2
  rw [← h2]

theorem presOps_getOpsM : PresOps getOpsM := by
  intro p a p' h
  injection h with h1 h2
  rw [← h2]

theorem presOps_getIM : PresOps getIM := by
  intro p a p' h
  injection h with h1 h2
  rw [← h2]

theorem presOps_setIM (k : Nat) : PresOps (setIM k) := by
  intro p a p' h
  injection h with h1 h2
  rw [← h2]

theorem presOps_getPM : PresOps getPM := by
  intro p a p' h
  injection h with h1 h2
  rw [← h2]

theorem presOps_wrapM {α : Type} (begin : Loc) (v : α) :
    PresOps (wrapM begin v) := by
  intro p a p' h
  injection h with h1 h2
  rw [← h2]

theorem presOps_failM {α : Type} (want : String) (tok : Located Token) :
    PresOps (failM want tok : PM α) := by
  intro p a p' h
  cases h

theorem presOps_errM {α : Type} (e : Located ParseError) :
    PresOps (errM e : PM α) := by
  intro p a p' h
  cases h

theorem presOps_liftP {α : Type} (e : Except (Located ParseError) α) :
    PresOps (liftP e) := by
  intro p a p' h
  cases e with
  | ok v => injection h with h1 h2; rw [← h2]
  | error er => cases h

theorem presOps_eatM (tok : Token) : PresOps (eatM tok) := by
  unfold eatM
  exact presOps_bind presOps_peekM fun next =>
    presOps_ite presOps_skipM (presOps_failM _ _)

theorem presOps_ident : PresOps ident := by
  unfold ident
  refine presOps_bind presOps_peekM fun tok => ?_
  refine presOps_bind presOps_skipM fun _ => ?_
  cases tok.val <;>
    first
      | exact presOps_pure _
      | exact presOps_failM _ _

theorem presOps_alpha_num_id : PresOps alpha_num_id := by
  unfold alpha_num_id
  refine presOps_bind presOps_peekM fun tok => ?_
  cases htv : tok.val <;>
    first
      | exact presOps_failM _ _
      | skip
  case Ident id typ =>
    cases typ
    · exact presOps_bind presOps_skipM fun _ => presOps_pure _
    · exact presOps_failM _ _

theorem presOps_label : PresOps label := by
  unfold label
  refine presOps_bind presOps_peekM fun tok => ?_
  refine presOps_bind presOps_skipM fun _ => ?_
  cases htv : tok.val <;>
    first
      | exact presOps_pure _
      | exact presOps_failM _ _
      | skip
  case DecInt v isl =>
    cases isl
    · exact presOps_pure _
    · exact presOps_failM _ _

theorem presOps_maybe_long_id_loop (n : Nat) (acc : List (Located StrRef)) :
    PresOps (maybe_long_id_loop n acc) := by
  induction n generalizing acc with
  | zero => exact presOps_oof
  | succ m ih =>
    unfold maybe_long_id_loop
    refine presOps_bind presOps_peekM fun tok => ?_
    cases htv : tok.val <;>
      first
        | exact presOps_ite (presOps_pure _)
            (presOps_bind presOps_peekM fun t => presOps_failM _ _)
        | skip
    case Ident id typ =>
      refine presOps_bind presOps_skipM fun _ => ?_
      cases typ
      · refine presOps_bind presOps_peekM fun tok2 => ?_
        cases htv2 : tok2.val <;>
          first
            | exact presOps_pure _
            | exact presOps_bind presOps_skipM fun _ => ih _
      · exact presOps_pure _

theorem presOps_maybe_long_id (n : Nat) : PresOps (maybe_long_id n) := by
  unfold maybe_long_id
  refine presOps_bind (presOps_maybe_long_id_loop n []) fun acc? => ?_
  cases acc? with
  | none => exact presOps_pure _
  | some acc =>
    dsimp only
    cases acc.getLast? with
    | none => exact presOps_oof
    | some last => exact presOps_pure _

theorem presOps_long_id (n : Nat) (allowInfix : Bool) :
    PresOps (long_id n allowInfix) := by
  unfold long_id
  refine presOps_bind (presOps_maybe_long_id n) fun r? => ?_
  cases r? with
  | none => exact presOps_bind presOps_peekM fun t => presOps_failM _ _
  | some ret =>
    refine presOps_bind presOps_getOpsM fun ops => ?_
    exact presOps_ite (presOps_errM _) (presOps_pure _)

theorem presOps_long_alpha_num_id_loop (n : Nat)
    (acc : List (Located StrRef)) :
    PresOps (long_alpha_num_id_loop n acc) := by
  induction n generalizing acc with
  | zero => exact presOps_oof
  | succ m ih =>
    unfold long_alpha_num_id_loop
    refine presOps_bind presOps_peekM fun tok => ?_
    cases htv : tok.val <;>
      first
        | exact presOps_bind presOps_peekM fun t => presOps_failM _ _
        | skip
    case Ident id typ =>
      cases typ
      · refine presOps_bind presOps_skipM fun _ => ?_
        refine presOps_bind presOps_peekM fun tok2 => ?_
        cases htv2 : tok2.val <;>
          first
            | exact presOps_pure _
            | exact presOps_bind presOps_skipM fun _ => ih _
      · exact presOps_bind presOps_peekM fun t => presOps_failM _ _

theorem presOps_long_alpha_num_id (n : Nat) :
    PresOps (long_alpha_num_id n) := by
  unfold long_alpha_num_id
  refine presOps_bind (presOps_long_alpha_num_id_loop n []) fun acc => ?_
  dsimp only
  cases acc.getLast? with
  | none => exact presOps_oof
  | some last => exact presOps_pure _

theorem presOps_ty_family (n : Nat) :
    PresOps (ty n) ∧ (∀ mp, PresOps (ty_prec n mp)) ∧
    (∀ acc, PresOps (ty_rows_loop n acc)) ∧
    (∀ acc, PresOps (ty_commas_loop n acc)) ∧
    (∀ mp b r, PresOps (ty_prec_loop n mp b r)) ∧
    (∀ acc, PresOps (ty_star_loop n acc)) := by
  induction n with
  | zero =>
    exact ⟨presOps_oof, fun _ => presOps_oof, fun _ => presOps_oof,
      fun _ => presOps_oof, fun _ _ _ => presOps_oof, fun _ => presOps_oof⟩
  | succ m ih =>
    obtain ⟨iht, ihp, ihr, ihc, ihpl, ihs⟩ := ih
    refine ⟨?_, ?_, ?_, ?_, ?_, ?_⟩
    · exact ihp .Arrow
    · intro min_prec
      unfold ty_prec
      refine presOps_bind presOps_peekM fun tok => ?_
      dsimp only
      refine presOps_bind ?_ fun ret => ihpl _ _ _
      cases htv : tok.val <;>
        first
          | exact presOps_failM _ _
          | skip
      case TyVar tv =>
        exact presOps_bind presOps_skipM fun _ => presOps_pure _
      case LCurly =>
        refine presOps_bind presOps_skipM fun _ => ?_
        refine presOps_bind presOps_peekM fun tok2 => ?_
        refine presOps_bind ?_ fun rows => presOps_pure _
        cases htv2 : tok2.val <;>
          first
            | exact presOps_bind presOps_skipM fun _ => presOps_pure _
            | exact ihr _
      case LRound =>
        refine presOps_bind presOps_skipM fun _ => ?_
        refine presOps_bind (ihc []) fun types => ?_
        refine presOps_bind (presOps_maybe_long_id m) fun ltc => ?_
        rcases types with _ | ⟨t, _ | ⟨t2, ts⟩⟩ <;> rcases ltc with _ | x <;>
          first
            | exact presOps_pure _
            | exact presOps_bind presOps_peekM fun tt => presOps_failM _ _
      case Ident id typ =>
        dsimp only
        exact presOps_ite (presOps_errM _)
          (presOps_bind (presOps_long_id m true) fun _ => presOps_pure _)
    · intro acc
      unfold ty_rows_loop
      refine presOps_bind presOps_label fun lab => ?_
      refine presOps_bind (presOps_eatM _) fun _ => ?_
      refine presOps_bind iht fun v => ?_
      dsimp only
      refine presOps_bind presOps_peekM fun tok => ?_
      refine presOps_bind presOps_skipM fun _ => ?_
      cases htv : tok.val <;>
        first
          | exact presOps_pure _
          | exact ihr _
          | exact presOps_failM _ _
    · intro acc
      unfold ty_commas_loop
      refine presOps_bind iht fun t => ?_
      dsimp only
      refine presOps_bind presOps_peekM fun tok => ?_
      refine presOps_bind presOps_skipM fun _ => ?_
      cases htv : tok.val <;>
        first
          | exact presOps_pure _
          | exact ihc _
          | exact presOps_failM _ _
    · intro min_prec begin ret
      unfold ty_prec_loop
      refine presOps_bind presOps_peekM fun tok => ?_
      cases htv : tok.val <;>
        first
          | exact presOps_wrapM _ _
          | skip
      case Arrow =>
        refine presOps_ite (presOps_wrapM _ _) ?_
        refine presOps_bind (presOps_wrapM _ _) fun lhs => ?_
        refine presOps_bind presOps_skipM fun _ => ?_
        exact presOps_bind (ihp _) fun rhs => ihpl _ _ _
      case Ident id typ =>
        dsimp only
        refine presOps_ite ?_ ?_
        · refine presOps_ite (presOps_wrapM _ _) ?_
          refine presOps_bind (presOps_wrapM _ _) fun fst => ?_
          refine presOps_bind presOps_skipM fun _ => ?_
          exact presOps_bind (ihs _) fun types => ihpl _ _ _
        · refine presOps_bind (presOps_wrapM _ _) fun lhs => ?_
          exact presOps_bind (presOps_long_id m true) fun long => ihpl _ _ _
    · intro acc
      unfold ty_star_loop
      refine presOps_bind (ihp .App) fun t => ?_
      dsimp only
      refine presOps_bind presOps_peekM fun tok => ?_
      cases htv : tok.val <;>
        first
          | exact presOps_pure _
          | skip
      case Ident id typ =>
        exact presOps_ite
          (presOps_bind presOps_skipM fun _ => ihs _) (presOps_pure _)

theorem presOps_ty (n : Nat) : PresOps (ty n) :=
  (presOps_ty_family n).1

theorem presOps_maybe_colon_ty (n : Nat) : PresOps (maybe_colon_ty n) := by
  unfold maybe_colon_ty
  refine presOps_bind presOps_peekM fun tok => ?_
  cases htv : tok.val <;>
    first
      | exact presOps_pure _
      | exact presOps_bind presOps_skipM fun _ =>
          presOps_bind (presOps_ty n) fun t => presOps_pure _

theorem presOps_maybe_of_ty (n : Nat) : PresOps (maybe_of_ty n) := by
  unfold maybe_of_ty
  refine presOps_bind presOps_peekM fun tok => ?_
  cases htv : tok.val <;>
    first
      | exact presOps_pure _
      | exact presOps_bind presOps_skipM fun _ =>
          presOps_bind (presOps_ty n) fun t => presOps_pure _

theorem presOps_ty_var_seq_loop (n : Nat) (acc : List (Located TyVarTok)) :
    PresOps (ty_var_seq_loop n acc) := by
  induction n generalizing acc with
  | zero => exact presOps_oof
  | succ m ih =>
    unfold ty_var_seq_loop
    refine presOps_bind presOps_peekM fun tok => ?_
    cases htv : tok.val <;>
      first
        | exact presOps_failM _ _
        | skip
    case TyVar tv =>
      refine presOps_bind presOps_skipM fun _ => ?_
      dsimp only
      refine presOps_bind presOps_peekM fun tok2 => ?_
      refine presOps_bind presOps_skipM fun _ => ?_
      cases htv2 : tok2.val <;>
        first
          | exact presOps_pure _
          | exact ih _
          | exact presOps_failM _ _

theorem presOps_ty_var_seq (n : Nat) : PresOps (ty_var_seq n) := by
  unfold ty_var_seq
  refine presOps_bind presOps_peekM fun tok => ?_
  cases htv : tok.val <;>
    first
      | exact presOps_pure _
      | skip
  case TyVar tv =>
    exact presOps_bind presOps_skipM fun _ => presOps_pure _
  case LRound =>
    refine presOps_bind presOps_skipM fun _ => ?_
    refine presOps_bind presOps_peekM fun tok2 => ?_
    cases htv2 : tok2.val <;>
      first
        | exact presOps_bind presOps_backM fun _ => presOps_pure _
        | exact presOps_ty_var_seq_loop n []

theorem presOps_con_binds_loop (n : Nat) (allow_op : Bool)
    (acc : List ConBind) : PresOps (con_binds_loop n allow_op acc) := by
  induction n generalizing acc with
  | zero => exact presOps_oof
  | succ m ih =>
    unfold con_binds_loop
    refine presOps_bind ?_ fun _ => ?_
    · unfold con_binds_op
      refine presOps_ite ?_ (presOps_pure _)
      refine presOps_bind presOps_peekM fun tok => ?_
      cases htv : tok.val <;>
        first
          | exact presOps_pure _
          | exact presOps_skipM
    · refine presOps_bind presOps_ident fun vid => ?_
      refine presOps_bind (presOps_maybe_of_ty m) fun t => ?_
      dsimp only
      refine presOps_bind presOps_peekM fun tok => ?_
      cases htv : tok.val <;>
        first
          | exact presOps_pure _
          | exact presOps_bind presOps_skipM fun _ => ih _

theorem presOps_con_binds (n : Nat) (allow_op : Bool) :
    PresOps (con_binds n allow_op) :=
  presOps_con_binds_loop n allow_op []

theorem presOps_dat_bind (n : Nat) (allow_op : Bool) :
    PresOps (dat_bind n allow_op) := by
  unfold dat_bind
  refine presOps_bind (presOps_ty_var_seq n) fun ty_vars => ?_
  refine presOps_bind presOps_ident fun ty_con => ?_
  refine presOps_bind (presOps_eatM _) fun _ => ?_
  exact presOps_bind (presOps_con_binds n allow_op) fun cons =>
    presOps_pure _

theorem presOps_datatype_dec_and_loop (n : Nat) (allow_op : Bool)
    (acc : List DatBind) : PresOps (datatype_dec_and_loop n allow_op acc) := by
  induction n generalizing acc with
  | zero => exact presOps_oof
  | succ m ih =>
    unfold datatype_dec_and_loop
    refine presOps_bind presOps_peekM fun tok => ?_
    cases htv : tok.val <;>
      first
        | exact presOps_pure _
        | exact presOps_bind presOps_skipM fun _ =>
            presOps_bind (presOps_dat_bind m allow_op) fun db => ih _

theorem presOps_datatype_dec (n : Nat) (allow_op : Bool) :
    PresOps (datatype_dec n allow_op) := by
  unfold datatype_dec
  refine presOps_bind presOps_skipM fun _ => ?_
  refine presOps_bind presOps_peekM fun tok => ?_
  refine presOps_bind ?_ fun first => ?_
  · cases htv : tok.val <;>
      first
        | exact presOps_bind (presOps_dat_bind n allow_op) fun db =>
            presOps_pure _
        | skip
    case Ident id typ =>
      dsimp only
      refine presOps_bind presOps_skipM fun _ => ?_
      refine presOps_bind (presOps_eatM _) fun _ => ?_
      refine presOps_bind presOps_peekM fun tok2 => ?_
      cases htv2 : tok2.val <;>
        first
          | exact presOps_bind presOps_skipM fun _ =>
              presOps_bind (presOps_long_id n true) fun long =>
                presOps_pure _
          | exact presOps_bind (presOps_con_binds n allow_op) fun cons =>
              presOps_pure _
  · cases first with
    | inl tcl => exact presOps_pure _
    | inr db =>
      exact presOps_bind (presOps_datatype_dec_and_loop n allow_op [db])
        fun dbs => presOps_pure _

theorem presOps_ty_descs_loop (n : Nat) (acc : List TyDesc) :
    PresOps (ty_descs_loop n acc) := by
  induction n generalizing acc with
  | zero => exact presOps_oof
  | succ m ih =>
    unfold ty_descs_loop
    refine presOps_bind (presOps_ty_var_seq m) fun ty_vars => ?_
    refine presOps_bind presOps_ident fun ty_con => ?_
    dsimp only
    refine presOps_bind presOps_peekM fun tok => ?_
    cases htv : tok.val <;>
      first
        | exact presOps_pure _
        | exact presOps_bind presOps_skipM fun _ => ih _

theorem presOps_ty_descs (n : Nat) : PresOps (ty_descs n) :=
  presOps_ty_descs_loop n []

theorem presOps_semi_result {T : Type} (xs : List (Located T))
    (seq : List (Located T) → T) : PresOps (semi_result xs seq) := by
  unfold semi_result
  rcases xs with _ | ⟨x, _ | ⟨y, rest⟩⟩
  · exact presOps_bind presOps_peekM fun tok => presOps_pure _
  · exact presOps_pure _
  · exact presOps_pure _

theorem specPres_decFns (n : Nat) : SpecPres (decFns n) := by
  induction n with
  | zero =>
    exact ⟨presOps_oof, fun _ _ => presOps_oof, presOps_oof,
      fun _ => presOps_oof, fun _ => presOps_oof, fun _ => presOps_oof,
      fun _ => presOps_oof, fun _ _ => presOps_oof, fun _ => presOps_oof,
      presOps_oof, fun _ => presOps_oof, fun _ _ => presOps_oof⟩
  | succ m ih =>
    obtain ⟨ihse, ihsel, ihms, ihvd, ihed, ihsd, ihinc, ihsh, ihtc, ihsp,
      ihss, ihstl⟩ := ih
    unfold SpecPres
    simp only [decFns, decStep]
    refine ⟨?_, ?_, ?_, ?_, ?_, ?_, ?_, ?_, ?_, ?_, ?_, ?_⟩
    · unfold sig_exp_body
      refine presOps_bind presOps_peekM fun tok => ?_
      dsimp only
      refine presOps_bind presOps_skipM fun _ => ?_
      refine presOps_bind ?_ fun ret => ihsel _ _
      cases htv : tok.val <;>
        first
          | exact presOps_failM _ _
          | skip
      case Sig =>
        exact presOps_bind ihsp fun sp =>
          presOps_bind (presOps_eatM _) fun _ => presOps_pure _
      case Ident id typ =>
        cases typ
        · exact presOps_pure _
        · exact presOps_failM _ _
    · intro b r
      unfold sig_exp_loop_body
      refine presOps_bind presOps_peekM fun tok => ?_
      refine presOps_ite ?_ (presOps_wrapM _ _)
      refine presOps_bind presOps_skipM fun _ => ?_
      refine presOps_bind (presOps_ty_var_seq m) fun ty_vars => ?_
      refine presOps_bind (presOps_long_id m true) fun ty_con => ?_
      refine presOps_bind (presOps_eatM _) fun _ => ?_
      refine presOps_bind (presOps_ty m) fun t => ?_
      exact presOps_bind (presOps_wrapM _ _) fun w => ihsel _ _
    · unfold maybe_spec_body
      refine presOps_bind presOps_peekM fun tok => ?_
      dsimp only
      refine presOps_bind ?_ fun ret? => ?_
      · cases htv : tok.val <;>
          first
            | exact presOps_pure _
            | skip
        case Val =>
          exact presOps_bind presOps_skipM fun _ =>
            presOps_bind (ihvd _) fun vds => presOps_pure _
        case Typ =>
          exact presOps_bind presOps_skipM fun _ =>
            presOps_bind (presOps_ty_descs m) fun tds => presOps_pure _
        case Eqtype =>
          exact presOps_bind presOps_skipM fun _ =>
            presOps_bind (presOps_ty_descs m) fun tds => presOps_pure _
        case Datatype =>
          refine presOps_bind (presOps_datatype_dec m false) fun dd => ?_
          cases dd <;> exact presOps_pure _
        case Exception =>
          exact presOps_bind presOps_skipM fun _ =>
            presOps_bind (ihed _) fun eds => presOps_pure _
        case Structure =>
          exact presOps_bind presOps_skipM fun _ =>
            presOps_bind (ihsd _) fun sds => presOps_pure _
        case Include =>
          refine presOps_bind presOps_skipM fun _ => ?_
          refine presOps_bind (ihinc _) fun sig_ids => ?_
          dsimp only
          exact presOps_ite
            (presOps_bind ihse fun e => presOps_pure _) (presOps_pure _)
      · cases ret? with
        | none => exact presOps_pure _
        | some ret =>
          dsimp only
          exact presOps_bind (ihsh _ _) fun r2 =>
            presOps_bind (presOps_wrapM _ _) fun w => presOps_pure _
    · intro acc
      unfold val_descs_loop_body
      refine presOps_bind presOps_ident fun vid => ?_
      refine presOps_bind (presOps_eatM _) fun _ => ?_
      refine presOps_bind (presOps_ty m) fun t => ?_
      dsimp only
      refine presOps_bind presOps_peekM fun tok => ?_
      exact presOps_ite
        (presOps_bind presOps_skipM fun _ => ihvd _) (presOps_pure _)
    · intro acc
      unfold ex_descs_loop_body
      refine presOps_bind presOps_ident fun vid => ?_
      refine presOps_bind (presOps_maybe_of_ty m) fun t => ?_
      dsimp only
      refine presOps_bind presOps_peekM fun tok => ?_
      exact presOps_ite
        (presOps_bind presOps_skipM fun _ => ihed _) (presOps_pure _)
    · intro acc
      unfold str_descs_loop_body
      refine presOps_bind presOps_alpha_num_id fun str_id => ?_
      refine presOps_bind (presOps_eatM _) fun _ => ?_
      refine presOps_bind ihse fun e => ?_
      dsimp only
      refine presOps_bind presOps_peekM fun tok => ?_
      exact presOps_ite
        (presOps_bind presOps_skipM fun _ => ihsd _) (presOps_pure _)
    · intro acc
      unfold include_sig_ids_loop_body
      refine presOps_bind presOps_peekM fun tok => ?_
      cases htv : tok.val <;>
        first
          | exact presOps_pure _
          | skip
      case Ident id typ =>
        cases typ
        · exact presOps_bind presOps_skipM fun _ => ihinc _
        · exact presOps_pure _
    · intro b r
      unfold sharing_loop_body
      refine presOps_bind presOps_peekM fun tok => ?_
      refine presOps_ite ?_ (presOps_pure _)
      refine presOps_bind presOps_skipM fun _ => ?_
      refine presOps_bind (presOps_eatM _) fun _ => ?_
      refine presOps_bind (ihtc _) fun ty_cons => ?_
      refine presOps_ite
        (presOps_bind presOps_peekM fun t => presOps_failM _ _) ?_
      exact presOps_bind (presOps_wrapM _ _) fun w => ihsh _ _
    · intro acc
      unfold ty_cons_loop_body
      refine presOps_bind (presOps_long_id m true) fun l => ?_
      dsimp only
      refine presOps_bind presOps_peekM fun tok => ?_
      exact presOps_ite
        (presOps_bind presOps_skipM fun _ => ihtc _) (presOps_pure _)
    · unfold spec_body
      exact presOps_bind (ihss _) fun xs => presOps_semi_result _ _
    · intro acc
      unfold spec_seq_loop_body
      refine presOps_bind ihms fun x? => ?_
      cases x? with
      | none => exact presOps_pure _
      | some x =>
        dsimp only
        refine presOps_bind presOps_peekM fun tok => ?_
        refine presOps_ite ?_ ?_
        · exact presOps_bind presOps_skipM fun _ => ihss _
        · exact presOps_bind (presOps_pure _) fun _ => ihss _
    · intro b r
      unfold str_exp_loop_body
      refine presOps_bind presOps_peekM fun tok => ?_
      refine presOps_ite ?_ (presOps_ite ?_ (presOps_wrapM _ _))
      · refine presOps_bind presOps_skipM fun _ => ?_
        refine presOps_bind ihse fun e => ?_
        exact presOps_bind (presOps_wrapM _ _) fun w => ihstl _ _
      · refine presOps_bind presOps_skipM fun _ => ?_
        refine presOps_bind ihse fun e => ?_
        exact presOps_bind (presOps_wrapM _ _) fun w => ihstl _ _

/-- C3: the operator table is lexically scoped. A `str_exp` beginning at
`struct` or `let` snapshots the table and restores it after the matching
`end` (the trailing ascription loop only parses signature material, which
never touches the table); `maybe_str_dec` at `local` and `maybe_dec` at
`local` restore their snapshot after `end`; `maybe_at_exp` at `let`
restores its snapshot after the body; and the whole signature-expression
sublanguage (`sig … end` included) leaves the table untouched. Hence for
`D1 ; struct D2 end ; D3`, declarations inside the construct have no
effect on the table visible afterwards. -/
theorem claim_c3_ops_scoping :
    (∀ (n : Nat) (p : Parser) (v : Located StrExp) (p' : Parser),
      p.peek.val = .Struct → str_exp n p = .ok v p' → p'.ops = p.ops) ∧
    (∀ (n : Nat) (p : Parser) (v : Located StrExp) (p' : Parser),
      p.peek.val = .Let → str_exp n p = .ok v p' → p'.ops = p.ops) ∧
    (∀ (n : Nat) (p : Parser) (v : Option (Located StrDec)) (p' : Parser),
      p.peek.val = .Local → maybe_str_dec n p = .ok v p' → p'.ops = p.ops) ∧
    (∀ (n : Nat) (p : Parser) (v : Option (Located Dec)) (p' : Parser),
      p.peek.val = .Local → maybe_dec n p = .ok v p' → p'.ops = p.ops) ∧
    (∀ (n : Nat) (p : Parser) (v : Option (Located Exp)) (p' : Parser),
      p.peek.val = .Let → maybe_at_exp n p = .ok v p' → p'.ops = p.ops) ∧
    (∀ (n : Nat) (p : Parser) (v : Located SigExp) (p' : Parser),
      sig_exp n p = .ok v p' → p'.ops = p.ops) := by
  refine ⟨?_, ?_, ?_, ?_, ?_, ?_⟩
  · intro n p v p' htok h
    cases n with
    | zero => cases h
    | succ m =>
      simp only [str_exp, decFns, decStep] at h
      unfold str_exp_body at h
      rw [PM_bind_apply, peekM_apply] at h
      dsimp only at h
      rw [if_pos htok] at h
      rw [PM_bind_apply, skipM_apply] at h
      dsimp only at h
      rw [PM_bind_apply, getOpsM_apply] at h
      dsimp only at h
      rw [PM_bind_apply] at h
      cases hd : (decFns m).str_dec { p with i := p.i + 1 } with
      | oof => rw [hd] at h; cases h
      | err e q => rw [hd] at h; cases h
      | ok d p2 =>
        rw [hd] at h
        dsimp only at h
        rw [PM_bind_apply] at h
        cases he : eatM .End p2 with
        | oof => rw [he] at h; cases h
        | err e q => rw [he] at h; cases h
        | ok u p3 =>
          rw [he] at h
          dsimp only at h
          rw [PM_bind_apply, setOpsM_apply] at h
          dsimp only at h
          rw [PM_bind_apply, PM_pure_apply] at h
          dsimp only at h
          have hsp := (specPres_decFns m).2.2.2.2.2.2.2.2.2.2.2 _ _ _ _ _ h
          exact hsp
  · intro n p v p' htok h
    cases n with
    | zero => cases h
    | succ m =>
      simp only [str_exp, decFns, decStep] at h
      unfold str_exp_body at h
      rw [PM_bind_apply, peekM_apply] at h
      dsimp only at h
      rw [htok] at h
      rw [if_neg (by decide), if_pos rfl] at h
      rw [PM_bind_apply, skipM_apply] at h
      dsimp only at h
      rw [PM_bind_apply, getOpsM_apply] at h
      dsimp only at h
      rw [PM_bind_apply] at h
      cases hd : (decFns m).str_dec { p with i := p.i + 1 } with
      | oof => rw [hd] at h; cases h
      | err e q => rw [hd] at h; cases h
      | ok d p2 =>
        rw [hd] at h
        dsimp only at h
        rw [PM_bind_apply] at h
        cases he : eatM .In p2 with
        | oof => rw [he] at h; cases h
        | err e q => rw [he] at h; cases h
        | ok u p3 =>
          rw [he] at h
          dsimp only at h
          rw [PM_bind_apply] at h
          cases hse : (decFns m).str_exp p3 with
          | oof => rw [hse] at h; cases h
          | err e q => rw [hse] at h; cases h
          | ok se p4 =>
            rw [hse] at h
            dsimp only at h
            rw [PM_bind_apply] at h
            cases he2 : eatM .End p4 with
            | oof => rw [he2] at h; cases h
            | err e q => rw [he2] at h; cases h
            | ok u2 p5 =>
              rw [he2] at h
              dsimp only at h
              rw [PM_bind_apply, setOpsM_apply] at h
              dsimp only at h
              rw [PM_bind_apply, PM_pure_apply] at h
              dsimp only at h
              have hsp := (specPres_decFns m).2.2.2.2.2.2.2.2.2.2.2 _ _ _ _ _ h
              exact hsp
  · intro n p v p' htok h
    cases n with
    | zero => cases h
    | succ m =>
      simp only [maybe_str_dec, decFns, decStep] at h
      unfold maybe_str_dec_body at h
      rw [PM_bind_apply, peekM_apply] at h
      dsimp only at h
      rw [htok] at h
      rw [if_neg (by decide), if_pos rfl] at h
      rw [PM_bind_apply, skipM_apply] at h
      dsimp only at h
      rw [PM_bind_apply, getOpsM_apply] at h
      dsimp only at h
      rw [PM_bind_apply] at h
      cases hd : (decFns m).str_dec { p with i := p.i + 1 } with
      | oof => rw [hd] at h; cases h
      | err e q => rw [hd] at h; cases h
      | ok d p2 =>
        rw [hd] at h
        dsimp only at h
        rw [PM_bind_apply] at h
        cases he : eatM .In p2 with
        | oof => rw [he] at h; cases h
        | err e q => rw [he] at h; cases h
        | ok u p3 =>
          rw [he] at h
          dsimp only at h
          rw [PM_bind_apply] at h
          cases hd2 : (decFns m).str_dec p3 with
          | oof => rw [hd2] at h; cases h
          | err e q => rw [hd2] at h; cases h
          | ok d2 p4 =>
            rw [hd2] at h
            dsimp only at h
            rw [PM_bind_apply] at h
            cases he2 : eatM .End p4 with
            | oof => rw [he2] at h; cases h
            | err e q => rw [he2] at h; cases h
            | ok u2 p5 =>
              rw [he2] at h
              dsimp only at h
              rw [PM_bind_apply, setOpsM_apply] at h
              dsimp only at h
              rw [PM_bind_apply, wrapM_apply] at h
              dsimp only at h
              rw [PM_pure_apply] at h
              injection h with h1 h2
              rw [← h2]
  · intro n p v p' htok h
    cases n with
    | zero => cases h
    | succ m =>
      simp only [maybe_dec, decFns, decStep] at h
      unfold maybe_dec_body at h
      rw [PM_bind_apply, peekM_apply] at h
      dsimp only at h
      rw [htok] at h
      dsimp only at h
      rw [PM_bind_apply] at h
      rw [PM_bind_apply, skipM_apply] at h
      dsimp only at h
      rw [PM_bind_apply, getOpsM_apply] at h
      dsimp only at h
      rw [PM_bind_apply] at h
      cases hd : (decFns m).dec { p with i := p.i + 1 } with
      | oof => rw [hd] at h; cases h
      | err e q => rw [hd] at h; cases h
      | ok d p2 =>
        rw [hd] at h
        dsimp only at h
        rw [PM_bind_apply] at h
        cases he : eatM .In p2 with
        | oof => rw [he] at h; cases h
        | err e q => rw [he] at h; cases h
        | ok u p3 =>
          rw [he] at h
          dsimp only at h
          rw [PM_bind_apply] at h
          cases hd2 : (decFns m).dec p3 with
          | oof => rw [hd2] at h; cases h
          | err e q => rw [hd2] at h; cases h
          | ok d2 p4 =>
            rw [hd2] at h
            dsimp only at h
            rw [PM_bind_apply] at h
            cases he2 : eatM .End p4 with
            | oof => rw [he2] at h; cases h
            | err e q => rw [he2] at h; cases h
            | ok u2 p5 =>
              rw [he2] at h
              dsimp only at h
              rw [PM_bind_apply, setOpsM_apply] at h
              dsimp only at h
              rw [PM_bind_apply, wrapM_apply] at h
              dsimp only at h
              rw [PM_pure_apply] at h
              injection h with h1 h2
              rw [← h2]
  · intro n p v p' htok h
    cases n with
    | zero => cases h
    | succ m =>
      simp only [maybe_at_exp, decFns, decStep] at h
      unfold maybe_at_exp_body at h
      rw [PM_bind_apply, peekM_apply] at h
      dsimp only at h
      rw [htok] at h
      dsimp only at h
      rw [PM_bind_apply] at h
      rw [PM_bind_apply, skipM_apply] at h
      dsimp only at h
      rw [PM_bind_apply, getOpsM_apply] at h
      dsimp only at h
      rw [PM_bind_apply] at h
      cases hd : (decFns m).dec { p with i := p.i + 1 } with
      | oof => rw [hd] at h; cases h
      | err e q => rw [hd] at h; cases h
      | ok d p2 =>
        rw [hd] at h
        dsimp only at h
        rw [PM_bind_apply] at h
        cases he : eatM .In p2 with
        | oof => rw [he] at h; cases h
        | err e q => rw [he] at h; cases h
        | ok u p3 =>
          rw [he] at h
          dsimp only at h
          rw [PM_bind_apply] at h
          cases hl : (decFns m).let_exps_loop [] p3 with
          | oof => rw [hl] at h; cases h
          | err e q => rw [hl] at h; cases h
          | ok exprs p4 =>
            rw [hl] at h
            dsimp only at h
            rw [PM_bind_apply, setOpsM_apply] at h
            dsimp only at h
            rw [PM_bind_apply, wrapM_apply] at h
            dsimp only at h
            rw [PM_pure_apply] at h
            injection h with h1 h2
            rw [← h2]
  · intro n p v p' h
    exact (specPres_decFns n).1 p v p' h

/-- Witness for C3 at concrete token streams: parsing `struct end` and
`local infix 5 f in end` both succeed and leave the operator table exactly
as it was. -/
theorem claim_c3_ops_scoping_witness :
    (∃ v p', str_exp 10 c3_struct_start = .ok v p' ∧
      p'.ops = c3_struct_start.ops) ∧
    (∃ v p', maybe_dec 20 c3_local_start = .ok v p' ∧
      p'.ops = c3_local_start.ops) := by
  constructor
  · obtain ⟨v, p', hvp⟩ :
        ∃ v p', str_exp 10 c3_struct_start = .ok v p' := ⟨_, _, rfl⟩
    exact ⟨v, p', hvp, claim_c3_ops_scoping.1 10 _ v p' rfl hvp⟩
  · obtain ⟨v, p', hvp⟩ :
        ∃ v p', maybe_dec 20 c3_local_start = .ok v p' := ⟨_, _, rfl⟩
    exact ⟨v, p', hvp, claim_c3_ops_scoping.2.2.2.1 20 _ v p' rfl hvp⟩
